import Mathlib

/-!
# Superman vs Ghost: a shallow embedding of the simulation core

Embedded sources: `Superman.cpp`, `Ghost.cpp`, `Projectile.cpp`,
`ParticleSystem.cpp` and the state machine of `Game.cpp`.

Conventions of the embedding.

* `float` values are rationals (`ℚ`). The variables that are counted down and
  compared with 0 (`punchTimer`, the lifetime of a projectile, the life of a
  particle) and the alpha computed from the life of a particle are rounded to
  binary32 after every operation (`f32`): after a chain of subtractions the
  rounding decides the comparison. Elsewhere arithmetic is exact. `friction`,
  `punchDuration` and the jitter bound carry the binary32 value of their
  literal (`0.85f`, `0.3f`); the other literals are taken as decimal fractions.
  Overflow, infinities and NaN are outside the model.
* The `int` counter `score` wraps around as a 32-bit two's complement integer
  (`wrapInt32`); `level` and the frame counters are mathematical integers.
* Members that are assigned only in a constructor (`maxHealth`, `speed`,
  `punchDuration`, ...) are constants, or functions of the variant.
* What the C++ runtime supplies is a record `Runtime` passed to the code:
  `std::sqrt`, `std::sin`, `std::cos`, `std::atan2`, and two arbitrary streams
  holding the outputs of the random generators. Every
  `std::random_device`/`std::mt19937` draw and every `rand()` call reads the
  next cell of its stream, so any outcome of the generators is covered; the
  number of draws made so far is threaded through the code as a `Nat`.
* Rendering and audio calls do not feed back into the simulation state and are
  left out, together with the members only they read (colours of entities,
  sprites, the cape shape).
-/

namespace SuperGame

/-! ## Machine numbers -/

/-- Value of a 32-bit `int` holding the arithmetic result `n`: wrap-around in
two's complement. -/
def wrapInt32 (n : Int) : Int := (n + 2147483648) % 4294967296 - 2147483648

/-- Number of binary digits of `n`, counted with at most `fuel` halvings. -/
def binaryDigits : Nat → Nat → Nat
  | 0, _ => 0
  | fuel + 1, n => if n = 0 then 0 else binaryDigits fuel (n / 2) + 1

/-- Exponent of the binade of a positive rational `a`: the largest `e` with
`2 ^ e ≤ a`. -/
def log2Floor (a : ℚ) : Int :=
  let e0 : Int := (binaryDigits a.num.natAbs a.num.natAbs : Int) - (binaryDigits a.den a.den : Int)
  if (2 : ℚ) ^ e0 ≤ a then e0 else e0 - 1

/-- Nearest integer, ties to the even one. -/
def roundEven (x : ℚ) : Int :=
  if x - ⌊x⌋ < 1 / 2 then ⌊x⌋
  else if 1 / 2 < x - ⌊x⌋ then ⌊x⌋ + 1
  else if ⌊x⌋ % 2 = 0 then ⌊x⌋ else ⌊x⌋ + 1

/-- Rounding of an exact result to binary32: round to nearest, ties to even, 24
significant bits, subnormal below `2 ^ (-126)`. -/
def f32 (x : ℚ) : ℚ :=
  if x = 0 then 0
  else (roundEven (x / 2 ^ (max (log2Floor |x|) (-126) - 23)) : ℚ) *
    2 ^ (max (log2Floor |x|) (-126) - 23)

/-! ## Vectors, rectangles, library functions -/

/-- Two-component vector, `sf::Vector2f`. -/
structure Vec2 where
  x : ℚ
  y : ℚ
deriving DecidableEq, Repr

/-- Component-wise sum, `operator+`. -/
def Vec2.add (a b : Vec2) : Vec2 := ⟨a.x + b.x, a.y + b.y⟩

/-- Component-wise difference, `operator-`. -/
def Vec2.sub (a b : Vec2) : Vec2 := ⟨a.x - b.x, a.y - b.y⟩

/-- Product with a scalar, `operator*(Vector2f, float)`. -/
def Vec2.scale (a : Vec2) (k : ℚ) : Vec2 := ⟨a.x * k, a.y * k⟩

/-- Rectangle `sf::FloatRect(left, top, width, height)`. -/
structure FloatRect where
  left : ℚ
  top : ℚ
  width : ℚ
  height : ℚ
deriving DecidableEq, Repr

/-- Modelled from the spec: `sf::FloatRect::intersects` belongs to the SFML
library, which is not under `src/`; it is the axis-aligned bounding-box overlap
test of the spec (the overlap has positive area), written as SFML 2 computes it
from the minimum and maximum of each rectangle on both axes. -/
def FloatRect.intersects (a b : FloatRect) : Bool :=
  let r1MinX := min a.left (a.left + a.width)
  let r1MaxX := max a.left (a.left + a.width)
  let r1MinY := min a.top (a.top + a.height)
  let r1MaxY := max a.top (a.top + a.height)
  let r2MinX := min b.left (b.left + b.width)
  let r2MaxX := max b.left (b.left + b.width)
  let r2MinY := min b.top (b.top + b.height)
  let r2MaxY := max b.top (b.top + b.height)
  let interLeft := max r1MinX r2MinX
  let interTop := max r1MinY r2MinY
  let interRight := min r1MaxX r2MaxX
  let interBottom := min r1MaxY r2MaxY
  decide (interLeft < interRight) && decide (interTop < interBottom)

/-- What the C++ runtime supplies: the functions of `<cmath>` the simulation
calls, the canonical `[0, 1)` outputs of the `std::mt19937` generators
(`stream`) and the results of `rand()` (`ints`), both indexed by the number of
draws made before. -/
structure Runtime where
  sqrt : ℚ → ℚ
  sin : ℚ → ℚ
  cos : ℚ → ℚ
  atan2 : ℚ → ℚ → ℚ
  stream : Nat → ℚ
  ints : Nat → Nat

/-- Square root to six decimals, for evaluating the model on concrete inputs. -/
def approxSqrt (q : ℚ) : ℚ :=
  if q ≤ 0 then 0 else (Nat.sqrt (Int.toNat ⌊q * 1000000000000⌋) : ℚ) / 1000000

/-- Sine by its Taylor polynomial of degree 7. -/
def approxSin (q : ℚ) : ℚ := q - q ^ 3 / 6 + q ^ 5 / 120 - q ^ 7 / 5040

/-- Cosine by its Taylor polynomial of degree 6. -/
def approxCos (q : ℚ) : ℚ := 1 - q ^ 2 / 2 + q ^ 4 / 24 - q ^ 6 / 720

/-- A coarse polar angle: exact on the four axis directions, linear in between. -/
def approxAtan2 (y x : ℚ) : ℚ :=
  if x = 0 ∧ y = 0 then 0
  else
    let t := y / (|x| + |y|) * (314159 / 200000)
    if 0 ≤ x then t else if 0 ≤ y then 314159 / 100000 - t else -(314159 / 100000) - t

/-- A concrete runtime used to evaluate the model: approximate library
functions and the given generator outputs. -/
def approxRuntime (stream : Nat → ℚ) (ints : Nat → Nat) : Runtime :=
  ⟨approxSqrt, approxSin, approxCos, approxAtan2, stream, ints⟩

/-- The runtime whose generators always return 0. -/
def approxMath : Runtime := approxRuntime (fun _ => 0) (fun _ => 0)

/-- One draw of `std::uniform_real_distribution<float>(a, b)` after `k` earlier
draws; returns the value and the new number of draws. -/
def Runtime.uniform (m : Runtime) (k : Nat) (a b : ℚ) : ℚ × Nat :=
  (a + (b - a) * m.stream k, k + 1)

/-- One call of `rand()` after `k` earlier draws. -/
def Runtime.rand (m : Runtime) (k : Nat) : Nat × Nat :=
  (m.ints k, k + 1)

/-- The constant `3.14159f`. -/
def PI : ℚ := 314159 / 100000

/-! ## Superman.cpp -/

/-- Held movement keys, as `sf::Keyboard::isKeyPressed` reports them:
`up` is W or Up, `down` is S or Down, `left` is A or Left, `right` is D or Right. -/
structure Keys where
  up : Bool
  down : Bool
  left : Bool
  right : Bool
deriving DecidableEq, Repr

/-- Mutable members of `class Superman`. -/
structure Superman where
  position : Vec2
  velocity : Vec2
  health : ℚ
  punchTimer : ℚ
  punchTarget : Vec2
  animationTimer : ℚ
  currentFrame : Int
  capeAnimationTimer : ℚ
  regenTimer : ℚ
deriving DecidableEq, Repr

namespace Superman

def MAX_SPEED : ℚ := 300
def PUNCH_DAMAGE : ℚ := 30
def SIZE : ℚ := 40
def maxHealth : ℚ := 100
def speed : ℚ := 250
def acceleration : ℚ := 800
/-- The literal `0.85f`: the binary32 value nearest to 0.85. -/
def friction : ℚ := 7130317 / 8388608
/-- The literal `0.3f`: the binary32 value nearest to 0.3. -/
def punchDuration : ℚ := 5033165 / 16777216
def punchRange : ℚ := 80
def maxFrames : Int := 4
def regenRate : ℚ := 1
def regenAmount : ℚ := 1

/-- Constructor `Superman::Superman(x, y)`. -/
def new (x y : ℚ) : Superman :=
  { position := ⟨x, y⟩, velocity := ⟨0, 0⟩, health := 100, punchTimer := 0,
    punchTarget := ⟨0, 0⟩, animationTimer := 0, currentFrame := 0,
    capeAnimationTimer := 0, regenTimer := 0 }

/-- Direction read from the held keys, before normalisation. -/
def rawInput (k : Keys) : Vec2 :=
  let y0 : ℚ := 0
  let y1 := if k.up then y0 - 1 else y0
  let y2 := if k.down then y1 + 1 else y1
  let x0 : ℚ := 0
  let x1 := if k.left then x0 - 1 else x0
  let x2 := if k.right then x1 + 1 else x1
  ⟨x2, y2⟩

/-- Source `Superman::handleInput`. -/
def handleInput (m : Runtime) (k : Keys) (deltaTime : ℚ) (s : Superman) : Superman :=
  let d := rawInput k
  let length := m.sqrt (d.x * d.x + d.y * d.y)
  let inputDirection : Vec2 := if length > 0 then ⟨d.x / length, d.y / length⟩ else d
  let v1 := s.velocity.add ((inputDirection.scale acceleration).scale deltaTime)
  let v2 := v1.scale friction
  let currentSpeed := m.sqrt (v2.x * v2.x + v2.y * v2.y)
  let v3 : Vec2 :=
    if currentSpeed > MAX_SPEED then
      ⟨(v2.x / currentSpeed) * MAX_SPEED, (v2.y / currentSpeed) * MAX_SPEED⟩
    else v2
  { s with velocity := v3 }

/-- Source `Superman::updateAnimation`. -/
def updateAnimation (deltaTime : ℚ) (s : Superman) : Superman :=
  let t := s.animationTimer + deltaTime
  if t ≥ 2 / 10 then
    { s with currentFrame := (s.currentFrame + 1) % maxFrames, animationTimer := 0 }
  else { s with animationTimer := t }

/-- Source `Superman::updateCape`: only the timer is simulation state. -/
def updateCape (deltaTime : ℚ) (s : Superman) : Superman :=
  { s with capeAnimationTimer := s.capeAnimationTimer + deltaTime * 3 }

/-- Source `Superman::constrainToWindow`, for a window of `w` by `h` pixels. -/
def constrainToWindow (w h : Nat) (s : Superman) : Superman :=
  { s with position :=
      ⟨max (SIZE * (1 / 2)) (min ((w : ℚ) - SIZE * (1 / 2)) s.position.x),
       max (SIZE * (1 / 2)) (min ((h : ℚ) - SIZE * (1 / 2)) s.position.y)⟩ }

/-- Source `Superman::update`. -/
def update (m : Runtime) (k : Keys) (w h : Nat) (deltaTime : ℚ) (s : Superman) : Superman :=
  let s1 := handleInput m k deltaTime s
  let s2 := { s1 with position := s1.position.add (s1.velocity.scale deltaTime) }
  let s3 :=
    if s2.punchTimer > 0 then { s2 with punchTimer := f32 (s2.punchTimer - deltaTime) } else s2
  let s4 := { s3 with regenTimer := s3.regenTimer + deltaTime }
  let s5 := updateAnimation deltaTime s4
  let s6 := updateCape deltaTime s5
  constrainToWindow w h s6

/-- Source `Superman::move`. -/
def move (direction : Vec2) (deltaTime : ℚ) (s : Superman) : Superman :=
  { s with velocity := s.velocity.add ((direction.scale acceleration).scale deltaTime) }

/-- Source `Superman::performPunch`. -/
def performPunch (targetPosition : Vec2) (s : Superman) : Superman :=
  { s with punchTimer := punchDuration, punchTarget := targetPosition }

/-- Source `Superman::isPunching`. -/
def isPunching (s : Superman) : Bool := decide (s.punchTimer > 0)

/-- Source `Superman::getPunchRange`. -/
def getPunchRange (s : Superman) : FloatRect :=
  ⟨s.position.x - punchRange, s.position.y - punchRange, punchRange * 2, punchRange * 2⟩

/-- Source `Superman::takeDamage`. -/
def takeDamage (damage : ℚ) (s : Superman) : Superman :=
  let h := s.health - damage
  { s with health := if h < 0 then 0 else h }

/-- Source `Superman::regenerateHealth`; the argument `deltaTime` is not read. -/
def regenerateHealth (_deltaTime : ℚ) (s : Superman) : Superman :=
  if s.regenTimer ≥ regenRate ∧ s.health < maxHealth then
    let h := s.health + regenAmount
    { s with health := if h > maxHealth then maxHealth else h, regenTimer := 0 }
  else s

/-- Source `Superman::getBounds`. -/
def getBounds (s : Superman) : FloatRect :=
  ⟨s.position.x - SIZE * (1 / 2), s.position.y - SIZE * (1 / 2), SIZE, SIZE⟩

/-- Source `Superman::reset`. -/
def reset (x y : ℚ) (s : Superman) : Superman :=
  { s with position := ⟨x, y⟩, velocity := ⟨0, 0⟩, health := maxHealth, punchTimer := 0,
           animationTimer := 0, capeAnimationTimer := 0, regenTimer := 0 }

end Superman

/-! ## Ghost.cpp -/

/-- The variants of `enum class GhostType`. -/
inductive GhostType where
  | Regular
  | Fast
  | Boss
deriving DecidableEq, Repr

/-- Mutable members of `class Ghost`; `type` is fixed at construction. -/
structure Ghost where
  position : Vec2
  velocity : Vec2
  basePosition : Vec2
  health : ℚ
  type : GhostType
  damageValue : ℚ
  floatingTimer : ℚ
  animationTimer : ℚ
  currentFrame : Int
  transparency : ℚ
  aiUpdateTimer : ℚ
  damageTimer : ℚ
  bossAttackTimer : ℚ
deriving DecidableEq, Repr

namespace Ghost

def BASE_SIZE : ℚ := 30
def COLLISION_RADIUS : ℚ := 25
def bossAttackCooldown : ℚ := 3

/-- Value of `health` and `maxHealth` set by `Ghost::initializeByType`. -/
def maxHealthOf : GhostType → ℚ
  | .Regular => 20
  | .Fast => 15
  | .Boss => 50

/-- Value of `speed` set by `Ghost::initializeByType`. -/
def speedOf : GhostType → ℚ
  | .Regular => 80
  | .Fast => 150
  | .Boss => 60

/-- Value of `aggroRange` set by `Ghost::initializeByType`. -/
def aggroRangeOf : GhostType → ℚ
  | .Regular => 200
  | .Fast => 250
  | .Boss => 300

/-- Value of `damageValue` set by `Ghost::initializeByType`. -/
def baseDamageOf : GhostType → ℚ
  | .Regular => 10
  | .Fast => 15
  | .Boss => 20

/-- Value of `size` set by `Ghost::initializeByType`. -/
def sizeOf : GhostType → ℚ
  | .Regular => BASE_SIZE
  | .Fast => BASE_SIZE * (8 / 10)
  | .Boss => BASE_SIZE * (15 / 10)

/-- Value of `floatingAmplitude`: 10 from the constructor, 15 for a Boss. -/
def floatingAmplitudeOf : GhostType → ℚ
  | .Regular => 10
  | .Fast => 10
  | .Boss => 15

/-- Value of `floatingFrequency`: 2 from the constructor, 4 for a Fast ghost. -/
def floatingFrequencyOf : GhostType → ℚ
  | .Regular => 2
  | .Fast => 4
  | .Boss => 2

def maxHealth (g : Ghost) : ℚ := maxHealthOf g.type
def speed (g : Ghost) : ℚ := speedOf g.type
def aggroRange (g : Ghost) : ℚ := aggroRangeOf g.type

/-- Constructor `Ghost::Ghost(startPosition, type)` with `initializeByType`;
the phase of the floating animation is one random draw. -/
def new (m : Runtime) (startPosition : Vec2) (ghostType : GhostType) (r : Nat) : Ghost × Nat :=
  let (phase, r1) := m.uniform r 0 (2 * PI)
  ({ position := startPosition, velocity := ⟨0, 0⟩, basePosition := startPosition,
     health := maxHealthOf ghostType, type := ghostType,
     damageValue := baseDamageOf ghostType, floatingTimer := phase, animationTimer := 0,
     currentFrame := 0, transparency := 8 / 10, aiUpdateTimer := 0, damageTimer := 0,
     bossAttackTimer := 0 }, r1)

/-- The literal `0.3f` of the jitter distribution: the binary32 value nearest to
0.3. -/
def jitterBound : ℚ := 5033165 / 16777216

/-- Source `Ghost::moveTowardsSuperman`. -/
def moveTowardsSuperman (m : Runtime) (supermanPosition : Vec2) (deltaTime : ℚ)
    (g : Ghost) (r : Nat) : Ghost × Nat :=
  let direction := supermanPosition.sub g.position
  let distance := m.sqrt (direction.x * direction.x + direction.y * direction.y)
  if distance > 0 ∧ distance ≤ g.aggroRange then
    let (j1, r1) := m.uniform r (-jitterBound) jitterBound
    let (j2, r2) := m.uniform r1 (-jitterBound) jitterBound
    let dir : Vec2 := ⟨direction.x / distance + j1, direction.y / distance + j2⟩
    let v := dir.scale g.speed
    if g.type = GhostType.Boss then
      let angle := m.atan2 dir.y dir.x + deltaTime * 2
      ({ g with velocity := ⟨m.cos angle * g.speed, m.sin angle * g.speed⟩ }, r2)
    else ({ g with velocity := v }, r2)
  else ({ g with velocity := g.velocity.scale (9 / 10) }, r)

/-- Source `Ghost::updateFloatingAnimation`. -/
def updateFloatingAnimation (m : Runtime) (deltaTime : ℚ) (g : Ghost) : Ghost :=
  let t := g.floatingTimer + deltaTime * floatingFrequencyOf g.type
  let floatingOffset := m.sin t * floatingAmplitudeOf g.type
  let p : Vec2 := ⟨g.position.x, g.basePosition.y + floatingOffset⟩
  { g with floatingTimer := t, position := p, basePosition := ⟨p.x, g.basePosition.y⟩ }

/-- Source `Ghost::updateAnimation`; the colour it recomputes is only drawn. -/
def updateAnimation (m : Runtime) (deltaTime : ℚ) (g : Ghost) : Ghost :=
  let t := g.animationTimer + deltaTime
  { g with animationTimer := t, transparency := 7 / 10 + 3 / 10 * m.sin (t * 3) }

/-- Source `Ghost::updateBossAttack`. -/
def updateBossAttack (deltaTime : ℚ) (g : Ghost) : Ghost :=
  let t := g.bossAttackTimer + deltaTime
  if t ≥ bossAttackCooldown then
    { g with bossAttackTimer := 0, damageValue := if g.damageTimer > 5 / 10 then 20 else 30 }
  else { g with bossAttackTimer := t }

/-- Source `Ghost::update`. -/
def update (m : Runtime) (deltaTime : ℚ) (supermanPosition : Vec2) (g : Ghost) (r : Nat) :
    Ghost × Nat :=
  let g1 := { g with aiUpdateTimer := g.aiUpdateTimer + deltaTime,
                     damageTimer := g.damageTimer + deltaTime }
  let (g2, r2) :=
    if g1.aiUpdateTimer ≥ 1 / 10 then
      let (ga, ra) := moveTowardsSuperman m supermanPosition deltaTime g1 r
      ({ ga with aiUpdateTimer := 0 }, ra)
    else (g1, r)
  let g3 := { g2 with position := g2.position.add (g2.velocity.scale deltaTime) }
  let g4 := updateFloatingAnimation m deltaTime g3
  let g5 := updateAnimation m deltaTime g4
  if g5.type = GhostType.Boss then (updateBossAttack deltaTime g5, r2) else (g5, r2)

/-- Source `Ghost::takeDamage`. -/
def takeDamage (damage : ℚ) (g : Ghost) : Ghost :=
  let h := g.health - damage
  { g with health := if h < 0 then 0 else h, damageTimer := 0 }

/-- Source `Ghost::isDead`. -/
def isDead (g : Ghost) : Bool := decide (g.health ≤ 0)

/-- Source `Ghost::getDamage`. -/
def getDamage (g : Ghost) : ℚ := g.damageValue

/-- Source `Ghost::getBounds`. -/
def getBounds (g : Ghost) : FloatRect :=
  ⟨g.position.x - COLLISION_RADIUS, g.position.y - COLLISION_RADIUS,
   COLLISION_RADIUS * 2, COLLISION_RADIUS * 2⟩

/-- Source `Ghost::getScoreValue`. -/
def getScoreValue (g : Ghost) : Int :=
  match g.type with
  | .Regular => 10
  | .Fast => 20
  | .Boss => 50

end Ghost

/-! ## Projectile.cpp -/

/-- The variants of `enum class ProjectileType`. -/
inductive ProjectileType where
  | Laser
  | SuperPunch
  | BossAttack
deriving DecidableEq, Repr

/-- One point of the trail, `Projectile::TrailPoint`. -/
structure TrailPoint where
  position : Vec2
  alpha : ℚ
  age : ℚ
deriving DecidableEq, Repr

/-- Mutable members of `class Projectile`; `type` and `direction` are fixed at
construction. -/
structure Projectile where
  position : Vec2
  velocity : Vec2
  direction : Vec2
  type : ProjectileType
  active : Bool
  lifetime : ℚ
  animationTimer : ℚ
  trail : List TrailPoint
deriving DecidableEq, Repr

namespace Projectile

def LASER_SPEED : ℚ := 500
def LASER_DAMAGE : ℚ := 25
def LASER_SIZE : ℚ := 6
def pulseFrequency : ℚ := 10
def maxTrailPoints : Nat := 10

/-- Value of `speed` set by `Projectile::initializeByType`. -/
def speedOf : ProjectileType → ℚ
  | .Laser => LASER_SPEED
  | .SuperPunch => 300
  | .BossAttack => 200

/-- Value of `damage` set by `Projectile::initializeByType`. -/
def damageOf : ProjectileType → ℚ
  | .Laser => LASER_DAMAGE
  | .SuperPunch => 40
  | .BossAttack => 30

/-- Value of `size` set by `Projectile::initializeByType`. -/
def sizeOf : ProjectileType → ℚ
  | .Laser => LASER_SIZE
  | .SuperPunch => 12
  | .BossAttack => 15

/-- Value of `maxLifetime` set by `Projectile::initializeByType`. -/
def maxLifetimeOf : ProjectileType → ℚ
  | .Laser => 3
  | .SuperPunch => 1
  | .BossAttack => 5

def size (p : Projectile) : ℚ := sizeOf p.type
def getDamage (p : Projectile) : ℚ := damageOf p.type

/-- Source `Projectile::calculateDirection`. -/
def calculateDirection (m : Runtime) (startPos targetPos : Vec2) : Vec2 :=
  let direction := targetPos.sub startPos
  let length := m.sqrt (direction.x * direction.x + direction.y * direction.y)
  if length > 0 then ⟨direction.x / length, direction.y / length⟩ else direction

/-- Constructor `Projectile::Projectile(startPosition, targetPosition, type)`:
`calculateDirection`, then `initializeByType`. -/
def new (m : Runtime) (startPosition targetPosition : Vec2) (projectileType : ProjectileType) :
    Projectile :=
  let direction := calculateDirection m startPosition targetPosition
  { position := startPosition, velocity := direction.scale (speedOf projectileType),
    direction := direction, type := projectileType, active := true,
    lifetime := maxLifetimeOf projectileType, animationTimer := 0, trail := [] }

/-- Ageing loop of `Projectile::updateTrail`: every point is aged and faded, and
erased when it has faded out. -/
def ageTrail (deltaTime : ℚ) : List TrailPoint → List TrailPoint
  | [] => []
  | pt :: rest =>
    let age := pt.age + deltaTime
    let alpha := 1 - age / (5 / 10)
    if alpha ≤ 0 ∨ age > 5 / 10 then ageTrail deltaTime rest
    else { pt with age := age, alpha := alpha } :: ageTrail deltaTime rest

/-- Source `Projectile::updateTrail`. -/
def updateTrail (deltaTime : ℚ) (p : Projectile) : Projectile :=
  let newPoint : TrailPoint := { position := p.position, alpha := 1, age := 0 }
  let aged := ageTrail deltaTime (newPoint :: p.trail)
  { p with trail := if aged.length > maxTrailPoints then aged.take maxTrailPoints else aged }

/-- Source `Projectile::update`. -/
def update (m : Runtime) (deltaTime : ℚ) (p : Projectile) : Projectile :=
  if !p.active then p
  else
    let p1 := { p with position := p.position.add (p.velocity.scale deltaTime) }
    let l := f32 (p1.lifetime - deltaTime)
    let p2 := { p1 with lifetime := l, active := if l ≤ 0 then false else p1.active }
    let p3 := { p2 with animationTimer := p2.animationTimer + deltaTime }
    let p4 := updateTrail deltaTime p3
    match p4.type with
    | .Laser => p4
    | .SuperPunch => { p4 with velocity := p4.velocity.scale (98 / 100) }
    | .BossAttack =>
      let wobble := m.sin (p4.animationTimer * 8) * 20
      { p4 with velocity := ⟨p4.velocity.x, p4.velocity.y + wobble * deltaTime⟩ }

/-- Source `Projectile::isActive`. -/
def isActive (p : Projectile) : Bool := p.active

/-- Source `Projectile::deactivate`. -/
def deactivate (p : Projectile) : Projectile := { p with active := false }

/-- Source `Projectile::isOffScreen`. -/
def isOffScreen (windowWidth windowHeight : Int) (p : Projectile) : Bool :=
  decide (p.position.x < -p.size) || decide (p.position.x > (windowWidth : ℚ) + p.size) ||
  decide (p.position.y < -p.size) || decide (p.position.y > (windowHeight : ℚ) + p.size)

/-- Source `Projectile::getBounds`. -/
def getBounds (p : Projectile) : FloatRect :=
  ⟨p.position.x - p.size, p.position.y - p.size, p.size * 2, p.size * 2⟩

end Projectile

/-! ## ParticleSystem.cpp -/

/-- Colour `sf::Color` with 8-bit channels. -/
structure Color where
  r : Nat
  g : Nat
  b : Nat
  a : Nat
deriving DecidableEq, Repr

namespace Color

def Red : Color := ⟨255, 0, 0, 255⟩
def Yellow : Color := ⟨255, 255, 0, 255⟩
def White : Color := ⟨255, 255, 255, 255⟩
def Cyan : Color := ⟨0, 255, 255, 255⟩
def Magenta : Color := ⟨255, 0, 255, 255⟩
def Green : Color := ⟨0, 255, 0, 255⟩
def Orange : Color := ⟨255, 165, 0, 255⟩

end Color

/-- Conversion `static_cast<sf::Uint8>` of a `float`: truncation, 8 bits kept. -/
def floatToUint8 (q : ℚ) : Nat := Int.toNat ⌊q⌋ % 256

/-- Conversion `static_cast<sf::Uint8>` of an `int`. -/
def intToUint8 (n : Nat) : Nat := n % 256

/-- Conversion `static_cast<size_t>` of an `int`, for a 64-bit `size_t`. -/
def intToSizeT (n : Int) : Int := n % 18446744073709551616

/-- The variants of `enum class ParticleType`. -/
inductive ParticleType where
  | Explosion
  | Laser
  | Punch
  | Damage
  | LevelComplete
  | Smoke
  | Spark
deriving DecidableEq, Repr

/-- Record `struct Particle`. -/
structure Particle where
  position : Vec2
  velocity : Vec2
  color : Color
  life : ℚ
  maxLife : ℚ
  size : ℚ
  rotation : ℚ
  rotationSpeed : ℚ
  type : ParticleType
deriving DecidableEq, Repr

/-- Constructor `Particle::Particle`; `spin` is the result of its `rand()` call. -/
def Particle.new (pos vel : Vec2) (col : Color) (lifetime particleSize : ℚ)
    (particleType : ParticleType) (spin : Nat) : Particle :=
  { position := pos, velocity := vel, color := col, life := lifetime, maxLife := lifetime,
    size := particleSize, rotation := 0,
    rotationSpeed := (((spin % 360 : Nat) : ℚ) - 180) * 2, type := particleType }

/-- Record `ParticleSystem::ContinuousEffect`. -/
structure ContinuousEffect where
  position : Vec2
  type : ParticleType
  duration : ℚ
  timer : ℚ
  spawnRate : ℚ
  spawnTimer : ℚ
deriving DecidableEq, Repr

/-- Members of `class ParticleSystem`. -/
structure ParticleSystem where
  particles : List Particle
  maxParticles : Int
  continuousEffects : List ContinuousEffect
deriving DecidableEq, Repr

namespace ParticleSystem

/-- Constructor `ParticleSystem::ParticleSystem`. -/
def new : ParticleSystem := { particles := [], maxParticles := 1000, continuousEffects := [] }

/-- Source `ParticleSystem::clear`. -/
def clear (ps : ParticleSystem) : ParticleSystem :=
  { ps with particles := [], continuousEffects := [] }

/-- Source `ParticleSystem::setMaxParticles`. -/
def setMaxParticles (maxCount : Int) (ps : ParticleSystem) : ParticleSystem :=
  { ps with maxParticles := maxCount }

/-- Source `ParticleSystem::getParticleCount`. -/
def getParticleCount (ps : ParticleSystem) : Int := ps.particles.length

/-- Source `ParticleSystem::addParticle`: the particle is built, with its `rand()`
call, only when the pool is below its capacity. -/
def addParticle (m : Runtime) (position velocity : Vec2) (color : Color) (lifetime size : ℚ)
    (type : ParticleType) (st : ParticleSystem × Nat) : ParticleSystem × Nat :=
  if (st.1.particles.length : Int) < intToSizeT st.1.maxParticles then
    let (spin, r1) := m.rand st.2
    ({ st.1 with particles :=
        st.1.particles ++ [Particle.new position velocity color lifetime size type spin] }, r1)
  else st

/-- Body of the loop of `addExplosion` for index `i`; the two distribution
arguments of `addParticle` are drawn from left to right. -/
def explosionStep (m : Runtime) (position : Vec2) (st : ParticleSystem × Nat) (i : Nat) :
    ParticleSystem × Nat :=
  let (angle, r1) := m.uniform st.2 0 (2 * PI)
  let (speed, r2) := m.uniform r1 50 200
  let velocity : Vec2 := ⟨m.cos angle * speed, m.sin angle * speed⟩
  let color := [Color.Red, Color.Yellow, Color.Orange, Color.White].getD (i % 4) Color.Red
  let (life, r3) := m.uniform r2 (5 / 10) 2
  let (size, r4) := m.uniform r3 2 8
  addParticle m position velocity color life size ParticleType.Explosion (st.1, r4)

/-- Source `ParticleSystem::addExplosion`. -/
def addExplosion (m : Runtime) (position : Vec2) (particleCount : Int)
    (st : ParticleSystem × Nat) : ParticleSystem × Nat :=
  (List.range particleCount.toNat).foldl (explosionStep m position) st

/-- Body of the loop of `addLaserEffect`. -/
def laserStep (m : Runtime) (position : Vec2) (st : ParticleSystem × Nat) (_i : Nat) :
    ParticleSystem × Nat :=
  let (angle, r1) := m.uniform st.2 0 (2 * PI)
  let (speed, r2) := m.uniform r1 20 80
  let velocity : Vec2 := ⟨m.cos angle * speed, m.sin angle * speed⟩
  let (n, r3) := m.rand r2
  let color : Color := { Color.Red with r := 255, g := intToUint8 (50 + n % 100), b := 0 }
  let (size, r4) := m.uniform r3 1 4
  addParticle m position velocity color (8 / 10) size ParticleType.Laser (st.1, r4)

/-- Source `ParticleSystem::addLaserEffect`. -/
def addLaserEffect (m : Runtime) (position : Vec2) (particleCount : Int)
    (st : ParticleSystem × Nat) : ParticleSystem × Nat :=
  (List.range particleCount.toNat).foldl (laserStep m position) st

/-- Body of the loop of `addPunchEffect`. -/
def punchStep (m : Runtime) (position : Vec2) (st : ParticleSystem × Nat) (_i : Nat) :
    ParticleSystem × Nat :=
  let (angle, r1) := m.uniform st.2 0 (2 * PI)
  let (speed, r2) := m.uniform r1 100 300
  let velocity : Vec2 := ⟨m.cos angle * speed, m.sin angle * speed⟩
  let (n, r3) := m.rand r2
  let color : Color := { Color.Yellow with g := 255, r := intToUint8 (200 + n % 55), b := 0 }
  let (size, r4) := m.uniform r3 3 10
  addParticle m position velocity color (12 / 10) size ParticleType.Punch (st.1, r4)

/-- Source `ParticleSystem::addPunchEffect`. -/
def addPunchEffect (m : Runtime) (position : Vec2) (particleCount : Int)
    (st : ParticleSystem × Nat) : ParticleSystem × Nat :=
  (List.range particleCount.toNat).foldl (punchStep m position) st

/-- Body of the loop of `addDamageEffect`. -/
def damageStep (m : Runtime) (position : Vec2) (st : ParticleSystem × Nat) (_i : Nat) :
    ParticleSystem × Nat :=
  let (a0, r1) := m.uniform st.2 (-PI / 4) (PI / 4)
  let angle := a0 - PI / 2
  let (speed, r2) := m.uniform r1 30 120
  let velocity : Vec2 := ⟨m.cos angle * speed, m.sin angle * speed⟩
  let (n, r3) := m.rand r2
  let color : Color := { Color.Red with a := intToUint8 (150 + n % 105) }
  let (size, r4) := m.uniform r3 2 6
  addParticle m position velocity color (15 / 10) size ParticleType.Damage (st.1, r4)

/-- Source `ParticleSystem::addDamageEffect`. -/
def addDamageEffect (m : Runtime) (position : Vec2) (particleCount : Int)
    (st : ParticleSystem × Nat) : ParticleSystem × Nat :=
  (List.range particleCount.toNat).foldl (damageStep m position) st

/-- Body of the loop of `addLevelCompleteEffect` for index `i`. -/
def levelCompleteStep (m : Runtime) (position : Vec2) (st : ParticleSystem × Nat) (i : Nat) :
    ParticleSystem × Nat :=
  let (angle, r1) := m.uniform st.2 0 (2 * PI)
  let (speed, r2) := m.uniform r1 80 250
  let velocity : Vec2 := ⟨m.cos angle * speed, m.sin angle * speed⟩
  let color :=
    [Color.Yellow, Color.Cyan, Color.Magenta, Color.Green, Color.White].getD (i % 5) Color.Yellow
  let (life, r3) := m.uniform r2 2 4
  let (size, r4) := m.uniform r3 4 12
  addParticle m position velocity color life size ParticleType.LevelComplete (st.1, r4)

/-- Source `ParticleSystem::addLevelCompleteEffect`. -/
def addLevelCompleteEffect (m : Runtime) (position : Vec2) (particleCount : Int)
    (st : ParticleSystem × Nat) : ParticleSystem × Nat :=
  (List.range particleCount.toNat).foldl (levelCompleteStep m position) st

/-- Body of the loop of `addSmokeEffect`. -/
def smokeStep (m : Runtime) (position : Vec2) (st : ParticleSystem × Nat) (_i : Nat) :
    ParticleSystem × Nat :=
  let (a0, r1) := m.uniform st.2 (-PI / 6) (PI / 6)
  let angle := a0 - PI / 2
  let (speed, r2) := m.uniform r1 10 50
  let velocity : Vec2 := ⟨m.cos angle * speed, m.sin angle * speed⟩
  let color : Color := ⟨128, 128, 128, 180⟩
  let (size, r3) := m.uniform r2 5 15
  addParticle m position velocity color 3 size ParticleType.Smoke (st.1, r3)

/-- Source `ParticleSystem::addSmokeEffect`. -/
def addSmokeEffect (m : Runtime) (position : Vec2) (particleCount : Int)
    (st : ParticleSystem × Nat) : ParticleSystem × Nat :=
  (List.range particleCount.toNat).foldl (smokeStep m position) st

/-- Body of the loop of `addSparkEffect`. -/
def sparkStep (m : Runtime) (position : Vec2) (baseAngle : ℚ) (st : ParticleSystem × Nat)
    (_i : Nat) : ParticleSystem × Nat :=
  let (a0, r1) := m.uniform st.2 (-(5 / 10)) (5 / 10)
  let angle := baseAngle + a0
  let (speed, r2) := m.uniform r1 100 300
  let velocity : Vec2 := ⟨m.cos angle * speed, m.sin angle * speed⟩
  let (n, r3) := m.rand r2
  let color : Color := { Color.White with r := 255, g := intToUint8 (200 + n % 55), b := 0 }
  let (size, r4) := m.uniform r3 1 3
  addParticle m position velocity color (5 / 10) size ParticleType.Spark (st.1, r4)

/-- Source `ParticleSystem::addSparkEffect`. -/
def addSparkEffect (m : Runtime) (position direction : Vec2) (particleCount : Int)
    (st : ParticleSystem × Nat) : ParticleSystem × Nat :=
  let baseAngle := m.atan2 direction.y direction.x
  (List.range particleCount.toNat).foldl (sparkStep m position baseAngle) st

/-- Source `ParticleSystem::addContinuousEffect`. -/
def addContinuousEffect (position : Vec2) (type : ParticleType) (duration : ℚ)
    (ps : ParticleSystem) : ParticleSystem :=
  { ps with continuousEffects := ps.continuousEffects ++
      [{ position := position, type := type, duration := duration, timer := 0,
         spawnRate := 1 / 10, spawnTimer := 0 }] }

/-- Source `ParticleSystem::updateParticle`. -/
def updateParticle (deltaTime : ℚ) (p : Particle) : Particle :=
  let p1 := { p with life := f32 (p.life - deltaTime) }
  if p1.life ≤ 0 then p1
  else
    let p2 := { p1 with position := p1.position.add (p1.velocity.scale deltaTime),
                        rotation := p1.rotation + p1.rotationSpeed * deltaTime }
    let v : Vec2 :=
      match p2.type with
      | .Explosion | .Punch | .Damage =>
        (⟨p2.velocity.x, p2.velocity.y + 150 * deltaTime⟩ : Vec2).scale (98 / 100)
      | .Laser | .Spark => p2.velocity.scale (95 / 100)
      | .Smoke => (⟨p2.velocity.x, p2.velocity.y - 20 * deltaTime⟩ : Vec2).scale (99 / 100)
      | .LevelComplete =>
        (⟨p2.velocity.x, p2.velocity.y + 80 * deltaTime⟩ : Vec2).scale (99 / 100)
    let lifePercent := f32 (p2.life / p2.maxLife)
    let p3 := { p2 with velocity := v
                        color := { p2.color with a := floatToUint8 (f32 (255 * lifePercent)) } }
    if p3.type = ParticleType.Smoke ∨ p3.type = ParticleType.Explosion then
      { p3 with size := p3.size * (101 / 100) }
    else p3

/-- Source `ParticleSystem::cleanupDeadParticles`. -/
def cleanupDeadParticles (ps : ParticleSystem) : ParticleSystem :=
  { ps with particles := ps.particles.filter (fun p => !decide (p.life ≤ 0)) }

/-- Loop of `ParticleSystem::updateContinuousEffects` over the emitters still to
visit; returns the emitters kept, the pool and the random source. -/
def stepEffects (m : Runtime) (deltaTime : ℚ) :
    List ContinuousEffect → ParticleSystem × Nat → List ContinuousEffect × (ParticleSystem × Nat)
  | [], st => ([], st)
  | e :: rest, st =>
    let e1 := { e with timer := e.timer + deltaTime, spawnTimer := e.spawnTimer + deltaTime }
    let (e2, st2) :=
      if e1.spawnTimer ≥ e1.spawnRate then
        let st1 :=
          match e1.type with
          | .Smoke => addSmokeEffect m e1.position 2 st
          | .Spark => addSparkEffect m e1.position ⟨0, -1⟩ 1 st
          | _ => st
        ({ e1 with spawnTimer := 0 }, st1)
      else (e1, st)
    let (kept, st3) := stepEffects m deltaTime rest st2
    if e2.timer ≥ e2.duration then (kept, st3) else (e2 :: kept, st3)

/-- Source `ParticleSystem::updateContinuousEffects`. -/
def updateContinuousEffects (m : Runtime) (deltaTime : ℚ) (st : ParticleSystem × Nat) :
    ParticleSystem × Nat :=
  let (kept, st1) := stepEffects m deltaTime st.1.continuousEffects st
  ({ st1.1 with continuousEffects := kept }, st1.2)

/-- Source `ParticleSystem::update`. -/
def update (m : Runtime) (deltaTime : ℚ) (st : ParticleSystem × Nat) : ParticleSystem × Nat :=
  let ps1 := { st.1 with particles := st.1.particles.map (updateParticle deltaTime) }
  let st2 := updateContinuousEffects m deltaTime (ps1, st.2)
  (cleanupDeadParticles st2.1, st2.2)

end ParticleSystem

/-! ## Game.cpp -/

/-- The top-level states, `enum class GameState`. -/
inductive GameState where
  | Menu
  | Playing
  | Paused
  | GameOver
deriving DecidableEq, Repr

/-- Key codes of `sf::Keyboard` the game distinguishes in events. -/
inductive Key where
  | Escape
  | Enter
  | Space
  | Other
deriving DecidableEq, Repr

/-- Buttons of `sf::Mouse`. -/
inductive MouseButton where
  | Left
  | Other
deriving DecidableEq, Repr

/-- Events returned by `window.pollEvent`, by `event.type`. -/
inductive Event where
  | Closed
  | KeyPressed (code : Key)
  | MouseButtonPressed (button : MouseButton) (x y : Int)
  | Other
deriving DecidableEq, Repr

/-- What one frame reads from outside: the elapsed time, the held movement
keys and `window.getSize()`. -/
structure FrameInput where
  deltaTime : ℚ
  keys : Keys
  winW : Nat
  winH : Nat
deriving DecidableEq, Repr

/-- Simulation members of `class Game`, with the open flag of the window and
the number of random draws made so far (`draws`). -/
structure Game where
  windowOpen : Bool
  currentState : GameState
  score : Int
  level : Int
  isMousePressed : Bool
  superman : Superman
  ghosts : List Ghost
  projectiles : List Projectile
  particleSystem : ParticleSystem
  draws : Nat
deriving DecidableEq, Repr

namespace Game

def WINDOW_WIDTH : Int := 800
def WINDOW_HEIGHT : Int := 600
def TARGET_FPS : ℚ := 60

/-- Constructor `Game::Game` followed by `Game::initialize`. -/
def new : Game :=
  { windowOpen := true, currentState := GameState.Menu, score := 0, level := 1,
    isMousePressed := false,
    superman := Superman.new ((WINDOW_WIDTH : ℚ) / 2) ((WINDOW_HEIGHT : ℚ) / 2),
    ghosts := [], projectiles := [], particleSystem := ParticleSystem.new, draws := 0 }

/-- The `do ... while` of `Game::spawnGhosts`: positions are drawn until one is
not within 100 of the player on both axes. The loop has no bound in the source;
`fuel` bounds the number of iterations here and `none` stands for a loop that
has not ended within it. -/
def samplePosition (m : Runtime) (px py : ℚ) : Nat → Nat → Option (ℚ × ℚ × Nat)
  | 0, _ => none
  | fuel + 1, r =>
    let (x, r1) := m.uniform r 50 (((WINDOW_WIDTH - 50 : Int) : ℚ))
    let (y, r2) := m.uniform r1 50 (((WINDOW_HEIGHT - 50 : Int) : ℚ))
    if |x - px| < 100 ∧ |y - py| < 100 then samplePosition m px py fuel r2 else some (x, y, r2)

/-- The `for` loop of `Game::spawnGhosts` over the indices still to do. -/
def spawnLoop (m : Runtime) (fuel : Nat) (level ghostCount : Int) (player : Vec2) :
    List Nat → List Ghost → Nat → Option (List Ghost × Nat)
  | [], gs, r => some (gs, r)
  | i :: rest, gs, r =>
    match samplePosition m player.x player.y fuel r with
    | none => none
    | some (x, y, r1) =>
      let (typeRoll, r2) := m.uniform r1 0 1
      let type :=
        if level % 3 = 0 ∧ (i : Int) = ghostCount - 1 then GhostType.Boss
        else if typeRoll < 3 / 10 then GhostType.Fast
        else GhostType.Regular
      let (gh, r3) := Ghost.new m ⟨x, y⟩ type r2
      spawnLoop m fuel level ghostCount player rest (gs ++ [gh]) r3

/-- Source `Game::spawnGhosts`. -/
def spawnGhosts (m : Runtime) (fuel : Nat) (g : Game) : Option Game :=
  let ghostCount : Int := 3 + (g.level - 1) * 2
  match spawnLoop m fuel g.level ghostCount g.superman.position
      (List.range ghostCount.toNat) [] g.draws with
  | none => none
  | some (gs, r) => some { g with ghosts := gs, draws := r }

/-- Source `Game::startGame`. -/
def startGame (m : Runtime) (fuel : Nat) (g : Game) : Option Game :=
  spawnGhosts m fuel
    { g with currentState := GameState.Playing, score := 0, level := 1,
             superman := g.superman.reset ((WINDOW_WIDTH : ℚ) / 2) ((WINDOW_HEIGHT : ℚ) / 2),
             ghosts := [], projectiles := [], particleSystem := g.particleSystem.clear }

/-- Source `Game::pauseGame`. -/
def pauseGame (g : Game) : Game := { g with currentState := GameState.Paused }

/-- Source `Game::resumeGame`. -/
def resumeGame (g : Game) : Game := { g with currentState := GameState.Playing }

/-- Source `Game::restartGame`. -/
def restartGame (m : Runtime) (fuel : Nat) (g : Game) : Option Game := startGame m fuel g

/-- Source `Game::gameOver`. -/
def gameOver (g : Game) : Game := { g with currentState := GameState.GameOver }

/-- Source `Game::nextLevel`. -/
def nextLevel (m : Runtime) (fuel : Nat) (g : Game) : Option Game :=
  match spawnGhosts m fuel { g with level := g.level + 1 } with
  | none => none
  | some g1 =>
    let st := ParticleSystem.addLevelCompleteEffect m
      ⟨((WINDOW_WIDTH / 2 : Int) : ℚ), ((WINDOW_HEIGHT / 2 : Int) : ℚ)⟩ 50
      (g1.particleSystem, g1.draws)
    some { g1 with particleSystem := st.1, draws := st.2 }

/-- Inner loop of `Game::checkProjectileCollisions`: scans the ghosts in order
for the first one whose bounds meet `pb`; returns it with the collection after
its erasure. -/
def scanGhosts (pb : FloatRect) : List Ghost → Option (Ghost × List Ghost)
  | [] => none
  | gh :: rest =>
    if pb.intersects gh.getBounds then some (gh, rest)
    else
      match scanGhosts pb rest with
      | none => none
      | some (hit, rest1) => some (hit, gh :: rest1)

/-- Outer loop of `Game::checkProjectileCollisions` over the projectiles still
to visit; returns the projectiles kept. -/
def collideProjectiles (m : Runtime) : List Projectile → Game → List Projectile × Game
  | [], g => ([], g)
  | p :: rest, g =>
    match scanGhosts p.getBounds g.ghosts with
    | some (hit, remaining) =>
      let st := ParticleSystem.addExplosion m hit.position 20 (g.particleSystem, g.draws)
      collideProjectiles m rest
        { g with particleSystem := st.1, draws := st.2, score := wrapInt32 (g.score + hit.getScoreValue),
                 ghosts := remaining }
    | none =>
      let (kept, g1) := collideProjectiles m rest g
      (p :: kept, g1)

/-- Source `Game::checkProjectileCollisions`. -/
def checkProjectileCollisions (m : Runtime) (g : Game) : Game :=
  let (kept, g1) := collideProjectiles m g.projectiles g
  { g1 with projectiles := kept }

/-- Body of the loop of `Game::checkSupermanGhostCollisions` for one ghost. -/
def contactStep (m : Runtime) (supermanBounds : FloatRect) (g : Game) (ghost : Ghost) : Game :=
  if supermanBounds.intersects ghost.getBounds then
    let s1 := g.superman.takeDamage ghost.getDamage
    let st := ParticleSystem.addDamageEffect m s1.position 10 (g.particleSystem, g.draws)
    { g with superman := s1, particleSystem := st.1, draws := st.2 }
  else g

/-- Source `Game::checkSupermanGhostCollisions`. -/
def checkSupermanGhostCollisions (m : Runtime) (g : Game) : Game :=
  g.ghosts.foldl (contactStep m g.superman.getBounds) g

/-- Source `Game::checkCollisions`. -/
def checkCollisions (m : Runtime) (g : Game) : Game :=
  checkSupermanGhostCollisions m (checkProjectileCollisions m g)

/-- The ghost loop of `Game::updatePlaying`. -/
def updateGhosts (m : Runtime) (deltaTime : ℚ) (supermanPosition : Vec2) :
    List Ghost → Nat → List Ghost × Nat
  | [], r => ([], r)
  | gh :: rest, r =>
    let (gh1, r1) := gh.update m deltaTime supermanPosition r
    let (rest1, r2) := updateGhosts m deltaTime supermanPosition rest r1
    (gh1 :: rest1, r2)

/-- The projectile loop of `Game::updatePlaying`: every projectile is updated
and erased when inactive or off screen. -/
def updateProjectiles (m : Runtime) (deltaTime : ℚ) : List Projectile → List Projectile
  | [] => []
  | p :: rest =>
    let p1 := p.update m deltaTime
    if !p1.isActive || p1.isOffScreen WINDOW_WIDTH WINDOW_HEIGHT then
      updateProjectiles m deltaTime rest
    else p1 :: updateProjectiles m deltaTime rest

/-- First part of `Game::updatePlaying`: the updates of the player, the ghosts,
the projectiles and the particle system. -/
def updateEntities (m : Runtime) (inp : FrameInput) (g : Game) : Game :=
  let s1 := g.superman.update m inp.keys inp.winW inp.winH inp.deltaTime
  let (gs, r1) := updateGhosts m inp.deltaTime s1.position g.ghosts g.draws
  let ps := updateProjectiles m inp.deltaTime g.projectiles
  let st := ParticleSystem.update m inp.deltaTime (g.particleSystem, r1)
  { g with superman := s1, ghosts := gs, projectiles := ps, particleSystem := st.1, draws := st.2 }

/-- State of `Game::updatePlaying` right after `checkCollisions`. -/
def afterCollisions (m : Runtime) (inp : FrameInput) (g : Game) : Game :=
  checkCollisions m (updateEntities m inp g)

/-- End of `Game::updatePlaying` after the level check: the game-over check and
the health regeneration. -/
def finishFrame (inp : FrameInput) (g : Game) : Game :=
  let g1 := if g.superman.health ≤ 0 then gameOver g else g
  { g1 with superman := g1.superman.regenerateHealth inp.deltaTime }

/-- Source `Game::updatePlaying`. -/
def updatePlaying (m : Runtime) (fuel : Nat) (inp : FrameInput) (g : Game) : Option Game :=
  let c := afterCollisions m inp g
  if c.ghosts.isEmpty then
    match nextLevel m fuel c with
    | none => none
    | some g1 => some (finishFrame inp g1)
  else some (finishFrame inp c)

/-- Source `Game::update`. -/
def update (m : Runtime) (fuel : Nat) (inp : FrameInput) (g : Game) : Option Game :=
  match g.currentState with
  | .Menu => some g
  | .Playing => updatePlaying m fuel inp g
  | .Paused => some g
  | .GameOver => some g

/-- Source `Game::handleMenuInput`. -/
def handleMenuInput (m : Runtime) (fuel : Nat) (event : Event) (g : Game) : Option Game :=
  if event = Event.KeyPressed Key.Enter then startGame m fuel g else some g

/-- The punch loop of `Game::handlePlayingInput` over the ghosts still to
visit; returns the ghosts kept. -/
def punchGhosts (m : Runtime) : List Ghost → Game → List Ghost × Game
  | [], g => ([], g)
  | gh :: rest, g =>
    if g.superman.isPunching && g.superman.getPunchRange.intersects gh.getBounds then
      let st := ParticleSystem.addExplosion m gh.position 20 (g.particleSystem, g.draws)
      punchGhosts m rest
        { g with particleSystem := st.1, draws := st.2, score := wrapInt32 (g.score + gh.getScoreValue) }
    else
      let (kept, g1) := punchGhosts m rest g
      (gh :: kept, g1)

/-- Source `Game::handlePlayingInput`; `mouseX`, `mouseY` is the result of
`sf::Mouse::getPosition(window)`. -/
def handlePlayingInput (m : Runtime) (mouseX mouseY : Int) (event : Event) (g : Game) : Game :=
  let g1 :=
    if event = Event.KeyPressed Key.Space then
      let laser := Projectile.new m g.superman.position ⟨(mouseX : ℚ), (mouseY : ℚ)⟩
        ProjectileType.Laser
      let st := ParticleSystem.addLaserEffect m g.superman.position 8 (g.particleSystem, g.draws)
      { g with projectiles := g.projectiles ++ [laser], particleSystem := st.1, draws := st.2 }
    else g
  match event with
  | .MouseButtonPressed .Left x y =>
    let mousePos : Vec2 := ⟨(x : ℚ), (y : ℚ)⟩
    let g2 := { g1 with superman := g1.superman.performPunch mousePos }
    let (kept, g3) := punchGhosts m g2.ghosts g2
    let st := ParticleSystem.addPunchEffect m mousePos 15 (g3.particleSystem, g3.draws)
    { g3 with ghosts := kept, particleSystem := st.1, draws := st.2 }
  | _ => g1

/-- Source `Game::handlePausedInput`. -/
def handlePausedInput (m : Runtime) (fuel : Nat) (event : Event) (g : Game) : Option Game :=
  if event = Event.KeyPressed Key.Enter then restartGame m fuel g else some g

/-- Source `Game::handleGameOverInput`. -/
def handleGameOverInput (m : Runtime) (fuel : Nat) (event : Event) (g : Game) : Option Game :=
  if event = Event.KeyPressed Key.Enter then restartGame m fuel g else some g

/-- Body of the loop of `Game::handleEvents` for one polled event. -/
def handleEvent (m : Runtime) (fuel : Nat) (mouseX mouseY : Int) (event : Event) (g : Game) :
    Option Game :=
  let g1 := if event = Event.Closed then { g with windowOpen := false } else g
  let g2 :=
    if event = Event.KeyPressed Key.Escape then
      if g1.currentState = GameState.Playing then pauseGame g1
      else if g1.currentState = GameState.Paused then resumeGame g1
      else g1
    else g1
  match g2.currentState with
  | .Menu => handleMenuInput m fuel event g2
  | .Playing => some (handlePlayingInput m mouseX mouseY event g2)
  | .Paused => handlePausedInput m fuel event g2
  | .GameOver => handleGameOverInput m fuel event g2

/-- Source `Game::handleEvents` over the events polled in one frame. -/
def handleEvents (m : Runtime) (fuel : Nat) (mouseX mouseY : Int) :
    List Event → Game → Option Game
  | [], g => some g
  | e :: rest, g =>
    match handleEvent m fuel mouseX mouseY e g with
    | none => none
    | some g1 => handleEvents m fuel mouseX mouseY rest g1

end Game

/-! ## Call sequences and specification-side definitions -/

/-- One call on the player, for sequences of calls. -/
inductive SupermanCall where
  | takeDamage (damage : ℚ)
  | regenerateHealth (deltaTime : ℚ)
  | reset (x y : ℚ)
  | update (k : Keys) (w h : Nat) (deltaTime : ℚ)
deriving DecidableEq, Repr

/-- The damage of a `takeDamage` call is not negative. -/
def SupermanCall.NonNeg : SupermanCall → Prop
  | .takeDamage d => 0 ≤ d
  | _ => True

/-- Effect of one call on the player. -/
def SupermanCall.run (m : Runtime) : SupermanCall → Superman → Superman
  | .takeDamage d, s => s.takeDamage d
  | .regenerateHealth dt, s => s.regenerateHealth dt
  | .reset x y, s => s.reset x y
  | .update k w h dt, s => s.update m k w h dt

/-- Effect of a sequence of calls on the player, first call first. -/
def runCalls (m : Runtime) (calls : List SupermanCall) (s : Superman) : Superman :=
  calls.foldl (fun st c => c.run m st) s

/-- Effect of a sequence of `Ghost::takeDamage` calls. -/
def takeDamages (ds : List ℚ) (g : Ghost) : Ghost :=
  ds.foldl (fun st d => st.takeDamage d) g

/-- A sample call sequence on the player. -/
def sampleCalls : List SupermanCall :=
  [.takeDamage 30, .update ⟨false, false, false, false⟩ 800 600 2, .regenerateHealth 2,
   .takeDamage 150, .reset 400 300]

/-- Effect of a sequence of `Projectile::update` calls, one per elapsed time. -/
def runUpdates (m : Runtime) (dts : List ℚ) (p : Projectile) : Projectile :=
  dts.foldl (fun st dt => st.update m dt) p

/-- The sample that the placement loop of `spawnGhosts` draws after `k` earlier
draws is kept for a player at `(px, py)`: it is not within 100 on both axes. -/
def Accepted (m : Runtime) (px py : ℚ) (k : Nat) : Prop :=
  ¬ (|(m.uniform k 50 (((Game.WINDOW_WIDTH - 50 : Int) : ℚ))).1 - px| < 100 ∧
     |(m.uniform (k + 1) 50 (((Game.WINDOW_HEIGHT - 50 : Int) : ℚ))).1 - py| < 100)

/-- The generator outputs let the placement loop end: after any number of
earlier draws, one of its first `fuel` samples is kept. -/
def Placeable (m : Runtime) (fuel : Nat) (px py : ℚ) : Prop :=
  ∀ k, ∃ j, j < fuel ∧ Accepted m px py (k + 2 * j)

/-- Top-level state after a key event, as the specification tabulates it. -/
def keyTransition : GameState → Key → GameState
  | .Menu, .Enter => .Playing
  | .Playing, .Escape => .Paused
  | .Paused, .Escape => .Playing
  | .Paused, .Enter => .Playing
  | .GameOver, .Enter => .Playing
  | s, _ => s

/-- The bounds of ghost `gh` meet the punch-range box of player `s`. -/
def inPunchRange (s : Superman) (gh : Ghost) : Bool :=
  s.getPunchRange.intersects gh.getBounds

/-- Sum of the score values of a list of ghosts. -/
def scoreSum (gs : List Ghost) : Int := (gs.map Ghost.getScoreValue).sum

/-- The counter `score` after `score += getScoreValue()` for each ghost of a list
in turn. -/
def addScores (score : Int) (gs : List Ghost) : Int :=
  gs.foldl (fun s gh => wrapInt32 (s + gh.getScoreValue)) score

/-- The ghosts removed by the punch of an input event: those in punch range on a
left click, none on any other event. -/
def punchHits (event : Event) (g : Game) : List Ghost :=
  match event with
  | .MouseButtonPressed .Left _ _ => g.ghosts.filter (fun gh => inPunchRange g.superman gh)
  | _ => []

/-- The bounds of projectile `p` meet the bounds of ghost `gh`. -/
def hits (p : Projectile) (gh : Ghost) : Bool :=
  p.getBounds.intersects gh.getBounds

/-- The projectile pass as the specification words it: the projectiles are
taken in collection order; each one removes the first ghost, among those still
present, that it overlaps, and is removed with it; a projectile that overlaps no
remaining ghost is kept. Returns the projectiles kept, the ghosts remaining and
the ghosts removed. -/
def resolveHits : List Projectile → List Ghost → List Projectile × List Ghost × List Ghost
  | [], gs => ([], gs, [])
  | p :: rest, gs =>
    match gs.find? (hits p) with
    | some hit =>
      let res := resolveHits rest (gs.eraseP (hits p))
      (res.1, res.2.1, hit :: res.2.2)
    | none =>
      let res := resolveHits rest gs
      (p :: res.1, res.2.1, res.2.2)

/-- The ghosts removed by the projectile pass of a frame, in the order of their
projectiles. -/
def frameHits (m : Runtime) (inp : FrameInput) (g : Game) : List Ghost :=
  (resolveHits (Game.updateEntities m inp g).projectiles (Game.updateEntities m inp g).ghosts).2.2

/-- A ghost as constructed at `p` with the generators returning 0. -/
def sampleGhost (p : Vec2) (t : GhostType) : Ghost := (Ghost.new approxMath p t 0).1

/-- A frame of 1/64 s with no movement key held, in the 800 by 600 window. -/
def idleFrame : FrameInput := ⟨1 / 64, ⟨false, false, false, false⟩, 800, 600⟩

/-- A Playing session whose only ghost, a Regular one, stands on the player;
the player is at full health and the regeneration accumulator has run up to 2 s
(it is reset only when a regeneration takes place). -/
def contactGame : Game :=
  { Game.new with
    currentState := GameState.Playing
    superman := { Superman.new 400 300 with regenTimer := 2 }
    ghosts := [sampleGhost ⟨400, 300⟩ GhostType.Regular] }

/-- The session `contactGame` with the score ten points below the largest 32-bit
`int`, 2147483647. -/
def richGame : Game := { contactGame with score := 2147483642 }

/-- A Playing session at level 1 with no ghost left. -/
def clearedGame : Game := { Game.new with currentState := GameState.Playing }

/-- The session state that the specification gives for a (re)start: Playing,
score 0, level 1, the player at the centre (400, 300) at rest with zero punch
and regeneration timers and full health, no projectile, no particle, no
continuous effect, 3 ghosts. -/
def FreshSession (g : Game) : Prop :=
  g.currentState = GameState.Playing ∧ g.score = 0 ∧ g.level = 1 ∧
  g.superman.position = ⟨400, 300⟩ ∧ g.superman.velocity = ⟨0, 0⟩ ∧
  g.superman.punchTimer = 0 ∧ g.superman.regenTimer = 0 ∧
  g.superman.health = Superman.maxHealth ∧ g.projectiles = [] ∧
  g.particleSystem.particles = [] ∧ g.particleSystem.continuousEffects = [] ∧
  g.ghosts.length = 3

/-- Two sessions differ at most in their top-level state. -/
def SameButState (g g1 : Game) : Prop :=
  g1.score = g.score ∧ g1.level = g.level ∧ g1.superman = g.superman ∧
  g1.ghosts = g.ghosts ∧ g1.projectiles = g.projectiles ∧
  g1.particleSystem = g.particleSystem ∧ g1.draws = g.draws ∧
  g1.windowOpen = g.windowOpen ∧ g1.isMousePressed = g.isMousePressed

/-- A session paused at level 2 with a score of 30. -/
def pausedGame : Game :=
  { contactGame with currentState := GameState.Paused, score := 30, level := 2 }

/-- Contact damages of a frame: `getDamage` of the ghosts whose bounds meet the
player's bounds in the contact pass of `updatePlaying`, in collection order. -/
def contactDamages (m : Runtime) (inp : FrameInput) (g : Game) : List ℚ :=
  let c := Game.checkProjectileCollisions m (Game.updateEntities m inp g)
  (c.ghosts.filter (fun gh => c.superman.getBounds.intersects gh.getBounds)).map Ghost.getDamage

/-- Consecutive `updatePlaying` calls, one per frame input. -/
def runFrames (m : Runtime) (fuel : Nat) : List FrameInput → Game → Option Game
  | [], g => some g
  | inp :: rest, g =>
    match Game.updatePlaying m fuel inp g with
    | none => none
    | some g1 => runFrames m fuel rest g1

/-- On each of the frames exactly one ghost overlaps the player in the contact
pass, with contact damage `d`. -/
def ContactFrames (m : Runtime) (fuel : Nat) (d : ℚ) : List FrameInput → Game → Prop
  | [], _ => True
  | inp :: rest, g =>
    contactDamages m inp g = [d] ∧
      ∀ g1, Game.updatePlaying m fuel inp g = some g1 → ContactFrames m fuel d rest g1

/-- On each of the frames the regeneration accumulator, advanced by the frame's
elapsed time, is still below `regenRate`, so `regenerateHealth` does nothing. -/
def RegenIdle (m : Runtime) (fuel : Nat) : List FrameInput → Game → Prop
  | [], _ => True
  | inp :: rest, g =>
    g.superman.regenTimer + inp.deltaTime < Superman.regenRate ∧
      ∀ g1, Game.updatePlaying m fuel inp g = some g1 → RegenIdle m fuel rest g1

/-- The session `contactGame` with the regeneration accumulator at 0. -/
def contactGameIdle : Game :=
  { contactGame with superman := Superman.new 400 300 }

/-- The session `contactGame` with the player's health down to 5. -/
def dyingGame : Game :=
  { contactGame with superman := { Superman.new 400 300 with health := 5 } }

/-- Variant of the ghost of index `i` in a batch of `ghostCount` ghosts at
`level`, as the specification gives it: the last ghost of every third level is
a Boss, any other ghost is Fast when its type roll is below 0.3 and Regular
otherwise. -/
def batchType (level ghostCount : Int) (i : Nat) (typeRoll : ℚ) : GhostType :=
  if level % 3 = 0 ∧ (i : Int) = ghostCount - 1 then GhostType.Boss
  else if typeRoll < 3 / 10 then GhostType.Fast
  else GhostType.Regular

/-- Ghost `gh` is the one `spawnGhosts` builds for index `i` from the sample
drawn after `kx` earlier draws: the sample is kept for the player position, the
type roll is the next draw, and the ghost is constructed at the sample with the
variant of its index and roll. -/
def SpawnedFrom (m : Runtime) (level ghostCount : Int) (player : Vec2) (i : Nat) (gh : Ghost)
    (kx : Nat) : Prop :=
  Accepted m player.x player.y kx ∧
  gh = (Ghost.new m
    ⟨(m.uniform kx 50 (((Game.WINDOW_WIDTH - 50 : Int) : ℚ))).1,
     (m.uniform (kx + 1) 50 (((Game.WINDOW_HEIGHT - 50 : Int) : ℚ))).1⟩
    (batchType level ghostCount i (m.uniform (kx + 2) 0 1).1) (kx + 3)).1

/-- Ghost `gh` is the one `spawnGhosts` builds for index `i` from some sample. -/
def SpawnedAt (m : Runtime) (level ghostCount : Int) (player : Vec2) (i : Nat) (gh : Ghost) :
    Prop :=
  ∃ kx, SpawnedFrom m level ghostCount player i gh kx

/-- The generator outputs are canonical: every one lies in `[0, 1)`. -/
def UnitStream (m : Runtime) : Prop := ∀ k, 0 ≤ m.stream k ∧ m.stream k < 1

/-- A Playing session at level 3 with two left-over ghosts. -/
def levelThreeGame : Game :=
  { contactGame with
    level := 3
    ghosts := [sampleGhost ⟨100, 100⟩ GhostType.Fast, sampleGhost ⟨400, 300⟩ GhostType.Boss] }

/-- The square root of the runtime is positive from 1 on and its square falls
short of the argument by a relative 1/100000 at most:
`q ≤ sqrt q * sqrt q * (1 + 1 / 100000)` for `q ≥ 1`. The exact square root, a
correctly rounded binary32 square root and `approxSqrt` have this property. -/
def SqrtShort (m : Runtime) : Prop :=
  ∀ q : ℚ, 1 ≤ q → 0 < m.sqrt q ∧ q ≤ m.sqrt q * m.sqrt q * (1 + 1 / 100000)

/-- Square root rounded up to six decimals. -/
def upperSqrt (q : ℚ) : ℚ :=
  if q ≤ 0 then 0 else ((Nat.sqrt (Int.toNat ⌊q * 1000000000000⌋) + 1 : Nat) : ℚ) / 1000000

/-- The runtime `approxMath` with the square root rounded up. -/
def upperMath : Runtime := { approxMath with sqrt := upperSqrt }

/-- Squared speed of the player, `vx * vx + vy * vy`. -/
def Superman.speedSq (s : Superman) : ℚ :=
  s.velocity.x * s.velocity.x + s.velocity.y * s.velocity.y

/-- Consecutive `Superman::update` calls, one per frame input. -/
def runSupermanFrames (m : Runtime) (inputs : List FrameInput) (s : Superman) : Superman :=
  inputs.foldl (fun st inp => st.update m inp.keys inp.winW inp.winH inp.deltaTime) s

/-- Total elapsed time of a list of frame inputs. -/
def totalTime (inputs : List FrameInput) : ℚ := (inputs.map FrameInput.deltaTime).sum

/-- The player's position is inside the clamp range of a `w` by `h` window. -/
def Superman.InsideWindow (w h : Nat) (s : Superman) : Prop :=
  Superman.SIZE / 2 ≤ s.position.x ∧ s.position.x ≤ (w : ℚ) - Superman.SIZE / 2 ∧
  Superman.SIZE / 2 ≤ s.position.y ∧ s.position.y ≤ (h : ℚ) - Superman.SIZE / 2

/-- A frame of 1/8 s with the down and right keys held, in the 800 by 600 window. -/
def diagonalFrame : FrameInput := ⟨1 / 8, ⟨false, true, false, true⟩, 800, 600⟩

/-- A player near the bottom right corner moving fast towards it. -/
def fastPlayer : Superman :=
  { Superman.new 770 570 with velocity := ⟨600, 800⟩ }

/-- A frame of 1/8 s with no movement key held, in the 800 by 600 window. -/
def slowFrame : FrameInput := ⟨1 / 8, ⟨false, false, false, false⟩, 800, 600⟩

/-- Three frames of 0.1f s (the binary32 value 13421773 / 134217728) with no
movement key held. -/
def tenthFrames : List FrameInput :=
  List.replicate 3 ⟨13421773 / 134217728, ⟨false, false, false, false⟩, 800, 600⟩

/-- Two frames of 0.1f s followed by one of the next binary32 value above 0.1f,
6710887 / 67108864 s, with no movement key held. -/
def tenthFramesUp : List FrameInput :=
  [⟨13421773 / 134217728, ⟨false, false, false, false⟩, 800, 600⟩,
   ⟨13421773 / 134217728, ⟨false, false, false, false⟩, 800, 600⟩,
   ⟨6710887 / 67108864, ⟨false, false, false, false⟩, 800, 600⟩]

/-- A player at rest at a position outside the 800 by 600 window. -/
def strayPlayer : Superman := Superman.new 900 700

/-- The trail invariant of the specification: at most `maxTrailPoints` points,
ages non-decreasing from front to back, every point younger than 0.5 s with
alpha = 1 - age / 0.5 in (0, 1]. -/
def TrailOK (tr : List TrailPoint) : Prop :=
  tr.length ≤ Projectile.maxTrailPoints ∧
  tr.Pairwise (fun a b => a.age ≤ b.age) ∧
  ∀ pt ∈ tr, 0 ≤ pt.age ∧ pt.age < 5 / 10 ∧ pt.alpha = 1 - pt.age / (5 / 10) ∧
    0 < pt.alpha ∧ pt.alpha ≤ 1

/-- One trail point aged by `deltaTime`, as the loop of `updateTrail` rewrites it. -/
def agePoint (deltaTime : ℚ) (pt : TrailPoint) : TrailPoint :=
  { pt with age := pt.age + deltaTime, alpha := 1 - (pt.age + deltaTime) / (5 / 10) }

/-- The survival test of the specification for a projectile after its update:
remaining lifetime above 0 and position within `[-size, W + size]` by
`[-size, H + size]` for the 800 by 600 playfield. -/
def Projectile.Survives (p : Projectile) : Prop :=
  0 < p.lifetime ∧ -p.size ≤ p.position.x ∧ p.position.x ≤ 800 + p.size ∧
  -p.size ≤ p.position.y ∧ p.position.y ≤ 600 + p.size

/-- The projectile pass of `updatePlaying` over consecutive frames. -/
def runPasses (m : Runtime) (dts : List ℚ) (ps : List Projectile) : List Projectile :=
  dts.foldl (fun st dt => Game.updateProjectiles m dt st) ps

/-- A laser fired from the centre of the playfield to the right. -/
def sampleLaser : Projectile :=
  { position := ⟨400, 300⟩, velocity := ⟨500, 0⟩, direction := ⟨1, 0⟩,
    type := ProjectileType.Laser, active := true, lifetime := 3, animationTimer := 0,
    trail := [] }

/-- Capacity of the pool as `addParticle` compares it with `particles.size()`. -/
def ParticleSystem.capacity (ps : ParticleSystem) : Int := intToSizeT ps.maxParticles

/-- State `b` comes from state `a` by particle-creation requests: particles are
only appended, the capacity and the emitters are kept, a pool within its
capacity stays within it, and a pool at its capacity is left as it is. -/
def PoolGrows (a b : ParticleSystem × Nat) : Prop :=
  (∃ added, b.1.particles = a.1.particles ++ added) ∧
  b.1.maxParticles = a.1.maxParticles ∧
  b.1.continuousEffects = a.1.continuousEffects ∧
  ((a.1.particles.length : Int) ≤ a.1.capacity →
    (b.1.particles.length : Int) ≤ a.1.capacity) ∧
  (a.1.capacity ≤ (a.1.particles.length : Int) → b.1 = a.1)

/-- One operation on the particle system, for sequences of operations. -/
inductive PoolOp where
  | addExplosion (position : Vec2) (particleCount : Int)
  | addLaserEffect (position : Vec2) (particleCount : Int)
  | addPunchEffect (position : Vec2) (particleCount : Int)
  | addDamageEffect (position : Vec2) (particleCount : Int)
  | addLevelCompleteEffect (position : Vec2) (particleCount : Int)
  | addSmokeEffect (position : Vec2) (particleCount : Int)
  | addSparkEffect (position direction : Vec2) (particleCount : Int)
  | addContinuousEffect (position : Vec2) (type : ParticleType) (duration : ℚ)
  | update (deltaTime : ℚ)
  | clear
deriving DecidableEq, Repr

/-- The operation is one of the seven particle-creation requests. -/
def PoolOp.IsCreation : PoolOp → Prop
  | .addContinuousEffect _ _ _ => False
  | .update _ => False
  | .clear => False
  | _ => True

/-- Effect of one operation on the particle system and the draw counter. -/
def PoolOp.run (m : Runtime) : PoolOp → ParticleSystem × Nat → ParticleSystem × Nat
  | .addExplosion p n, st => ParticleSystem.addExplosion m p n st
  | .addLaserEffect p n, st => ParticleSystem.addLaserEffect m p n st
  | .addPunchEffect p n, st => ParticleSystem.addPunchEffect m p n st
  | .addDamageEffect p n, st => ParticleSystem.addDamageEffect m p n st
  | .addLevelCompleteEffect p n, st => ParticleSystem.addLevelCompleteEffect m p n st
  | .addSmokeEffect p n, st => ParticleSystem.addSmokeEffect m p n st
  | .addSparkEffect p d n, st => ParticleSystem.addSparkEffect m p d n st
  | .addContinuousEffect p t d, st => (st.1.addContinuousEffect p t d, st.2)
  | .update dt, st => ParticleSystem.update m dt st
  | .clear, st => (st.1.clear, st.2)

/-- Effect of a sequence of operations, first operation first. -/
def runPoolOps (m : Runtime) (ops : List PoolOp) (st : ParticleSystem × Nat) :
    ParticleSystem × Nat :=
  ops.foldl (fun s op => op.run m s) st

/-- A particle system with room for three particles. -/
def smallPool : ParticleSystem := { ParticleSystem.new with maxParticles := 3 }

/-- Effect on one particle of consecutive `updateParticle` calls. -/
def evolveParticle (dts : List ℚ) (p : Particle) : Particle :=
  dts.foldl (fun q dt => ParticleSystem.updateParticle dt q) p

/-- Consecutive `ParticleSystem::update` calls, one per elapsed time. -/
def runPoolUpdates (m : Runtime) (dts : List ℚ) (st : ParticleSystem × Nat) :
    ParticleSystem × Nat :=
  dts.foldl (fun s dt => ParticleSystem.update m dt s) st

/-- A spark created with a lifetime of 1/2 s. -/
def sampleSpark : Particle :=
  Particle.new ⟨100, 100⟩ ⟨8, 0⟩ Color.White (1 / 2) 2 ParticleType.Spark 0

/-- A new particle system holding `sampleSpark`. -/
def sparkPool : ParticleSystem := { ParticleSystem.new with particles := [sampleSpark] }

/-- A spark created with a lifetime of 3/2 s. -/
def slowSpark : Particle :=
  Particle.new ⟨100, 100⟩ ⟨8, 0⟩ Color.White (3 / 2) 2 ParticleType.Spark 0

/-- A new particle system holding `slowSpark`. -/
def slowPool : ParticleSystem := { ParticleSystem.new with particles := [slowSpark] }

/-- Consecutive `Ghost::update` calls; each frame gives the elapsed time and the
player's position. -/
def runGhostUpdates (m : Runtime) (frames : List (ℚ × Vec2)) (st : Ghost × Nat) : Ghost × Nat :=
  frames.foldl (fun st f => st.1.update m f.1 f.2 st.2) st

/-- A Regular ghost built at (100, 100) that drifts to the right at 64 px/s. -/
def driftingGhost : Ghost :=
  { sampleGhost ⟨100, 100⟩ GhostType.Regular with velocity := ⟨64, 0⟩ }

/-- A Boss built at (400, 300), never damaged, 1/64 s before its first attack tick. -/
def tickBoss : Ghost :=
  { sampleGhost ⟨400, 300⟩ GhostType.Boss with
    bossAttackTimer := 191 / 64
    damageTimer := 191 / 64 }

/-- The cosine and sine of the runtime lie on the unit circle, as the real ones do. -/
def TrigUnit (m : Runtime) : Prop := ∀ a : ℚ, m.cos a * m.cos a + m.sin a * m.sin a = 1

/-- Cosine by the rational parametrisation of the circle with `tan (a / 2)` taken
as `a / 2`. -/
def circleCos (a : ℚ) : ℚ := (1 - a / 2 * (a / 2)) / (1 + a / 2 * (a / 2))

/-- Sine by the rational parametrisation of the circle with `tan (a / 2)` taken
as `a / 2`. -/
def circleSin (a : ℚ) : ℚ := a / (1 + a / 2 * (a / 2))

/-- The runtime `approxMath` with sine and cosine on the unit circle. -/
def circleMath : Runtime := { approxMath with sin := circleSin, cos := circleCos }

/-- Time that the `Superman::update` calls of a call sequence add to the
regeneration accumulator. -/
def updateTime : List SupermanCall → ℚ
  | [] => 0
  | .update _ _ _ dt :: rest => dt + updateTime rest
  | _ :: rest => updateTime rest

/-- The frame time of an `update` call is not negative. -/
def SupermanCall.Forward : SupermanCall → Prop
  | .update _ _ _ dt => 0 ≤ dt
  | _ => True

/-- A player hurt to 50 health whose regeneration accumulator has run up to 2 s. -/
def hurtPlayer : Superman := { Superman.new 400 300 with health := 50, regenTimer := 2 }

/-- The ghosts of a session whose bounds meet the player's bounds. -/
def overlapping (g : Game) : List Ghost :=
  g.ghosts.filter (fun gh => g.superman.getBounds.intersects gh.getBounds)

/-- A Playing session with a Regular and a Boss ghost on the player and a Fast
ghost far away. -/
def crowdedGame : Game :=
  { contactGame with
    ghosts := [sampleGhost ⟨400, 300⟩ GhostType.Regular, sampleGhost ⟨100, 100⟩ GhostType.Fast,
      sampleGhost ⟨410, 290⟩ GhostType.Boss] }

/-- The square root of the runtime over-estimates by at most 1. -/
def SqrtNear (m : Runtime) : Prop :=
  ∀ q : ℚ, 0 ≤ q → m.sqrt q ≤ 1 ∨ (m.sqrt q - 1) * (m.sqrt q - 1) ≤ q

/-- The frame time of 60 frames per second as the binary32 quotient `1.0f / 60`,
just above 1/60. -/
def frameTime : ℚ := 8947849 / 536870912

/-- A bound of the speed that `handleInput` reaches from rest at 60 frames per
second: 75.56, above the fixed point `friction * 800 * frameTime / (1 - friction)`
of the speed recurrence (about 75.55557). -/
def Superman.restSpeed : ℚ := 7556 / 100

/-- Velocity of `handleInput` after acceleration and friction, before the speed
limit is applied. -/
def Superman.frictionVelocity (m : Runtime) (k : Keys) (deltaTime : ℚ) (s : Superman) : Vec2 :=
  let d := Superman.rawInput k
  let length := m.sqrt (d.x * d.x + d.y * d.y)
  let inputDirection : Vec2 := if length > 0 then ⟨d.x / length, d.y / length⟩ else d
  (s.velocity.add ((inputDirection.scale Superman.acceleration).scale deltaTime)).scale
    Superman.friction

/-- A frame of 1/64 s with the up and right keys held, in the 800 by 600 window. -/
def climbFrame : FrameInput := ⟨1 / 64, ⟨true, false, false, true⟩, 800, 600⟩

/-- A frame of `dt` seconds with the right key held, in the 800 by 600 window. -/
def rightFrame (dt : ℚ) : FrameInput := ⟨dt, ⟨false, false, false, true⟩, 800, 600⟩

/-- One right-key frame of `dt` seconds on the horizontal speed, without the
speed limit: acceleration, then friction. -/
def rightStep (dt v : ℚ) : ℚ := (v + 800 * dt) * Superman.friction

/-- A player moving down and left at (-555, -1272). -/
def divingPlayer : Superman := { Superman.new 400 300 with velocity := ⟨-555, -1272⟩ }

/-- Value of a binary32 variable that starts at `c` and from which the steps are
subtracted in turn. -/
def countdown (c : ℚ) (dts : List ℚ) : ℚ := dts.foldl (fun a dt => f32 (a - dt)) c

/-! ## Theorems -/

/-! ### Rounding to binary32 -/

theorem binaryDigits_spec : ∀ (fuel n : Nat), n ≠ 0 → n ≤ fuel →
    2 ^ (binaryDigits fuel n - 1) ≤ n ∧ n < 2 ^ binaryDigits fuel n := by
  intro fuel
  induction fuel with
  | zero => intro n h0 hle; exact absurd (Nat.le_zero.mp hle) h0
  | succ f ih =>
    intro n h0 hle
    simp only [binaryDigits, if_neg h0, Nat.add_sub_cancel]
    by_cases h1 : n / 2 = 0
    · have hn : n = 1 := by omega
      subst hn
      cases f with
      | zero => simp [binaryDigits]
      | succ f2 => simp [binaryDigits]
    · obtain ⟨a, b⟩ := ih (n / 2) h1 (by omega)
      have hpos : 0 < binaryDigits f (n / 2) := by
        rcases Nat.eq_zero_or_pos (binaryDigits f (n / 2)) with h | h
        · rw [h] at b; simp at b; omega
        · exact h
      constructor
      · have e : binaryDigits f (n / 2) = (binaryDigits f (n / 2) - 1) + 1 := by omega
        rw [e, pow_succ]
        omega
      · rw [pow_succ]
        omega

theorem binaryDigits_pos (n : Nat) (h : n ≠ 0) : 0 < binaryDigits n n := by
  cases n with
  | zero => exact absurd rfl h
  | succ k => simp [binaryDigits]

theorem log2Floor_le (a : ℚ) (ha : 0 < a) : (2 : ℚ) ^ log2Floor a ≤ a := by
  unfold log2Floor
  dsimp only
  split_ifs with h
  · exact h
  · have hnum : 0 < a.num := Rat.num_pos.mpr ha
    have hp0 : a.num.natAbs ≠ 0 := by
      intro h0
      rw [Int.natAbs_eq_zero] at h0
      omega
    have hq0 : a.den ≠ 0 := a.den_nz
    have p1 := (binaryDigits_spec a.num.natAbs a.num.natAbs hp0 (le_refl _)).1
    have q2 := (binaryDigits_spec a.den a.den hq0 (le_refl _)).2
    have hdp := binaryDigits_pos a.num.natAbs hp0
    have h1 : ((a.num.natAbs : Nat) : ℚ) = (a.num : ℚ) := by
      rw [Nat.cast_natAbs, abs_of_pos hnum]
    have hP : ((2 : ℚ) ^ (binaryDigits a.num.natAbs a.num.natAbs - 1)) ≤ (a.num.natAbs : ℚ) := by
      exact_mod_cast p1
    have hQ : (a.den : ℚ) < (2 : ℚ) ^ (binaryDigits a.den a.den) := by
      exact_mod_cast q2
    have hden : (0 : ℚ) < a.den := by exact_mod_cast a.den_pos
    have key : (2 : ℚ) ^ (binaryDigits a.num.natAbs a.num.natAbs - 1) /
        2 ^ (binaryDigits a.den a.den) ≤ a := by
      rw [div_le_iff₀ (by positivity)]
      calc (2 : ℚ) ^ (binaryDigits a.num.natAbs a.num.natAbs - 1)
          ≤ (a.num.natAbs : ℚ) := hP
        _ = a * a.den := by rw [h1, Rat.mul_den_eq_num]
        _ ≤ a * 2 ^ binaryDigits a.den a.den := by
            apply mul_le_mul_of_nonneg_left hQ.le ha.le
    have e2 : ((binaryDigits a.num.natAbs a.num.natAbs : Int) - (binaryDigits a.den a.den : Int) - 1)
        = ((binaryDigits a.num.natAbs a.num.natAbs - 1 : Nat) : Int) -
          ((binaryDigits a.den a.den : Nat) : Int) := by
      omega
    rw [e2, zpow_sub₀ (by norm_num : (2 : ℚ) ≠ 0), zpow_natCast, zpow_natCast]
    exact key

theorem roundEven_err (x : ℚ) : |(roundEven x : ℚ) - x| ≤ 1 / 2 := by
  have h0 : (⌊x⌋ : ℚ) ≤ x := Int.floor_le x
  have h1 : x < ⌊x⌋ + 1 := Int.lt_floor_add_one x
  unfold roundEven
  rw [abs_le]
  split_ifs with a b c
  · constructor <;> linarith
  · push_cast; constructor <;> linarith
  · have : x - ⌊x⌋ = 1 / 2 := le_antisymm (not_lt.mp b) (not_lt.mp a)
    constructor <;> linarith
  · have : x - ⌊x⌋ = 1 / 2 := le_antisymm (not_lt.mp b) (not_lt.mp a)
    push_cast; constructor <;> linarith

theorem roundEven_nonneg (x : ℚ) (hx : 0 ≤ x) : 0 ≤ roundEven x := by
  have h0 : 0 ≤ ⌊x⌋ := Int.floor_nonneg.mpr hx
  unfold roundEven
  split_ifs <;> omega

theorem roundEven_nonpos (x : ℚ) (hx : x ≤ 0) : roundEven x ≤ 0 := by
  rcases eq_or_lt_of_le hx with h | h
  · subst h
    simp [roundEven]
  · have h0 : ⌊x⌋ ≤ -1 := by
      have : ⌊x⌋ < 0 := Int.floor_lt.mpr (by exact_mod_cast h)
      omega
    unfold roundEven
    split_ifs <;> omega

theorem f32_nonneg (x : ℚ) (hx : 0 ≤ x) : 0 ≤ f32 x := by
  unfold f32
  split_ifs with h
  · exact le_refl _
  · have hu : (0 : ℚ) < 2 ^ (max (log2Floor |x|) (-126) - 23) := by positivity
    exact mul_nonneg (by exact_mod_cast roundEven_nonneg _ (div_nonneg hx hu.le)) hu.le

theorem f32_nonpos (x : ℚ) (hx : x ≤ 0) : f32 x ≤ 0 := by
  unfold f32
  split_ifs with h
  · exact le_refl _
  · have hu : (0 : ℚ) < 2 ^ (max (log2Floor |x|) (-126) - 23) := by positivity
    exact mul_nonpos_of_nonpos_of_nonneg
      (by exact_mod_cast roundEven_nonpos _ (div_nonpos_of_nonpos_of_nonneg hx hu.le)) hu.le

/-- Rounding to binary32 changes a value by at most its 2^-24 th part, or by at
most 2^-150 in the subnormal range. -/
theorem f32_err (x : ℚ) : |f32 x - x| ≤ |x| / 2 ^ 24 + 1 / 2 ^ 150 := by
  unfold f32
  split_ifs with h
  · subst h; norm_num
  · have hax : 0 < |x| := abs_pos.mpr h
    have hu : (0 : ℚ) < 2 ^ (max (log2Floor |x|) (-126) - 23) := by positivity
    have hr := roundEven_err (x / 2 ^ (max (log2Floor |x|) (-126) - 23))
    have e : (roundEven (x / 2 ^ (max (log2Floor |x|) (-126) - 23)) : ℚ) *
        2 ^ (max (log2Floor |x|) (-126) - 23) - x =
        ((roundEven (x / 2 ^ (max (log2Floor |x|) (-126) - 23)) : ℚ) -
          x / 2 ^ (max (log2Floor |x|) (-126) - 23)) *
          2 ^ (max (log2Floor |x|) (-126) - 23) := by
      field_simp
    rw [e, abs_mul, abs_of_pos hu]
    have hb : |(roundEven (x / 2 ^ (max (log2Floor |x|) (-126) - 23)) : ℚ) -
          x / 2 ^ (max (log2Floor |x|) (-126) - 23)| *
          2 ^ (max (log2Floor |x|) (-126) - 23) ≤
        1 / 2 * 2 ^ (max (log2Floor |x|) (-126) - 23) :=
      mul_le_mul_of_nonneg_right hr hu.le
    refine le_trans hb ?_
    by_cases hl : (-126 : Int) ≤ log2Floor |x|
    · rw [max_eq_left hl]
      have h2 := log2Floor_le |x| hax
      have e3 : (2 : ℚ) ^ (log2Floor |x| - 23) = 2 ^ log2Floor |x| / 2 ^ 23 := by
        rw [zpow_sub₀ (by norm_num : (2 : ℚ) ≠ 0)]
        norm_num
      rw [e3]
      have : (0 : ℚ) ≤ 1 / 2 ^ 150 := by positivity
      have e4 : 1 / 2 * ((2 : ℚ) ^ log2Floor |x| / 2 ^ 23) = 2 ^ log2Floor |x| / 2 ^ 24 := by
        ring
      rw [e4]
      have : (2 : ℚ) ^ log2Floor |x| / 2 ^ 24 ≤ |x| / 2 ^ 24 :=
        div_le_div_of_nonneg_right h2 (by positivity)
      linarith
    · rw [max_eq_right (le_of_lt (not_le.mp hl))]
      have e5 : (2 : ℚ) ^ ((-126 : Int) - 23) = 1 / 2 ^ 149 := by
        rw [show ((-126 : Int) - 23) = -(149 : Int) by norm_num, zpow_neg]
        norm_num
      rw [e5]
      have : (0 : ℚ) ≤ |x| / 2 ^ 24 := by positivity
      have e6 : (1 : ℚ) / 2 * (1 / 2 ^ 149) = 1 / 2 ^ 150 := by norm_num
      rw [e6]
      linarith

theorem countdown_append (c : ℚ) (l1 l2 : List ℚ) :
    countdown c (l1 ++ l2) = countdown (countdown c l1) l2 := by
  unfold countdown
  rw [List.foldl_append]

theorem countdown_dead : ∀ (dts : List ℚ) (c : ℚ), (∀ dt ∈ dts, 0 ≤ dt) → c ≤ 0 →
    countdown c dts ≤ 0 := by
  intro dts
  induction dts with
  | nil => intro c _ hc; exact hc
  | cons d rest ih =>
    intro c hnn hc
    have hd : 0 ≤ d := hnn d (List.mem_cons_self _ _)
    exact ih (f32 (c - d)) (fun a ha => hnn a (List.mem_cons_of_mem _ ha))
      (f32_nonpos _ (by linarith))

theorem countdown_initial_pos (c : ℚ) (l1 l2 : List ℚ) (hnn : ∀ dt ∈ l2, 0 ≤ dt)
    (h : 0 < countdown c (l1 ++ l2)) : 0 < countdown c l1 := by
  by_contra hcon
  rw [countdown_append] at h
  exact absurd h (not_lt.mpr (countdown_dead l2 _ hnn (not_lt.mp hcon)))

/-- Accumulated rounding of a countdown from `L`: while the variable is positive it
is within `n * L / 2^22` of `L` minus the sum of the `n` steps. -/
theorem countdown_bounds (L : ℚ) (hL : 1 / 2 ^ 126 ≤ L) :
    ∀ dts : List ℚ, (∀ dt ∈ dts, 0 ≤ dt) →
      (0 < countdown L dts → dts.length ≤ 2 ^ 22 →
        countdown L dts ≤ L - dts.sum + dts.length * (L / 2 ^ 22)) ∧
      (dts.sum < L - dts.length * (L / 2 ^ 22) →
        L - dts.sum - dts.length * (L / 2 ^ 22) ≤ countdown L dts) := by
  have hL0 : 0 < L := lt_of_lt_of_le (by positivity) hL
  have hE : 0 < L / 2 ^ 22 := by positivity
  have hsub : (1 : ℚ) / 2 ^ 150 ≤ L / 2 ^ 24 := by
    rw [le_div_iff₀ (by positivity)]
    have : (1 : ℚ) / 2 ^ 150 * 2 ^ 24 = 1 / 2 ^ 126 := by norm_num
    rw [this]
    exact hL
  have hstep : ∀ x : ℚ, 0 < x → x ≤ 2 * L → |f32 x - x| ≤ L / 2 ^ 22 := by
    intro x hx0 hx2
    have := f32_err x
    rw [abs_of_pos hx0] at this
    have h1 : x / 2 ^ 24 ≤ 2 * L / 2 ^ 24 := div_le_div_of_nonneg_right hx2 (by positivity)
    have h2 : 2 * L / 2 ^ 24 + L / 2 ^ 24 ≤ L / 2 ^ 22 := by
      have e : L / 2 ^ 22 = 4 * L / 2 ^ 24 := by ring
      rw [e, ← add_div]
      exact div_le_div_of_nonneg_right (by linarith) (by positivity)
    linarith
  intro dts
  induction dts using List.reverseRecOn with
  | nil =>
    intro _
    simp [countdown]
  | append_singleton dts d ih =>
    intro hnn
    have hd : 0 ≤ d := hnn d (by simp)
    have hnn1 : ∀ dt ∈ dts, 0 ≤ dt := fun a ha => hnn a (by simp [ha])
    have hS : 0 ≤ dts.sum := List.sum_nonneg hnn1
    obtain ⟨ihU, ihL⟩ := ih hnn1
    have hlen : ((dts ++ [d]).length : ℚ) = (dts.length : ℚ) + 1 := by
      rw [List.length_append]; push_cast; simp
    have hsum : (dts ++ [d]).sum = dts.sum + d := by simp
    have hc : countdown L (dts ++ [d]) = f32 (countdown L dts - d) := by
      rw [countdown_append]; rfl
    have hn0 : (0 : ℚ) ≤ dts.length := Nat.cast_nonneg _
    have upper2 : 0 < countdown L dts → dts.length ≤ 2 ^ 22 → countdown L dts ≤ 2 * L := by
      intro hp hl
      have h1 := ihU hp hl
      have h2 : (dts.length : ℚ) ≤ 2 ^ 22 := by exact_mod_cast hl
      have h3 : (dts.length : ℚ) * (L / 2 ^ 22) ≤ L := by
        have : (dts.length : ℚ) * (L / 2 ^ 22) ≤ 2 ^ 22 * (L / 2 ^ 22) :=
          mul_le_mul_of_nonneg_right h2 hE.le
        have e : (2 : ℚ) ^ 22 * (L / 2 ^ 22) = L := by field_simp
        linarith
      linarith
    rw [hc, hlen, hsum]
    constructor
    · intro hpos hl
      have hl1 : dts.length ≤ 2 ^ 22 := by
        rw [List.length_append] at hl
        simp at hl
        omega
      have hx : 0 < countdown L dts - d := by
        by_contra hcon
        exact absurd hpos (not_lt.mpr (f32_nonpos _ (not_lt.mp hcon)))
      have hp : 0 < countdown L dts := by linarith
      have h1 := ihU hp hl1
      have h2 := upper2 hp hl1
      have h3 := hstep (countdown L dts - d) hx (by linarith)
      have h4 := (abs_le.mp h3).2
      linarith
    · intro hlt
      have hlt1 : dts.sum < L - dts.length * (L / 2 ^ 22) := by nlinarith
      have h1 := ihL hlt1
      have hp : 0 < countdown L dts := by nlinarith
      have hl1 : dts.length ≤ 2 ^ 22 := by
        have : (dts.length : ℚ) * (L / 2 ^ 22) < L := by linarith
        have h5 : (dts.length : ℚ) < 2 ^ 22 := by
          by_contra hcon
          have h6 : (2 : ℚ) ^ 22 ≤ dts.length := not_lt.mp hcon
          have : (2 : ℚ) ^ 22 * (L / 2 ^ 22) ≤ (dts.length : ℚ) * (L / 2 ^ 22) :=
            mul_le_mul_of_nonneg_right h6 hE.le
          have e : (2 : ℚ) ^ 22 * (L / 2 ^ 22) = L := by field_simp
          linarith
        have : dts.length < 2 ^ 22 := by exact_mod_cast h5
        omega
      have h2 := upper2 hp hl1
      have hx : 0 < countdown L dts - d := by nlinarith
      have h3 := hstep (countdown L dts - d) hx (by linarith)
      have h4 := (abs_le.mp h3).1
      nlinarith

/-! ### Health bounds -/

theorem Superman.update_health (m : Runtime) (k : Keys) (w h : Nat) (dt : ℚ) (s : Superman) :
    (s.update m k w h dt).health = s.health := by
  unfold Superman.update Superman.constrainToWindow Superman.updateCape
    Superman.updateAnimation Superman.handleInput
  dsimp only
  split_ifs <;> rfl

theorem SupermanCall.run_bounds (m : Runtime) (c : SupermanCall) (hc : c.NonNeg) (s : Superman)
    (hs : 0 ≤ s.health ∧ s.health ≤ Superman.maxHealth) :
    0 ≤ (c.run m s).health ∧ (c.run m s).health ≤ Superman.maxHealth := by
  obtain ⟨h0, h1⟩ := hs
  cases c with
  | takeDamage d =>
    have hd : 0 ≤ d := hc
    simp only [SupermanCall.run, Superman.takeDamage]
    split_ifs with h
    · exact ⟨le_refl _, le_trans h0 h1⟩
    · exact ⟨not_lt.mp h, by linarith⟩
  | regenerateHealth dt =>
    simp only [SupermanCall.run, Superman.regenerateHealth]
    split_ifs with h h2
    · exact ⟨le_trans h0 h1, le_refl _⟩
    · simp only [Superman.regenAmount] at h2 ⊢
      exact ⟨by linarith, not_lt.mp h2⟩
    · exact ⟨h0, h1⟩
  | reset x y =>
    simp only [SupermanCall.run, Superman.reset, Superman.maxHealth]
    norm_num
  | update k w h dt =>
    simp only [SupermanCall.run, Superman.update_health]
    exact ⟨h0, h1⟩

theorem runCalls_bounds (m : Runtime) (calls : List SupermanCall)
    (hc : ∀ c ∈ calls, c.NonNeg) (s : Superman)
    (hs : 0 ≤ s.health ∧ s.health ≤ Superman.maxHealth) :
    0 ≤ (runCalls m calls s).health ∧ (runCalls m calls s).health ≤ Superman.maxHealth := by
  induction calls generalizing s with
  | nil => exact hs
  | cons c rest ih =>
    have h1 := SupermanCall.run_bounds m c (hc c (List.mem_cons_self _ _)) s hs
    exact ih (fun c1 h => hc c1 (List.mem_cons_of_mem _ h)) _ h1

theorem Ghost.takeDamage_bounds (d : ℚ) (hd : 0 ≤ d) (g : Ghost)
    (hg : 0 ≤ g.health ∧ g.health ≤ g.maxHealth) :
    0 ≤ (g.takeDamage d).health ∧ (g.takeDamage d).health ≤ (g.takeDamage d).maxHealth := by
  obtain ⟨h0, h1⟩ := hg
  simp only [Ghost.takeDamage, Ghost.maxHealth] at *
  split_ifs with h
  · exact ⟨le_refl _, le_trans h0 h1⟩
  · exact ⟨not_lt.mp h, by linarith⟩

theorem takeDamages_bounds (ds : List ℚ) (hd : ∀ d ∈ ds, 0 ≤ d) (g : Ghost)
    (hg : 0 ≤ g.health ∧ g.health ≤ g.maxHealth) :
    0 ≤ (takeDamages ds g).health ∧ (takeDamages ds g).health ≤ (takeDamages ds g).maxHealth := by
  induction ds generalizing g with
  | nil => exact hg
  | cons d rest ih =>
    have h1 := Ghost.takeDamage_bounds d (hd d (List.mem_cons_self _ _)) g hg
    exact ih (fun d1 h => hd d1 (List.mem_cons_of_mem _ h)) _ h1

theorem Ghost.new_bounds (m : Runtime) (p : Vec2) (t : GhostType) (r : Nat) :
    0 ≤ (Ghost.new m p t r).1.health ∧ (Ghost.new m p t r).1.health ≤ (Ghost.new m p t r).1.maxHealth := by
  cases t <;> simp [Ghost.new, Ghost.maxHealth, Ghost.maxHealthOf, Runtime.uniform]

/-- C1: on a newly constructed player, after every prefix of a sequence of
`takeDamage(d)` with `d ≥ 0`, `regenerateHealth`, `reset` (and `update`) calls the
health lies in `[0, maxHealth]` with `maxHealth = 100`; on a newly created ghost
of any variant, after every prefix of a sequence of `takeDamage(d)` calls with
`d ≥ 0` the health lies in `[0, maxHealth]`. -/
theorem C1_health_within_bounds (m : Runtime) (x y : ℚ) (calls : List SupermanCall)
    (hc : ∀ c ∈ calls, c.NonNeg) (p : Vec2) (t : GhostType) (r : Nat) (ds : List ℚ)
    (hd : ∀ d ∈ ds, 0 ≤ d) (n : Nat) :
    (0 ≤ (runCalls m (calls.take n) (Superman.new x y)).health ∧
      (runCalls m (calls.take n) (Superman.new x y)).health ≤ Superman.maxHealth ∧
      Superman.maxHealth = 100) ∧
    (0 ≤ (takeDamages (ds.take n) (Ghost.new m p t r).1).health ∧
      (takeDamages (ds.take n) (Ghost.new m p t r).1).health ≤
        (takeDamages (ds.take n) (Ghost.new m p t r).1).maxHealth) := by
  have h1 := runCalls_bounds m (calls.take n)
    (fun c h => hc c (List.mem_of_mem_take h)) (Superman.new x y)
    (by simp [Superman.new, Superman.maxHealth])
  have h2 := takeDamages_bounds (ds.take n)
    (fun d h => hd d (List.mem_of_mem_take h)) (Ghost.new m p t r).1 (Ghost.new_bounds m p t r)
  exact ⟨⟨h1.1, h1.2, rfl⟩, h2⟩

theorem C1_health_within_bounds_witness :
    (∀ c ∈ sampleCalls, c.NonNeg) ∧ (∀ d ∈ [(5 : ℚ), 30], 0 ≤ d) ∧
    ((0 ≤ (runCalls approxMath (sampleCalls.take 3) (Superman.new 400 300)).health ∧
      (runCalls approxMath (sampleCalls.take 3) (Superman.new 400 300)).health ≤
        Superman.maxHealth ∧
      Superman.maxHealth = 100) ∧
    (0 ≤ (takeDamages ([(5 : ℚ), 30].take 3)
        (Ghost.new approxMath ⟨100, 100⟩ GhostType.Fast 0).1).health ∧
      (takeDamages ([(5 : ℚ), 30].take 3)
        (Ghost.new approxMath ⟨100, 100⟩ GhostType.Fast 0).1).health ≤
        (takeDamages ([(5 : ℚ), 30].take 3)
          (Ghost.new approxMath ⟨100, 100⟩ GhostType.Fast 0).1).maxHealth)) :=
  have h1 : ∀ c ∈ sampleCalls, c.NonNeg := by simp [sampleCalls, SupermanCall.NonNeg]
  have h2 : ∀ d ∈ [(5 : ℚ), 30], 0 ≤ d := by simp
  ⟨h1, h2, C1_health_within_bounds approxMath 400 300 sampleCalls h1 ⟨100, 100⟩
    GhostType.Fast 0 [5, 30] h2 3⟩

/-! ### Degenerate projectiles -/

theorem Vec2.eq_of_components {a b : Vec2} (hx : a.x = b.x) (hy : a.y = b.y) : a = b := by
  cases a; cases b; simp_all

theorem Projectile.new_degenerate (m : Runtime) (s : Vec2) (ty : ProjectileType) :
    (Projectile.new m s s ty).position = s ∧ (Projectile.new m s s ty).velocity = ⟨0, 0⟩ ∧
      (Projectile.new m s s ty).type = ty := by
  refine ⟨rfl, ?_, rfl⟩
  simp only [Projectile.new, Projectile.calculateDirection, Vec2.sub, Vec2.scale, sub_self,
    zero_div]
  split_ifs <;> simp

theorem Projectile.update_type (m : Runtime) (dt : ℚ) (p : Projectile) :
    (p.update m dt).type = p.type := by
  cases h : p.type <;> by_cases ha : p.active = true <;>
    simp [Projectile.update, Projectile.updateTrail, h, ha]

theorem Projectile.update_at_rest (m : Runtime) (dt : ℚ) (p : Projectile)
    (hv : p.velocity = ⟨0, 0⟩) (ht : p.type ≠ ProjectileType.BossAttack) :
    (p.update m dt).position = p.position ∧ (p.update m dt).velocity = ⟨0, 0⟩ := by
  cases h : p.type
  case BossAttack => exact absurd h ht
  all_goals
    by_cases ha : p.active = true <;>
      simp [Projectile.update, Projectile.updateTrail, h, ha, hv, Vec2.add, Vec2.scale]

theorem runUpdates_at_rest (m : Runtime) (dts : List ℚ) (p : Projectile)
    (hv : p.velocity = ⟨0, 0⟩) (ht : p.type ≠ ProjectileType.BossAttack) :
    (runUpdates m dts p).position = p.position := by
  induction dts generalizing p with
  | nil => rfl
  | cons dt rest ih =>
    have h1 := Projectile.update_at_rest m dt p hv ht
    have h2 : (p.update m dt).type ≠ ProjectileType.BossAttack := by
      rw [Projectile.update_type]; exact ht
    have h3 := ih (p.update m dt) h1.2 h2
    simp only [runUpdates, List.foldl_cons] at h3 ⊢
    rw [h3, h1.1]

theorem Projectile.update_boss_x (m : Runtime) (dt : ℚ) (p : Projectile)
    (hv : p.velocity.x = 0) :
    (p.update m dt).position.x = p.position.x ∧ (p.update m dt).velocity.x = 0 := by
  cases h : p.type <;> by_cases ha : p.active = true <;>
    simp [Projectile.update, Projectile.updateTrail, h, ha, hv, Vec2.add, Vec2.scale]

theorem runUpdates_boss_x (m : Runtime) (dts : List ℚ) (p : Projectile)
    (hv : p.velocity.x = 0) : (runUpdates m dts p).position.x = p.position.x := by
  induction dts generalizing p with
  | nil => rfl
  | cons dt rest ih =>
    have h1 := Projectile.update_boss_x m dt p hv
    have h3 := ih (p.update m dt) h1.2
    simp only [runUpdates, List.foldl_cons] at h3 ⊢
    rw [h3, h1.1]

theorem Projectile.update_first_step (m : Runtime) (dt : ℚ) (p : Projectile)
    (hv : p.velocity = ⟨0, 0⟩) : (p.update m dt).position = p.position := by
  cases h : p.type <;> by_cases ha : p.active = true <;>
    simp [Projectile.update, Projectile.updateTrail, h, ha, hv, Vec2.add, Vec2.scale]

/-- Position of a degenerate `BossAttack` projectile after two updates: the
wobble of the first update is integrated by the second. -/
theorem bossAttack_two_updates (m : Runtime) (s : Vec2) (dt1 dt2 : ℚ) :
    (runUpdates m [dt1, dt2] (Projectile.new m s s ProjectileType.BossAttack)).position =
      ⟨s.x, s.y + (if 0 < f32 (5 - dt1) then m.sin (dt1 * 8) * 20 * dt1 * dt2 else 0)⟩ := by
  have hn := Projectile.new_degenerate m s ProjectileType.BossAttack
  have hact : (Projectile.new m s s ProjectileType.BossAttack).active = true := rfl
  have hlife : (Projectile.new m s s ProjectileType.BossAttack).lifetime = 5 := rfl
  have hanim : (Projectile.new m s s ProjectileType.BossAttack).animationTimer = 0 := rfl
  generalize Projectile.new m s s ProjectileType.BossAttack = p at hn hact hlife hanim
  obtain ⟨hp, hv, ht⟩ := hn
  by_cases h1 : 0 < f32 (5 - dt1)
  · have h5 : ¬ (f32 (5 - dt1) ≤ 0) := not_le.mpr h1
    rw [if_pos h1]
    apply Vec2.eq_of_components
    · simp [runUpdates, Projectile.update, Projectile.updateTrail, hact, hlife, hanim, hp, hv,
        ht, h5, Vec2.add, Vec2.scale]
    · simp [runUpdates, Projectile.update, Projectile.updateTrail, hact, hlife, hanim, hp, hv,
        ht, h5, Vec2.add, Vec2.scale]
  · have h5 : f32 (5 - dt1) ≤ 0 := not_lt.mp h1
    rw [if_neg h1]
    apply Vec2.eq_of_components
    · simp [runUpdates, Projectile.update, Projectile.updateTrail, hact, hlife, hanim, hp, hv,
        ht, h5, Vec2.add, Vec2.scale]
    · simp [runUpdates, Projectile.update, Projectile.updateTrail, hact, hlife, hanim, hp, hv,
        ht, h5, Vec2.add, Vec2.scale]

/-- C3 (as stated, refuted): a `BossAttack` projectile built with its start
equal to its target at (400, 300) has left (400, 300) after two updates of 1/64 s. -/
theorem C3_counterexample :
    (runUpdates approxMath [1 / 64, 1 / 64]
      (Projectile.new approxMath ⟨400, 300⟩ ⟨400, 300⟩ ProjectileType.BossAttack)).position ≠
      (⟨400, 300⟩ : Vec2) := by
  rw [bossAttack_two_updates approxMath ⟨400, 300⟩ (1 / 64) (1 / 64),
    if_pos (by decide! : 0 < f32 (5 - 1 / 64))]
  intro h
  have hy := congrArg Vec2.y h
  simp only [approxMath, approxRuntime, approxSin] at hy
  norm_num at hy

/-- C3 (amended): a projectile built with its start equal to its target stays at
its start position over any sequence of `update` calls when it is a `Laser` or a
`SuperPunch`; a `BossAttack` keeps its x coordinate over any sequence of calls and
its whole position over the first call; after a second call of step dt2 that
follows a first call of step dt1, its y coordinate is the start y plus
sin(8 * dt1) * 20 * dt1 * dt2 when the first call left it active (remaining
lifetime 5 - dt1, rounded, above 0) and the start y otherwise. -/
theorem C3_degenerate_projectile (m : Runtime) (s : Vec2) (dts : List ℚ) (dt dt1 dt2 : ℚ) :
    (runUpdates m dts (Projectile.new m s s ProjectileType.Laser)).position = s ∧
    (runUpdates m dts (Projectile.new m s s ProjectileType.SuperPunch)).position = s ∧
    (runUpdates m dts (Projectile.new m s s ProjectileType.BossAttack)).position.x = s.x ∧
    (runUpdates m [dt] (Projectile.new m s s ProjectileType.BossAttack)).position = s ∧
    (runUpdates m [dt1, dt2] (Projectile.new m s s ProjectileType.BossAttack)).position =
      ⟨s.x, s.y + (if 0 < f32 (Projectile.maxLifetimeOf ProjectileType.BossAttack - dt1) then
        m.sin (dt1 * 8) * 20 * dt1 * dt2 else 0)⟩ := by
  refine ⟨?_, ?_, ?_, ?_, bossAttack_two_updates m s dt1 dt2⟩
  · exact runUpdates_at_rest m dts _ (Projectile.new_degenerate m s _).2.1 (by simp [Projectile.new])
  · exact runUpdates_at_rest m dts _ (Projectile.new_degenerate m s _).2.1 (by simp [Projectile.new])
  · have h := runUpdates_boss_x m dts (Projectile.new m s s ProjectileType.BossAttack)
      (by rw [(Projectile.new_degenerate m s _).2.1])
    exact h
  · exact Projectile.update_first_step m dt (Projectile.new m s s ProjectileType.BossAttack)
      (Projectile.new_degenerate m s _).2.1

/-! ### Spawning -/

theorem samplePosition_of_accepted (m : Runtime) (px py : ℚ) (fuel : Nat) :
    ∀ k j, j < fuel → Accepted m px py (k + 2 * j) →
      ∃ x y k1, Game.samplePosition m px py fuel k = some (x, y, k1) ∧
        ¬ (|x - px| < 100 ∧ |y - py| < 100) := by
  induction fuel with
  | zero => intro k j hj; exact absurd hj (Nat.not_lt_zero _)
  | succ n ih =>
    intro k j hj hacc
    by_cases h0 : Accepted m px py k
    · refine ⟨(m.uniform k 50 (((Game.WINDOW_WIDTH - 50 : Int) : ℚ))).1,
        (m.uniform (k + 1) 50 (((Game.WINDOW_HEIGHT - 50 : Int) : ℚ))).1, k + 1 + 1, ?_, h0⟩
      unfold Accepted at h0
      simp only [Game.samplePosition, Runtime.uniform] at h0 ⊢
      rw [if_neg h0]
    · cases j with
      | zero => exact absurd hacc h0
      | succ j1 =>
        have hacc1 : Accepted m px py (k + 1 + 1 + 2 * j1) := by
          have : k + 1 + 1 + 2 * j1 = k + 2 * (j1 + 1) := by ring
          rw [this]; exact hacc
        obtain ⟨x, y, k1, hs, hr⟩ := ih (k + 1 + 1) j1 (Nat.lt_of_succ_lt_succ hj) hacc1
        refine ⟨x, y, k1, ?_, hr⟩
        unfold Accepted at h0
        simp only [not_not, Runtime.uniform] at h0
        simp only [Game.samplePosition, Runtime.uniform]
        rw [if_pos h0]
        exact hs

theorem samplePosition_far (m : Runtime) (px py : ℚ) (fuel : Nat) :
    ∀ k x y k1, Game.samplePosition m px py fuel k = some (x, y, k1) →
      ¬ (|x - px| < 100 ∧ |y - py| < 100) := by
  induction fuel with
  | zero => intro k x y k1 h; simp [Game.samplePosition] at h
  | succ n ih =>
    intro k x y k1 h
    simp only [Game.samplePosition] at h
    split_ifs at h with hc
    · exact ih _ _ _ _ h
    · simp only [Option.some.injEq, Prod.mk.injEq] at h
      obtain ⟨hx, hy, _⟩ := h
      rw [← hx, ← hy]; exact hc

theorem spawnLoop_length (m : Runtime) (fuel : Nat) (level ghostCount : Int) (player : Vec2) :
    ∀ (idxs : List Nat) (gs : List Ghost) (k : Nat) (gs1 : List Ghost) (k1 : Nat),
      Game.spawnLoop m fuel level ghostCount player idxs gs k = some (gs1, k1) →
        gs1.length = gs.length + idxs.length := by
  intro idxs
  induction idxs with
  | nil =>
    intro gs k gs1 k1 h
    simp only [Game.spawnLoop, Option.some.injEq, Prod.mk.injEq] at h
    simp [← h.1]
  | cons i rest ih =>
    intro gs k gs1 k1 h
    cases hs : Game.samplePosition m player.x player.y fuel k with
    | none => simp [Game.spawnLoop, hs] at h
    | some res =>
      obtain ⟨x, y, k2⟩ := res
      simp only [Game.spawnLoop, hs] at h
      have h1 := ih _ _ _ _ h
      simp only [List.length_append, List.length_singleton, List.length_cons, List.length_nil] at h1 ⊢
      omega

theorem spawnLoop_of_placeable (m : Runtime) (fuel : Nat) (level ghostCount : Int)
    (player : Vec2) (hp : Placeable m fuel player.x player.y) :
    ∀ (idxs : List Nat) (gs : List Ghost) (k : Nat),
      ∃ res, Game.spawnLoop m fuel level ghostCount player idxs gs k = some res := by
  intro idxs
  induction idxs with
  | nil => intro gs k; exact ⟨(gs, k), rfl⟩
  | cons i rest ih =>
    intro gs k
    obtain ⟨j, hj, hacc⟩ := hp k
    obtain ⟨x, y, k1, hs, _⟩ := samplePosition_of_accepted m player.x player.y fuel k j hj hacc
    simp only [Game.spawnLoop, hs]
    exact ih _ _

theorem spawnGhosts_some (m : Runtime) (fuel : Nat) (g g1 : Game)
    (h : Game.spawnGhosts m fuel g = some g1) :
    g1 = { g with ghosts := g1.ghosts, draws := g1.draws } ∧
      g1.ghosts.length = (3 + (g.level - 1) * 2).toNat := by
  unfold Game.spawnGhosts at h
  dsimp only at h
  split at h
  · exact absurd h (by simp)
  · rename_i gs r hs
    simp only [Option.some.injEq] at h
    subst h
    refine ⟨rfl, ?_⟩
    have := spawnLoop_length m fuel _ _ _ _ _ _ _ _ hs
    simpa using this

theorem spawnGhosts_of_placeable (m : Runtime) (fuel : Nat) (g : Game)
    (hp : Placeable m fuel g.superman.position.x g.superman.position.y) :
    ∃ g1, Game.spawnGhosts m fuel g = some g1 := by
  obtain ⟨res, hres⟩ := spawnLoop_of_placeable m fuel g.level (3 + (g.level - 1) * 2)
    g.superman.position hp (List.range (3 + (g.level - 1) * 2).toNat) [] g.draws
  unfold Game.spawnGhosts
  dsimp only
  rw [hres]
  exact ⟨_, rfl⟩

/-! ### Input events -/

theorem getScoreValue_pos (gh : Ghost) : 0 < gh.getScoreValue := by
  unfold Ghost.getScoreValue
  cases gh.type <;> simp

theorem scoreSum_nonneg (gs : List Ghost) : 0 ≤ scoreSum gs := by
  induction gs with
  | nil => simp [scoreSum]
  | cons gh rest ih =>
    have := getScoreValue_pos gh
    simp only [scoreSum, List.map_cons, List.sum_cons] at ih ⊢
    omega

theorem wrapInt32_of_range (n : Int) (h0 : -2147483648 ≤ n) (h1 : n ≤ 2147483647) :
    wrapInt32 n = n := by
  unfold wrapInt32
  omega

/-- Without overflow the 32-bit counter holds the sum of the score values. -/
theorem addScores_exact : ∀ (gs : List Ghost) (score : Int), -2147483648 ≤ score →
    score + scoreSum gs ≤ 2147483647 → addScores score gs = score + scoreSum gs := by
  intro gs
  induction gs with
  | nil => intro score _ _; simp [addScores, scoreSum]
  | cons gh rest ih =>
    intro score h0 h1
    have hv := getScoreValue_pos gh
    have hr := scoreSum_nonneg rest
    have hs : scoreSum (gh :: rest) = gh.getScoreValue + scoreSum rest := by
      simp only [scoreSum, List.map_cons, List.sum_cons]
    rw [hs] at h1 ⊢
    have hw : wrapInt32 (score + gh.getScoreValue) = score + gh.getScoreValue :=
      wrapInt32_of_range _ (by omega) (by omega)
    have e : addScores score (gh :: rest) = addScores (wrapInt32 (score + gh.getScoreValue)) rest :=
      rfl
    rw [e, hw, ih (score + gh.getScoreValue) (by omega) (by omega)]
    ring

theorem addScores_monotone (gs : List Ghost) (score : Int) (h0 : -2147483648 ≤ score)
    (h1 : score + scoreSum gs ≤ 2147483647) :
    addScores score gs = score + scoreSum gs ∧ score ≤ addScores score gs ∧
      (0 ≤ score → 0 ≤ addScores score gs) := by
  have e := addScores_exact gs score h0 h1
  have hn := scoreSum_nonneg gs
  rw [e]
  exact ⟨rfl, by omega, fun h => by omega⟩

theorem punchGhosts_spec (m : Runtime) :
    ∀ (gs : List Ghost) (g : Game), g.superman.isPunching = true →
      (Game.punchGhosts m gs g).1 = gs.filter (fun gh => !inPunchRange g.superman gh) ∧
      (Game.punchGhosts m gs g).2.score =
        addScores g.score (gs.filter (fun gh => inPunchRange g.superman gh)) ∧
      (Game.punchGhosts m gs g).2.superman = g.superman ∧
      (Game.punchGhosts m gs g).2.currentState = g.currentState ∧
      (Game.punchGhosts m gs g).2.level = g.level ∧
      (Game.punchGhosts m gs g).2.projectiles = g.projectiles ∧
      (Game.punchGhosts m gs g).2.windowOpen = g.windowOpen := by
  intro gs
  induction gs with
  | nil => intro g _; simp [Game.punchGhosts, addScores]
  | cons gh rest ih =>
    intro g hp
    by_cases hit : inPunchRange g.superman gh = true
    · have hit1 : g.superman.getPunchRange.intersects gh.getBounds = true := hit
      have h := ih { g with
        particleSystem := (ParticleSystem.addExplosion m gh.position 20
          (g.particleSystem, g.draws)).1,
        draws := (ParticleSystem.addExplosion m gh.position 20 (g.particleSystem, g.draws)).2,
        score := wrapInt32 (g.score + gh.getScoreValue) } hp
      simp only [Game.punchGhosts, hp, hit1, Bool.and_self, if_true, List.filter_cons, hit,
        Bool.not_true, Bool.false_eq_true, if_false]
      refine ⟨h.1, ?_, h.2.2⟩
      rw [h.2.1]
      rfl
    · have hit0 : inPunchRange g.superman gh = false := by simpa using hit
      have hit1 : g.superman.getPunchRange.intersects gh.getBounds = false := hit0
      have h := ih g hp
      simp only [Game.punchGhosts, hp, hit1, Bool.and_false, Bool.false_eq_true, if_false,
        List.filter_cons, hit0, Bool.not_false, if_true]
      exact ⟨by rw [h.1], h.2⟩

theorem intersects_centered (ax ay bx a b : ℚ) (cy : ℚ) (ha : 0 < a) (hb : 0 < b) :
    FloatRect.intersects ⟨ax - a, ay - a, a * 2, a * 2⟩ ⟨bx - b, cy - b, b * 2, b * 2⟩ = true ↔
      |bx - ax| < a + b ∧ |cy - ay| < a + b := by
  simp only [FloatRect.intersects, Bool.and_eq_true, decide_eq_true_eq]
  have e1 : ax - a + a * 2 = ax + a := by ring
  have e2 : ay - a + a * 2 = ay + a := by ring
  have e3 : bx - b + b * 2 = bx + b := by ring
  have e4 : cy - b + b * 2 = cy + b := by ring
  rw [e1, e2, e3, e4, min_eq_left (by linarith : ax - a ≤ ax + a),
    max_eq_right (by linarith : ax - a ≤ ax + a), min_eq_left (by linarith : ay - a ≤ ay + a),
    max_eq_right (by linarith : ay - a ≤ ay + a), min_eq_left (by linarith : bx - b ≤ bx + b),
    max_eq_right (by linarith : bx - b ≤ bx + b), min_eq_left (by linarith : cy - b ≤ cy + b),
    max_eq_right (by linarith : cy - b ≤ cy + b)]
  simp only [max_lt_iff, lt_min_iff, abs_lt]
  constructor
  · rintro ⟨⟨⟨_, h2⟩, h3, _⟩, ⟨_, h6⟩, h7, _⟩
    exact ⟨⟨by linarith, by linarith⟩, by linarith, by linarith⟩
  · rintro ⟨⟨h1, h2⟩, h3, h4⟩
    exact ⟨⟨⟨by linarith, by linarith⟩, by linarith, by linarith⟩,
      ⟨by linarith, by linarith⟩, by linarith, by linarith⟩

theorem scanGhosts_eq (pb : FloatRect) (gs : List Ghost) :
    Game.scanGhosts pb gs =
      (gs.find? (fun gh => pb.intersects gh.getBounds)).map
        (fun hit => (hit, gs.eraseP (fun gh => pb.intersects gh.getBounds))) := by
  induction gs with
  | nil => rfl
  | cons gh rest ih =>
    by_cases h : pb.intersects gh.getBounds = true
    · simp [Game.scanGhosts, h, List.find?_cons, List.eraseP_cons]
    · have h0 : pb.intersects gh.getBounds = false := by simpa using h
      simp only [Game.scanGhosts, h0, Bool.false_eq_true, if_false, ih, List.find?_cons,
        List.eraseP_cons, cond_false]
      cases List.find? (fun gh => pb.intersects gh.getBounds) rest <;> rfl

theorem collideProjectiles_spec (m : Runtime) :
    ∀ (ps : List Projectile) (g : Game),
      (Game.collideProjectiles m ps g).1 = (resolveHits ps g.ghosts).1 ∧
      (Game.collideProjectiles m ps g).2.ghosts = (resolveHits ps g.ghosts).2.1 ∧
      (Game.collideProjectiles m ps g).2.score =
        addScores g.score (resolveHits ps g.ghosts).2.2 ∧
      (Game.collideProjectiles m ps g).2.superman = g.superman ∧
      (Game.collideProjectiles m ps g).2.currentState = g.currentState ∧
      (Game.collideProjectiles m ps g).2.level = g.level ∧
      (Game.collideProjectiles m ps g).2.windowOpen = g.windowOpen := by
  intro ps
  induction ps with
  | nil => intro g; simp [Game.collideProjectiles, resolveHits, addScores]
  | cons p rest ih =>
    intro g
    have hs := scanGhosts_eq p.getBounds g.ghosts
    have hf : (fun gh => p.getBounds.intersects gh.getBounds) = hits p := rfl
    rw [hf] at hs
    cases hfind : g.ghosts.find? (hits p) with
    | none =>
      rw [hfind] at hs
      have h := ih g
      simp only [Game.collideProjectiles, hs, Option.map_none', resolveHits, hfind]
      exact ⟨by rw [h.1], h.2⟩
    | some hit =>
      rw [hfind] at hs
      have h := ih { g with
        particleSystem := (ParticleSystem.addExplosion m hit.position 20
          (g.particleSystem, g.draws)).1,
        draws := (ParticleSystem.addExplosion m hit.position 20 (g.particleSystem, g.draws)).2,
        score := wrapInt32 (g.score + hit.getScoreValue),
        ghosts := g.ghosts.eraseP (hits p) }
      simp only [Game.collideProjectiles, hs, Option.map_some', resolveHits, hfind]
      refine ⟨h.1, h.2.1, ?_, h.2.2.2⟩
      rw [h.2.2.1]
      rfl

theorem contactPass_spec (m : Runtime) (b : FloatRect) :
    ∀ (gs : List Ghost) (g : Game),
      (gs.foldl (Game.contactStep m b) g).superman =
        (gs.filter (fun gh => b.intersects gh.getBounds)).foldl
          (fun s gh => s.takeDamage gh.getDamage) g.superman ∧
      (gs.foldl (Game.contactStep m b) g).score = g.score ∧
      (gs.foldl (Game.contactStep m b) g).level = g.level ∧
      (gs.foldl (Game.contactStep m b) g).ghosts = g.ghosts ∧
      (gs.foldl (Game.contactStep m b) g).projectiles = g.projectiles ∧
      (gs.foldl (Game.contactStep m b) g).currentState = g.currentState ∧
      (gs.foldl (Game.contactStep m b) g).windowOpen = g.windowOpen := by
  intro gs
  induction gs with
  | nil => intro g; simp
  | cons gh rest ih =>
    intro g
    by_cases h : b.intersects gh.getBounds = true
    · have := ih (Game.contactStep m b g gh)
      simp only [List.foldl_cons, List.filter_cons, h, if_true]
      simpa [Game.contactStep, h] using this
    · have h0 : b.intersects gh.getBounds = false := by simpa using h
      have := ih g
      simp only [List.foldl_cons, List.filter_cons, h0, Bool.false_eq_true, if_false]
      simpa [Game.contactStep, h0] using this

theorem updateEntities_frame (m : Runtime) (inp : FrameInput) (g : Game) :
    (Game.updateEntities m inp g).score = g.score ∧
    (Game.updateEntities m inp g).level = g.level ∧
    (Game.updateEntities m inp g).currentState = g.currentState ∧
    (Game.updateEntities m inp g).windowOpen = g.windowOpen ∧
    (Game.updateEntities m inp g).superman =
      g.superman.update m inp.keys inp.winW inp.winH inp.deltaTime :=
  ⟨rfl, rfl, rfl, rfl, rfl⟩

theorem checkProjectileCollisions_frame (m : Runtime) (g : Game) :
    (Game.checkProjectileCollisions m g).score =
      addScores g.score (resolveHits g.projectiles g.ghosts).2.2 ∧
    (Game.checkProjectileCollisions m g).level = g.level ∧
    (Game.checkProjectileCollisions m g).currentState = g.currentState ∧
    (Game.checkProjectileCollisions m g).superman = g.superman := by
  have h := collideProjectiles_spec m g.projectiles g
  exact ⟨h.2.2.1, h.2.2.2.2.2.1, h.2.2.2.2.1, h.2.2.2.1⟩

theorem afterCollisions_frame (m : Runtime) (inp : FrameInput) (g : Game) :
    (Game.afterCollisions m inp g).score = addScores g.score (frameHits m inp g) ∧
    (Game.afterCollisions m inp g).level = g.level ∧
    (Game.afterCollisions m inp g).currentState = g.currentState := by
  have h1 := updateEntities_frame m inp g
  have h2 := checkProjectileCollisions_frame m (Game.updateEntities m inp g)
  have h3 := contactPass_spec m
    (Game.checkProjectileCollisions m (Game.updateEntities m inp g)).superman.getBounds
    (Game.checkProjectileCollisions m (Game.updateEntities m inp g)).ghosts
    (Game.checkProjectileCollisions m (Game.updateEntities m inp g))
  unfold Game.afterCollisions Game.checkCollisions Game.checkSupermanGhostCollisions
  refine ⟨?_, ?_, ?_⟩
  · rw [h3.2.1, h2.1, h1.1]
    rfl
  · rw [h3.2.2.1, h2.2.1, h1.2.1]
  · rw [h3.2.2.2.2.2.1, h2.2.2.1, h1.2.2.1]

theorem nextLevel_some (m : Runtime) (fuel : Nat) (c g1 : Game)
    (h : Game.nextLevel m fuel c = some g1) :
    g1.level = c.level + 1 ∧ g1.score = c.score ∧ g1.currentState = c.currentState ∧
      g1.superman = c.superman ∧ g1.projectiles = c.projectiles ∧
      g1.ghosts.length = (3 + (g1.level - 1) * 2).toNat := by
  unfold Game.nextLevel at h
  cases hs : Game.spawnGhosts m fuel { c with level := c.level + 1 } with
  | none => simp [hs] at h
  | some g2 =>
    have h2 := spawnGhosts_some m fuel _ g2 hs
    simp only [hs, Option.some.injEq] at h
    subst h
    obtain ⟨he, hl⟩ := h2
    dsimp only at hl ⊢
    rw [he]
    exact ⟨rfl, rfl, rfl, rfl, rfl, by simpa using hl⟩

theorem nextLevel_of_placeable (m : Runtime) (fuel : Nat) (c : Game)
    (hp : Placeable m fuel c.superman.position.x c.superman.position.y) :
    ∃ g1, Game.nextLevel m fuel c = some g1 := by
  obtain ⟨g2, hs⟩ := spawnGhosts_of_placeable m fuel { c with level := c.level + 1 } hp
  unfold Game.nextLevel
  rw [hs]
  exact ⟨_, rfl⟩

theorem finishFrame_frame (inp : FrameInput) (g : Game) :
    (Game.finishFrame inp g).score = g.score ∧ (Game.finishFrame inp g).level = g.level ∧
    (Game.finishFrame inp g).ghosts = g.ghosts ∧
    (Game.finishFrame inp g).currentState =
      (if g.superman.health ≤ 0 then GameState.GameOver else g.currentState) ∧
    (Game.finishFrame inp g).superman = g.superman.regenerateHealth inp.deltaTime := by
  unfold Game.finishFrame Game.gameOver
  dsimp only
  split_ifs <;> exact ⟨rfl, rfl, rfl, rfl, rfl⟩

theorem updatePlaying_cases (m : Runtime) (fuel : Nat) (inp : FrameInput) (g : Game) :
    ((Game.afterCollisions m inp g).ghosts = [] →
      Game.updatePlaying m fuel inp g =
        (Game.nextLevel m fuel (Game.afterCollisions m inp g)).map (Game.finishFrame inp)) ∧
    ((Game.afterCollisions m inp g).ghosts ≠ [] →
      Game.updatePlaying m fuel inp g =
        some (Game.finishFrame inp (Game.afterCollisions m inp g))) := by
  constructor
  · intro h
    unfold Game.updatePlaying
    simp only [h, List.isEmpty_nil, if_true]
    cases Game.nextLevel m fuel (Game.afterCollisions m inp g) <;> rfl
  · intro h
    unfold Game.updatePlaying
    have : (Game.afterCollisions m inp g).ghosts.isEmpty = false := by
      cases hg : (Game.afterCollisions m inp g).ghosts with
      | nil => exact absurd hg h
      | cons a l => rfl
    simp only [this, Bool.false_eq_true, if_false]

theorem updatePlaying_of_placeable (m : Runtime) (fuel : Nat) (inp : FrameInput) (g : Game)
    (hp : Placeable m fuel (Game.afterCollisions m inp g).superman.position.x
      (Game.afterCollisions m inp g).superman.position.y) :
    ∃ g1, Game.updatePlaying m fuel inp g = some g1 := by
  by_cases h : (Game.afterCollisions m inp g).ghosts = []
  · obtain ⟨g2, h2⟩ := nextLevel_of_placeable m fuel _ hp
    rw [(updatePlaying_cases m fuel inp g).1 h, h2]
    exact ⟨_, rfl⟩
  · rw [(updatePlaying_cases m fuel inp g).2 h]
    exact ⟨_, rfl⟩

theorem handlePlayingInput_frame (m : Runtime) (mouseX mouseY : Int) (event : Event)
    (g : Game) :
    (Game.handlePlayingInput m mouseX mouseY event g).score =
      addScores g.score (punchHits event g) ∧
    (Game.handlePlayingInput m mouseX mouseY event g).currentState = g.currentState ∧
    (Game.handlePlayingInput m mouseX mouseY event g).level = g.level := by
  cases event with
  | Closed => exact ⟨rfl, rfl, rfl⟩
  | Other => exact ⟨rfl, rfl, rfl⟩
  | KeyPressed code => cases code <;> exact ⟨rfl, rfl, rfl⟩
  | MouseButtonPressed button x y =>
    cases button with
    | Other => exact ⟨rfl, rfl, rfl⟩
    | Left =>
      have hp : (g.superman.performPunch ⟨(x : ℚ), (y : ℚ)⟩).isPunching = true := by
        simp [Superman.performPunch, Superman.isPunching, Superman.punchDuration]
      have h := punchGhosts_spec m g.ghosts
        { g with superman := g.superman.performPunch ⟨(x : ℚ), (y : ℚ)⟩ } hp
      simp only [Game.handlePlayingInput, reduceCtorEq, if_false]
      exact ⟨h.2.1, h.2.2.2.1, h.2.2.2.2.1⟩

theorem startGame_some (m : Runtime) (fuel : Nat) (g g1 : Game)
    (h : Game.startGame m fuel g = some g1) :
    g1.currentState = GameState.Playing ∧ g1.score = 0 ∧ g1.level = 1 ∧
      g1.superman = g.superman.reset 400 300 ∧ g1.projectiles = [] ∧
      g1.particleSystem = g.particleSystem.clear ∧ g1.ghosts.length = 3 := by
  unfold Game.startGame at h
  obtain ⟨he, hl⟩ := spawnGhosts_some m fuel _ g1 h
  dsimp only at hl
  rw [he]
  refine ⟨rfl, rfl, rfl, ?_, rfl, rfl, by simpa using hl⟩
  simp [Game.WINDOW_WIDTH, Game.WINDOW_HEIGHT]
  norm_num

theorem startGame_of_placeable (m : Runtime) (fuel : Nat) (g : Game)
    (hp : Placeable m fuel 400 300) : ∃ g1, Game.startGame m fuel g = some g1 := by
  unfold Game.startGame
  apply spawnGhosts_of_placeable
  have e1 : ((Game.WINDOW_WIDTH : ℚ) / 2) = 400 := by simp [Game.WINDOW_WIDTH]; norm_num
  have e2 : ((Game.WINDOW_HEIGHT : ℚ) / 2) = 300 := by simp [Game.WINDOW_HEIGHT]; norm_num
  simp only [Superman.reset, e1, e2]
  exact hp

theorem updatePlaying_some (m : Runtime) (fuel : Nat) (inp : FrameInput) (g g1 : Game)
    (h : Game.updatePlaying m fuel inp g = some g1) :
    g1.score = addScores g.score (frameHits m inp g) ∧
    g1.level = (if (Game.afterCollisions m inp g).ghosts = [] then g.level + 1 else g.level) ∧
    g1.currentState =
      (if (Game.afterCollisions m inp g).superman.health ≤ 0 then GameState.GameOver
        else g.currentState) ∧
    g1.superman = (Game.afterCollisions m inp g).superman.regenerateHealth inp.deltaTime := by
  have ha := afterCollisions_frame m inp g
  by_cases he : (Game.afterCollisions m inp g).ghosts = []
  · rw [(updatePlaying_cases m fuel inp g).1 he] at h
    cases hn : Game.nextLevel m fuel (Game.afterCollisions m inp g) with
    | none => simp [hn] at h
    | some g2 =>
      have h2 := nextLevel_some m fuel _ g2 hn
      have hf := finishFrame_frame inp g2
      simp only [hn, Option.map_some', Option.some.injEq] at h
      subst h
      rw [hf.1, hf.2.1, hf.2.2.2.1, hf.2.2.2.2, h2.1, h2.2.1, h2.2.2.1, h2.2.2.2.1, if_pos he,
        ha.2.1, ha.2.2]
      exact ⟨ha.1, rfl, rfl, rfl⟩
  · rw [(updatePlaying_cases m fuel inp g).2 he] at h
    have hf := finishFrame_frame inp (Game.afterCollisions m inp g)
    simp only [Option.some.injEq] at h
    subst h
    rw [hf.1, hf.2.1, hf.2.2.2.1, hf.2.2.2.2, if_neg he, ha.2.1, ha.2.2]
    exact ⟨ha.1, rfl, rfl, rfl⟩

/-- C2 (amended): a step taken in the Playing state, a frame update or an input
event, adds to the 32-bit counter `score` the values of the ghosts removed in
the step; when the score before the step is a 32-bit value and the score plus
those values does not exceed 2147483647, the score after the step is their sum,
not below the score before, and not negative if that was not. `startGame` and
`restartGame` leave the score at exactly 0; the frame update and the (re)start
produce a state whenever the spawn placement loop ends. -/
theorem C2_score_monotone_and_reset (m : Runtime) (fuel : Nat) (inp : FrameInput)
    (mouseX mouseY : Int) (event : Event) (g : Game) :
    (∀ g1, Game.updatePlaying m fuel inp g = some g1 →
      g1.score = addScores g.score (frameHits m inp g) ∧
      (-2147483648 ≤ g.score → g.score + scoreSum (frameHits m inp g) ≤ 2147483647 →
        g1.score = g.score + scoreSum (frameHits m inp g) ∧ g.score ≤ g1.score ∧
        (0 ≤ g.score → 0 ≤ g1.score))) ∧
    ((Game.handlePlayingInput m mouseX mouseY event g).score =
        addScores g.score (punchHits event g) ∧
      (-2147483648 ≤ g.score → g.score + scoreSum (punchHits event g) ≤ 2147483647 →
        (Game.handlePlayingInput m mouseX mouseY event g).score =
          g.score + scoreSum (punchHits event g) ∧
        g.score ≤ (Game.handlePlayingInput m mouseX mouseY event g).score ∧
        (0 ≤ g.score → 0 ≤ (Game.handlePlayingInput m mouseX mouseY event g).score))) ∧
    (∀ g1, Game.startGame m fuel g = some g1 → g1.score = 0) ∧
    (∀ g1, Game.restartGame m fuel g = some g1 → g1.score = 0) ∧
    (Placeable m fuel (Game.afterCollisions m inp g).superman.position.x
        (Game.afterCollisions m inp g).superman.position.y →
      ∃ g1, Game.updatePlaying m fuel inp g = some g1 ∧
        g1.score = addScores g.score (frameHits m inp g)) ∧
    (Placeable m fuel 400 300 →
      ∃ g1, Game.startGame m fuel g = some g1 ∧ Game.restartGame m fuel g = some g1 ∧
        g1.score = 0) := by
  refine ⟨?_, ?_, ?_, ?_, ?_, ?_⟩
  · intro g1 h
    have e := (updatePlaying_some m fuel inp g g1 h).1
    refine ⟨e, fun h0 h1 => ?_⟩
    rw [e]
    exact addScores_monotone _ _ h0 h1
  · have e := (handlePlayingInput_frame m mouseX mouseY event g).1
    refine ⟨e, fun h0 h1 => ?_⟩
    rw [e]
    exact addScores_monotone _ _ h0 h1
  · intro g1 h
    exact (startGame_some m fuel g g1 h).2.1
  · intro g1 h
    exact (startGame_some m fuel g g1 h).2.1
  · intro hp
    obtain ⟨g1, h⟩ := updatePlaying_of_placeable m fuel inp g hp
    exact ⟨g1, h, (updatePlaying_some m fuel inp g g1 h).1⟩
  · intro hp
    obtain ⟨g1, h⟩ := startGame_of_placeable m fuel g hp
    exact ⟨g1, h, h, (startGame_some m fuel g g1 h).2.1⟩

/-- C2 (as stated, refuted): in a Playing session with the score at 2147483642,
the left-click punch that removes the Regular ghost standing on the player
(value 10) takes the 32-bit counter past 2147483647: the score after the step is
-2147483644, below the score before and negative. -/
theorem C2_counterexample :
    richGame.currentState = GameState.Playing ∧ richGame.score = 2147483642 ∧
    punchHits (Event.MouseButtonPressed MouseButton.Left 400 300) richGame =
      [sampleGhost ⟨400, 300⟩ GhostType.Regular] ∧
    (Game.handlePlayingInput approxMath 400 300
      (Event.MouseButtonPressed MouseButton.Left 400 300) richGame).score = -2147483644 := by
  decide!

/-! ### Sample inputs -/

theorem placeable_approxMath : Placeable approxMath 1 400 300 := by
  intro k
  refine ⟨0, Nat.lt_one_iff.mpr rfl, ?_⟩
  simp only [Accepted, Runtime.uniform, approxMath, approxRuntime, Game.WINDOW_WIDTH,
    Game.WINDOW_HEIGHT]
  norm_num [abs_lt]

theorem C2_score_monotone_and_reset_witness :
    Placeable approxMath 1 400 300 ∧
    ∃ g1, Game.startGame approxMath 1 contactGame = some g1 ∧
      Game.restartGame approxMath 1 contactGame = some g1 ∧ g1.score = 0 :=
  ⟨placeable_approxMath,
    (C2_score_monotone_and_reset approxMath 1 idleFrame 0 0 Event.Other contactGame).2.2.2.2.2
      placeable_approxMath⟩

/-! ### Terminal conditions of a frame -/

/-- C9: after `updatePlaying` on a Playing frame the top-level state is
GameOver exactly when the player's health after the collision pass of the frame
is at most 0, and Playing otherwise; the frame produces a state whenever the
spawn placement loop ends. -/
theorem C9_game_over_iff_health_depleted (m : Runtime) (fuel : Nat) (inp : FrameInput)
    (g : Game) (hs : g.currentState = GameState.Playing) :
    (∀ g1, Game.updatePlaying m fuel inp g = some g1 →
      (g1.currentState = GameState.GameOver ↔
        (Game.afterCollisions m inp g).superman.health ≤ 0) ∧
      (¬ (Game.afterCollisions m inp g).superman.health ≤ 0 →
        g1.currentState = GameState.Playing)) ∧
    (Placeable m fuel (Game.afterCollisions m inp g).superman.position.x
        (Game.afterCollisions m inp g).superman.position.y →
      ∃ g1, Game.updatePlaying m fuel inp g = some g1) := by
  refine ⟨?_, updatePlaying_of_placeable m fuel inp g⟩
  intro g1 h
  have h1 := (updatePlaying_some m fuel inp g g1 h).2.2.1
  rw [hs] at h1
  by_cases hh : (Game.afterCollisions m inp g).superman.health ≤ 0
  · rw [if_pos hh] at h1
    exact ⟨⟨fun _ => hh, fun _ => h1⟩, fun hn => absurd hh hn⟩
  · rw [if_neg hh] at h1
    refine ⟨⟨fun hg => ?_, fun hle => absurd hle hh⟩, fun _ => h1⟩
    rw [h1] at hg
    exact absurd hg (by decide)

/-- C10: `updatePlaying` runs `nextLevel` exactly when the enemy collection is
empty after the collision pass; `nextLevel` adds 1 to the level, keeps the score
and the top-level state, and leaves `3 + (level - 1) * 2` ghosts for the new
level (5 ghosts at level 2 when coming from level 1); when the collection is not
empty the level is unchanged. -/
theorem C10_next_level_on_empty_collection (m : Runtime) (fuel : Nat) (inp : FrameInput)
    (g : Game) :
    ((Game.afterCollisions m inp g).ghosts = [] →
      Game.updatePlaying m fuel inp g =
        (Game.nextLevel m fuel (Game.afterCollisions m inp g)).map (Game.finishFrame inp)) ∧
    ((Game.afterCollisions m inp g).ghosts ≠ [] →
      Game.updatePlaying m fuel inp g =
        some (Game.finishFrame inp (Game.afterCollisions m inp g))) ∧
    (∀ c g1, Game.nextLevel m fuel c = some g1 →
      g1.level = c.level + 1 ∧ g1.score = c.score ∧ g1.currentState = c.currentState ∧
      g1.ghosts.length = (3 + (g1.level - 1) * 2).toNat ∧
      (1 ≤ c.level → (g1.ghosts.length : Int) = 3 + (g1.level - 1) * 2) ∧
      (c.level = 1 → g1.level = 2 ∧ g1.ghosts.length = 5)) ∧
    (∀ c, Placeable m fuel c.superman.position.x c.superman.position.y →
      ∃ g1, Game.nextLevel m fuel c = some g1) ∧
    (∀ g1, Game.updatePlaying m fuel inp g = some g1 →
      ((Game.afterCollisions m inp g).ghosts = [] → g1.level = g.level + 1) ∧
      ((Game.afterCollisions m inp g).ghosts ≠ [] → g1.level = g.level)) := by
  refine ⟨(updatePlaying_cases m fuel inp g).1, (updatePlaying_cases m fuel inp g).2, ?_,
    nextLevel_of_placeable m fuel, ?_⟩
  · intro c g1 h
    obtain ⟨h1, h2, h3, _, _, h6⟩ := nextLevel_some m fuel c g1 h
    refine ⟨h1, h2, h3, h6, ?_, ?_⟩
    · intro hl
      rw [h6, h1]
      have : 0 ≤ 3 + (c.level + 1 - 1) * 2 := by omega
      exact Int.toNat_of_nonneg this
    · intro hl
      rw [h6, h1, hl]
      exact ⟨rfl, rfl⟩
  · intro g1 h
    have h1 := (updatePlaying_some m fuel inp g g1 h).2.1
    constructor
    · intro he; rw [h1, if_pos he]
    · intro he; rw [h1, if_neg he]

/-! ### The state machine -/

theorem handleEvent_key (m : Runtime) (fuel : Nat) (mouseX mouseY : Int) (k : Key) (g : Game) :
    Game.handleEvent m fuel mouseX mouseY (Event.KeyPressed k) g =
      (match g.currentState, k with
        | .Menu, .Enter => Game.startGame m fuel g
        | .Paused, .Enter => Game.startGame m fuel g
        | .GameOver, .Enter => Game.startGame m fuel g
        | .Playing, .Escape => some (Game.pauseGame g)
        | .Paused, .Escape =>
          some (Game.handlePlayingInput m mouseX mouseY (Event.KeyPressed Key.Escape)
            (Game.resumeGame g))
        | .Playing, k1 => some (Game.handlePlayingInput m mouseX mouseY (Event.KeyPressed k1) g)
        | _, _ => some g) := by
  cases hs : g.currentState <;> cases k <;>
    simp [Game.handleEvent, hs, Game.pauseGame, Game.resumeGame, Game.handleMenuInput,
      Game.handlePausedInput, Game.handleGameOverInput, Game.restartGame]

theorem handlePlayingInput_escape (m : Runtime) (mouseX mouseY : Int) (g : Game) :
    Game.handlePlayingInput m mouseX mouseY (Event.KeyPressed Key.Escape) g = g := rfl

/-- C7: on a key event the top-level state changes as tabulated (Menu + Enter,
Paused + Enter, GameOver + Enter and Paused + Escape give Playing, Playing +
Escape gives Paused, every other pair keeps the state); the Escape toggle
changes the top-level state and nothing else of the session. -/
theorem C7_key_event_transitions (m : Runtime) (fuel : Nat) (mouseX mouseY : Int) (k : Key)
    (g : Game) :
    (∀ g1, Game.handleEvent m fuel mouseX mouseY (Event.KeyPressed k) g = some g1 →
      g1.currentState = keyTransition g.currentState k) ∧
    (Placeable m fuel 400 300 →
      ∃ g1, Game.handleEvent m fuel mouseX mouseY (Event.KeyPressed k) g = some g1) ∧
    (g.currentState = GameState.Playing →
      Game.handleEvent m fuel mouseX mouseY (Event.KeyPressed Key.Escape) g =
        some (Game.pauseGame g)) ∧
    (g.currentState = GameState.Paused →
      Game.handleEvent m fuel mouseX mouseY (Event.KeyPressed Key.Escape) g =
        some (Game.resumeGame g)) ∧
    (Game.pauseGame g).currentState = GameState.Paused ∧
    (Game.resumeGame g).currentState = GameState.Playing ∧
    SameButState g (Game.pauseGame g) ∧ SameButState g (Game.resumeGame g) := by
  have hk := handleEvent_key m fuel mouseX mouseY k g
  refine ⟨?_, ?_, ?_, ?_, rfl, rfl, ⟨rfl, rfl, rfl, rfl, rfl, rfl, rfl, rfl, rfl⟩,
    ⟨rfl, rfl, rfl, rfl, rfl, rfl, rfl, rfl, rfl⟩⟩
  · intro g1 h
    rw [hk] at h
    cases hs : g.currentState <;> cases k <;> simp only [hs, keyTransition] at h ⊢ <;>
      first
        | exact (startGame_some m fuel g g1 h).1
        | (simp only [Option.some.injEq] at h
           subst h
           first
             | exact hs
             | rfl)
  · intro hp
    obtain ⟨g2, h2⟩ := startGame_of_placeable m fuel g hp
    rw [hk]
    cases hs : g.currentState <;> cases k <;> simp only [h2] <;> exact ⟨_, rfl⟩
  · intro hs
    rw [handleEvent_key]
    simp only [hs]
  · intro hs
    rw [handleEvent_key]
    simp only [hs, handlePlayingInput_escape]

theorem C7_key_event_transitions_witness :
    Placeable approxMath 1 400 300 ∧ pausedGame.currentState = GameState.Paused ∧
    (∃ g1, Game.handleEvent approxMath 1 0 0 (Event.KeyPressed Key.Enter) pausedGame =
      some g1) ∧
    Game.handleEvent approxMath 1 0 0 (Event.KeyPressed Key.Escape) pausedGame =
      some (Game.resumeGame pausedGame) :=
  ⟨placeable_approxMath, rfl,
    (C7_key_event_transitions approxMath 1 0 0 Key.Enter pausedGame).2.1 placeable_approxMath,
    (C7_key_event_transitions approxMath 1 0 0 Key.Escape pausedGame).2.2.2.1 rfl⟩

/-- C8: from any session state `startGame`, which `restartGame` and Enter in
Menu, Paused or GameOver run, yields the fresh session of the specification:
Playing, score 0, level 1, the player reset at (400, 300), no projectile, an
empty particle system and exactly 3 ghosts; it yields it whenever the spawn
placement loop ends. -/
theorem C8_start_game_resets_session (m : Runtime) (fuel : Nat) (mouseX mouseY : Int)
    (g : Game) :
    (∀ g1, Game.startGame m fuel g = some g1 → FreshSession g1) ∧
    Game.restartGame m fuel g = Game.startGame m fuel g ∧
    (g.currentState = GameState.Menu ∨ g.currentState = GameState.Paused ∨
        g.currentState = GameState.GameOver →
      Game.handleEvent m fuel mouseX mouseY (Event.KeyPressed Key.Enter) g =
        Game.startGame m fuel g) ∧
    (Placeable m fuel 400 300 → ∃ g1, Game.startGame m fuel g = some g1 ∧ FreshSession g1) := by
  have hf : ∀ g1, Game.startGame m fuel g = some g1 → FreshSession g1 := by
    intro g1 h
    obtain ⟨h1, h2, h3, h4, h5, h6, h7⟩ := startGame_some m fuel g g1 h
    refine ⟨h1, h2, h3, ?_, ?_, ?_, ?_, ?_, h5, ?_, ?_, h7⟩
    · rw [h4]; rfl
    · rw [h4]; rfl
    · rw [h4]; rfl
    · rw [h4]; rfl
    · rw [h4]; rfl
    · rw [h6]; rfl
    · rw [h6]; rfl
  refine ⟨hf, rfl, ?_, ?_⟩
  · intro hs
    rw [handleEvent_key]
    rcases hs with hs | hs | hs <;> simp only [hs]
  · intro hp
    obtain ⟨g1, h⟩ := startGame_of_placeable m fuel g hp
    exact ⟨g1, h, hf g1 h⟩

theorem C8_start_game_resets_session_witness :
    Placeable approxMath 1 400 300 ∧
    ∃ g1, Game.startGame approxMath 1 pausedGame = some g1 ∧ FreshSession g1 :=
  ⟨placeable_approxMath,
    (C8_start_game_resets_session approxMath 1 0 0 pausedGame).2.2.2 placeable_approxMath⟩

/-! ### Contact damage over consecutive frames -/

theorem Superman.update_regenTimer (m : Runtime) (k : Keys) (w h : Nat) (dt : ℚ)
    (s : Superman) : (s.update m k w h dt).regenTimer = s.regenTimer + dt := by
  unfold Superman.update Superman.constrainToWindow Superman.updateCape
    Superman.updateAnimation Superman.handleInput
  dsimp only
  split_ifs <;> rfl

theorem clamp_iterate (d : ℚ) (hd : 0 ≤ d) (n : Nat) (h : ℚ) :
    (fun a : ℚ => max 0 (a - d))^[n + 1] h = max 0 (h - ((n + 1 : Nat) : ℚ) * d) := by
  induction n with
  | zero => simp
  | succ n ih =>
    rw [Function.iterate_succ_apply', ih]
    push_cast
    rcases le_total (h - ((n : ℚ) + 1) * d) 0 with hle | hle
    · rw [max_eq_left hle, max_eq_left (by linarith), max_eq_left (by nlinarith)]
    · rw [max_eq_right hle]
      congr 1
      ring

theorem afterCollisions_contact (m : Runtime) (inp : FrameInput) (g : Game) :
    (Game.afterCollisions m inp g).superman =
      ((Game.checkProjectileCollisions m (Game.updateEntities m inp g)).ghosts.filter
        (fun gh => (Game.checkProjectileCollisions m
          (Game.updateEntities m inp g)).superman.getBounds.intersects gh.getBounds)).foldl
        (fun s gh => s.takeDamage gh.getDamage)
        (g.superman.update m inp.keys inp.winW inp.winH inp.deltaTime) ∧
    (Game.afterCollisions m inp g).ghosts =
      (Game.checkProjectileCollisions m (Game.updateEntities m inp g)).ghosts := by
  have hu := updateEntities_frame m inp g
  have hp := checkProjectileCollisions_frame m (Game.updateEntities m inp g)
  have hcp := contactPass_spec m
    (Game.checkProjectileCollisions m (Game.updateEntities m inp g)).superman.getBounds
    (Game.checkProjectileCollisions m (Game.updateEntities m inp g)).ghosts
    (Game.checkProjectileCollisions m (Game.updateEntities m inp g))
  unfold Game.afterCollisions Game.checkCollisions Game.checkSupermanGhostCollisions
  refine ⟨?_, hcp.2.2.2.1⟩
  rw [hcp.1, hp.2.2.2, hu.2.2.2.2]

theorem map_eq_singleton {α β : Type} (f : α → β) (l : List α) (b : β) (h : l.map f = [b]) :
    ∃ a, l = [a] ∧ f a = b := by
  cases l with
  | nil => simp at h
  | cons a rest =>
    cases rest with
    | nil => exact ⟨a, rfl, by simpa using h⟩
    | cons c rest1 => simp at h

theorem contact_frame_health (m : Runtime) (fuel : Nat) (inp : FrameInput) (g : Game) (d : ℚ)
    (hc : contactDamages m inp g = [d])
    (hr : g.superman.regenTimer + inp.deltaTime < Superman.regenRate) :
    ∃ g1, Game.updatePlaying m fuel inp g = some g1 ∧
      g1.superman.health = max 0 (g.superman.health - d) := by
  obtain ⟨hsup, hghosts⟩ := afterCollisions_contact m inp g
  obtain ⟨gh, hl, hgd⟩ := map_eq_singleton _ _ _ hc
  rw [hl] at hsup
  have hne : (Game.afterCollisions m inp g).ghosts ≠ [] := by
    rw [hghosts]
    intro he
    rw [he] at hl
    simp at hl
  simp only [List.foldl_cons, List.foldl_nil, hgd] at hsup
  refine ⟨_, (updatePlaying_cases m fuel inp g).2 hne, ?_⟩
  rw [(finishFrame_frame inp _).2.2.2.2, hsup]
  have ht : ((g.superman.update m inp.keys inp.winW inp.winH inp.deltaTime).takeDamage
      d).regenTimer = g.superman.regenTimer + inp.deltaTime := by
    simp only [Superman.takeDamage, Superman.update_regenTimer]
  have hh : ((g.superman.update m inp.keys inp.winW inp.winH inp.deltaTime).takeDamage
      d).health = max 0 (g.superman.health - d) := by
    simp only [Superman.takeDamage, Superman.update_health]
    split_ifs with hlt
    · rw [max_eq_left (le_of_lt hlt)]
    · rw [max_eq_right (not_lt.mp hlt)]
  unfold Superman.regenerateHealth
  rw [if_neg (by rw [ht]; intro hcon; exact absurd hcon.1 (not_le.mpr hr))]
  exact hh

theorem contact_frames_health (m : Runtime) (fuel : Nat) (d : ℚ) :
    ∀ (inputs : List FrameInput) (g : Game), ContactFrames m fuel d inputs g →
      RegenIdle m fuel inputs g →
      ∃ g1, runFrames m fuel inputs g = some g1 ∧
        g1.superman.health = (fun a : ℚ => max 0 (a - d))^[inputs.length] g.superman.health := by
  intro inputs
  induction inputs with
  | nil => intro g _ _; exact ⟨g, rfl, rfl⟩
  | cons inp rest ih =>
    intro g hc hr
    obtain ⟨g1, h1, hh⟩ := contact_frame_health m fuel inp g d hc.1 hr.1
    obtain ⟨g2, h2, hh2⟩ := ih g1 (hc.2 g1 h1) (hr.2 g1 h1)
    refine ⟨g2, ?_, ?_⟩
    · simp only [runFrames, h1]
      exact h2
    · rw [hh2, hh, List.length_cons, Function.iterate_succ_apply]

/-- C4 (as stated, refuted): in `contactGame` one Regular ghost (contact
damage 10) overlaps the player on the frame `idleFrame`, the health before the
frame is 100, and the health after it is 91, not max(0, 100 - 1 * 10) = 90: the
regeneration at the end of the frame has added 1. -/
theorem C4_counterexample :
    ContactFrames approxMath 1 10 [idleFrame] contactGame ∧
    contactGame.superman.health = 100 ∧
    (runFrames approxMath 1 [idleFrame] contactGame).map (fun g => g.superman.health) =
      some 91 ∧
    max 0 (contactGame.superman.health - (([idleFrame].length : Nat) : ℚ) * 10) = 90 := by
  refine ⟨⟨by decide!, fun _ _ => trivial⟩, by decide!, by decide!, by decide!⟩

/-- C4 (amended): over N ≥ 1 consecutive frames on each of which exactly one
ghost overlaps the player in the contact pass, with contact damage d ≥ 0, and on
each of which the regeneration accumulator is still below `regenRate` when
`regenerateHealth` runs, the frames produce a state and the player's health after
them is max(0, h0 - N * d). -/
theorem C4_contact_damage_over_frames (m : Runtime) (fuel : Nat) (d : ℚ)
    (inputs : List FrameInput) (g : Game) (hn : inputs ≠ []) (hd : 0 ≤ d)
    (hc : ContactFrames m fuel d inputs g) (hr : RegenIdle m fuel inputs g) :
    ∃ g1, runFrames m fuel inputs g = some g1 ∧
      g1.superman.health = max 0 (g.superman.health - (inputs.length : ℚ) * d) := by
  obtain ⟨g1, h1, hh⟩ := contact_frames_health m fuel d inputs g hc hr
  refine ⟨g1, h1, ?_⟩
  rw [hh]
  cases inputs with
  | nil => exact absurd rfl hn
  | cons inp rest =>
    rw [List.length_cons]
    exact clamp_iterate d hd rest.length g.superman.health

theorem C4_contact_damage_over_frames_witness :
    [idleFrame, idleFrame] ≠ [] ∧ (0 : ℚ) ≤ 10 ∧
    ContactFrames approxMath 1 10 [idleFrame, idleFrame] contactGameIdle ∧
    RegenIdle approxMath 1 [idleFrame, idleFrame] contactGameIdle ∧
    ∃ g1, runFrames approxMath 1 [idleFrame, idleFrame] contactGameIdle = some g1 ∧
      g1.superman.health =
        max 0 (contactGameIdle.superman.health -
          (([idleFrame, idleFrame].length : Nat) : ℚ) * 10) :=
  have h1 : Game.updatePlaying approxMath 1 idleFrame contactGameIdle =
      some ((Game.updatePlaying approxMath 1 idleFrame contactGameIdle).get (by decide!)) :=
    (Option.some_get _).symm
  have hc : ContactFrames approxMath 1 10 [idleFrame, idleFrame] contactGameIdle :=
    ⟨by decide!, fun g1 hg => by
      rw [h1, Option.some.injEq] at hg
      subst hg
      exact ⟨by decide!, fun _ _ => trivial⟩⟩
  have hr : RegenIdle approxMath 1 [idleFrame, idleFrame] contactGameIdle :=
    ⟨by decide!, fun g1 hg => by
      rw [h1, Option.some.injEq] at hg
      subst hg
      exact ⟨by decide!, fun _ _ => trivial⟩⟩
  ⟨by simp, by norm_num, hc, hr,
    C4_contact_damage_over_frames approxMath 1 10 [idleFrame, idleFrame] contactGameIdle
      (by simp) (by norm_num) hc hr⟩

/-! ### Evaluations on the sample sessions -/

theorem C9_game_over_iff_health_depleted_witness :
    dyingGame.currentState = GameState.Playing ∧
    ∃ g1, Game.updatePlaying approxMath 1 idleFrame dyingGame = some g1 ∧
      g1.currentState = GameState.GameOver :=
  have hpos : (Game.afterCollisions approxMath idleFrame dyingGame).superman.position =
      ⟨400, 300⟩ := by decide!
  have hp : Placeable approxMath 1
      (Game.afterCollisions approxMath idleFrame dyingGame).superman.position.x
      (Game.afterCollisions approxMath idleFrame dyingGame).superman.position.y := by
    rw [hpos]; exact placeable_approxMath
  have hC := C9_game_over_iff_health_depleted approxMath 1 idleFrame dyingGame rfl
  ⟨rfl, (hC.2 hp).elim fun g1 h => ⟨g1, h, ((hC.1 g1 h).1).2 (by decide!)⟩⟩

theorem C10_next_level_on_empty_collection_witness :
    (Game.afterCollisions approxMath idleFrame clearedGame).ghosts = [] ∧
    clearedGame.level = 1 ∧
    ∃ g1, Game.updatePlaying approxMath 1 idleFrame clearedGame = some g1 ∧
      g1.level = 2 ∧ g1.ghosts.length = 5 :=
  have hC := C10_next_level_on_empty_collection approxMath 1 idleFrame clearedGame
  have hempty : (Game.afterCollisions approxMath idleFrame clearedGame).ghosts = [] := by
    decide!
  have hlevel : (Game.afterCollisions approxMath idleFrame clearedGame).level = 1 := by
    decide!
  have hpos : (Game.afterCollisions approxMath idleFrame clearedGame).superman.position =
      ⟨400, 300⟩ := by decide!
  have hp : Placeable approxMath 1
      (Game.afterCollisions approxMath idleFrame clearedGame).superman.position.x
      (Game.afterCollisions approxMath idleFrame clearedGame).superman.position.y := by
    rw [hpos]; exact placeable_approxMath
  ⟨hempty, rfl, (hC.2.2.2.1 _ hp).elim fun g2 hn =>
    ⟨Game.finishFrame idleFrame g2, by rw [hC.1 hempty, hn]; rfl,
      by rw [(finishFrame_frame idleFrame g2).2.1]; exact ((hC.2.2.1 _ g2 hn).2.2.2.2.2 hlevel).1,
      by rw [(finishFrame_frame idleFrame g2).2.2.1]
         exact ((hC.2.2.1 _ g2 hn).2.2.2.2.2 hlevel).2⟩⟩

/-! ### The batch built by `spawnGhosts` -/

theorem samplePosition_some (m : Runtime) (px py : ℚ) (fuel : Nat) :
    ∀ k x y k1, Game.samplePosition m px py fuel k = some (x, y, k1) →
      ∃ kx, k1 = kx + 2 ∧ Accepted m px py kx ∧
        x = (m.uniform kx 50 (((Game.WINDOW_WIDTH - 50 : Int) : ℚ))).1 ∧
        y = (m.uniform (kx + 1) 50 (((Game.WINDOW_HEIGHT - 50 : Int) : ℚ))).1 := by
  induction fuel with
  | zero => intro k x y k1 h; simp [Game.samplePosition] at h
  | succ n ih =>
    intro k x y k1 h
    simp only [Game.samplePosition] at h
    split_ifs at h with hc
    · exact ih _ _ _ _ h
    · simp only [Option.some.injEq, Prod.mk.injEq] at h
      obtain ⟨hx, hy, hk⟩ := h
      refine ⟨k, ?_, ?_, ?_, ?_⟩
      · exact hk.symm
      · exact hc
      · exact hx.symm
      · exact hy.symm

theorem spawnLoop_batch (m : Runtime) (fuel : Nat) (level ghostCount : Int) (player : Vec2) :
    ∀ (idxs : List Nat) (gs : List Ghost) (k : Nat) (gs1 : List Ghost) (k1 : Nat),
      Game.spawnLoop m fuel level ghostCount player idxs gs k = some (gs1, k1) →
        ∃ batch, gs1 = gs ++ batch ∧
          List.Forall₂ (SpawnedAt m level ghostCount player) idxs batch := by
  intro idxs
  induction idxs with
  | nil =>
    intro gs k gs1 k1 h
    simp only [Game.spawnLoop, Option.some.injEq, Prod.mk.injEq] at h
    exact ⟨[], by simp [← h.1], List.Forall₂.nil⟩
  | cons i rest ih =>
    intro gs k gs1 k1 h
    cases hs : Game.samplePosition m player.x player.y fuel k with
    | none => simp [Game.spawnLoop, hs] at h
    | some res =>
      obtain ⟨x, y, k2⟩ := res
      obtain ⟨kx, hk, hacc, hx, hy⟩ := samplePosition_some m _ _ fuel k x y k2 hs
      simp only [Game.spawnLoop, hs] at h
      obtain ⟨batch, hb, hf⟩ := ih _ _ _ _ h
      refine ⟨_ :: batch, ?_, List.Forall₂.cons ⟨kx, hacc, rfl⟩ hf⟩
      rw [hb, List.append_assoc, List.singleton_append]
      subst hk hx hy
      rfl

theorem spawnGhosts_batch (m : Runtime) (fuel : Nat) (g g1 : Game)
    (h : Game.spawnGhosts m fuel g = some g1) :
    List.Forall₂ (SpawnedAt m g.level (3 + (g.level - 1) * 2) g.superman.position)
      (List.range (3 + (g.level - 1) * 2).toNat) g1.ghosts := by
  unfold Game.spawnGhosts at h
  dsimp only at h
  split at h
  · exact absurd h (by simp)
  · rename_i gs r hs
    simp only [Option.some.injEq] at h
    subst h
    obtain ⟨batch, hb, hf⟩ := spawnLoop_batch m fuel _ _ _ _ _ _ _ _ hs
    simp only [List.nil_append] at hb
    subst hb
    exact hf

theorem forall₂_range_getElem {R : Nat → Ghost → Prop} (n : Nat) (l : List Ghost)
    (h : List.Forall₂ R (List.range n) l) :
    l.length = n ∧ ∀ i gh, l[i]? = some gh → R i gh := by
  have hlen := h.length_eq
  rw [List.length_range] at hlen
  refine ⟨hlen.symm, ?_⟩
  intro i gh hi
  obtain ⟨hlt, hget⟩ := List.getElem?_eq_some.mp hi
  have h2 := (List.forall₂_iff_get.mp h).2 i (by rw [List.length_range]; omega) hlt
  simp only [List.get_eq_getElem, List.getElem_range] at h2
  rw [hget] at h2
  exact h2

theorem spawned_type (m : Runtime) (level ghostCount : Int) (player : Vec2) (i : Nat)
    (gh : Ghost) (kx : Nat) (h : SpawnedFrom m level ghostCount player i gh kx) :
    gh.type = batchType level ghostCount i (m.uniform (kx + 2) 0 1).1 ∧
    gh.position = ⟨(m.uniform kx 50 (((Game.WINDOW_WIDTH - 50 : Int) : ℚ))).1,
      (m.uniform (kx + 1) 50 (((Game.WINDOW_HEIGHT - 50 : Int) : ℚ))).1⟩ := by
  obtain ⟨_, hg⟩ := h
  rw [hg]
  exact ⟨rfl, rfl⟩

theorem batchType_boss_iff (level ghostCount : Int) (i : Nat) (typeRoll : ℚ) :
    batchType level ghostCount i typeRoll = GhostType.Boss ↔
      level % 3 = 0 ∧ (i : Int) = ghostCount - 1 := by
  unfold batchType
  split_ifs with h1 h2
  · exact ⟨fun _ => h1, fun _ => rfl⟩
  · exact ⟨fun h => absurd h (by decide), fun h => absurd h h1⟩
  · exact ⟨fun h => absurd h (by decide), fun h => absurd h h1⟩

theorem forall₂_filter_length {R : Nat → Ghost → Prop} (p : Nat → Bool) (q : Ghost → Bool)
    (hR : ∀ i gh, R i gh → q gh = p i) :
    ∀ (idxs : List Nat) (l : List Ghost), List.Forall₂ R idxs l →
      (l.filter q).length = (idxs.filter p).length := by
  intro idxs l h
  induction h with
  | nil => rfl
  | @cons a b l1 l2 hab _ ih =>
    have hq := hR a b hab
    simp only [List.filter_cons, hq]
    cases p a <;> simp [ih]

theorem range_filter_last (n : Nat) (hn : 1 ≤ n) :
    ((List.range n).filter (fun i => decide (i + 1 = n))).length = 1 := by
  obtain ⟨k, rfl⟩ : ∃ k, n = k + 1 := ⟨n - 1, by omega⟩
  rw [List.range_succ, List.filter_append]
  have h0 : (List.range k).filter (fun i => decide (i + 1 = k + 1)) = [] := by
    rw [List.filter_eq_nil_iff]
    intro a ha
    have := List.mem_range.mp ha
    simp only [decide_eq_true_eq]
    omega
  rw [h0]
  simp

theorem spawnGhosts_ignores_ghosts (m : Runtime) (fuel : Nat) (g : Game) (prev : List Ghost) :
    Game.spawnGhosts m fuel { g with ghosts := prev } = Game.spawnGhosts m fuel g := by
  unfold Game.spawnGhosts
  dsimp only

/-- C11: at every level N ≥ 1, `spawnGhosts`, when its placement loop ends,
leaves exactly `3 + (N - 1) * 2` ghosts, every one of them newly built by this
call, and its result does not depend on the ghosts that were in the collection
before; the loop ends whenever the generator yields a kept sample. -/
theorem C11_spawn_batch_size (m : Runtime) (fuel : Nat) (g : Game) (hl : 1 ≤ g.level) :
    (∀ g1, Game.spawnGhosts m fuel g = some g1 →
      (g1.ghosts.length : Int) = 3 + (g.level - 1) * 2 ∧
      ∀ gh ∈ g1.ghosts,
        ∃ i, SpawnedAt m g.level (3 + (g.level - 1) * 2) g.superman.position i gh) ∧
    (∀ prev, Game.spawnGhosts m fuel { g with ghosts := prev } = Game.spawnGhosts m fuel g) ∧
    (Placeable m fuel g.superman.position.x g.superman.position.y →
      ∃ g1, Game.spawnGhosts m fuel g = some g1 ∧
        (g1.ghosts.length : Int) = 3 + (g.level - 1) * 2) := by
  have hlen : ∀ g1, Game.spawnGhosts m fuel g = some g1 →
      (g1.ghosts.length : Int) = 3 + (g.level - 1) * 2 := by
    intro g1 h
    rw [(spawnGhosts_some m fuel g g1 h).2]
    exact Int.toNat_of_nonneg (by omega)
  refine ⟨fun g1 h => ⟨hlen g1 h, ?_⟩, spawnGhosts_ignores_ghosts m fuel g, ?_⟩
  · intro gh hgh
    obtain ⟨i, hi⟩ := List.mem_iff_getElem?.mp hgh
    exact ⟨i, (forall₂_range_getElem _ _ (spawnGhosts_batch m fuel g g1 h)).2 i gh hi⟩
  · intro hp
    obtain ⟨g1, h⟩ := spawnGhosts_of_placeable m fuel g hp
    exact ⟨g1, h, hlen g1 h⟩

theorem C11_spawn_batch_size_witness :
    (1 : Int) ≤ levelThreeGame.level ∧
    Placeable approxMath 1 levelThreeGame.superman.position.x
      levelThreeGame.superman.position.y ∧
    ∃ g1, Game.spawnGhosts approxMath 1 levelThreeGame = some g1 ∧
      (g1.ghosts.length : Int) = 3 + (levelThreeGame.level - 1) * 2 :=
  ⟨by decide, placeable_approxMath,
    (C11_spawn_batch_size approxMath 1 levelThreeGame (by decide)).2.2 placeable_approxMath⟩

/-- C12: in the batch built by `spawnGhosts` at level N ≥ 1 the ghost of index
i is a Boss exactly when N % 3 = 0 and i is the last index; any other ghost is
Fast when its type roll is below 0.3 and Regular otherwise; so the batch holds
exactly one Boss when N % 3 = 0 and none otherwise. -/
theorem C12_batch_variants (m : Runtime) (fuel : Nat) (g : Game) (hl : 1 ≤ g.level) :
    (∀ g1, Game.spawnGhosts m fuel g = some g1 →
      (∀ i gh, g1.ghosts[i]? = some gh →
        (gh.type = GhostType.Boss ↔ g.level % 3 = 0 ∧ i + 1 = g1.ghosts.length) ∧
        ∃ kx, SpawnedFrom m g.level (3 + (g.level - 1) * 2) g.superman.position i gh kx ∧
          (gh.type ≠ GhostType.Boss →
            ((m.uniform (kx + 2) 0 1).1 < 3 / 10 → gh.type = GhostType.Fast) ∧
            (¬ (m.uniform (kx + 2) 0 1).1 < 3 / 10 → gh.type = GhostType.Regular))) ∧
      (g1.ghosts.filter (fun gh => decide (gh.type = GhostType.Boss))).length =
        (if g.level % 3 = 0 then 1 else 0)) ∧
    (Placeable m fuel g.superman.position.x g.superman.position.y →
      ∃ g1, Game.spawnGhosts m fuel g = some g1) := by
  refine ⟨?_, spawnGhosts_of_placeable m fuel g⟩
  intro g1 h
  have hb := spawnGhosts_batch m fuel g g1 h
  have hcount : 0 ≤ 3 + (g.level - 1) * 2 := by omega
  have hlen : (g1.ghosts.length : Int) = 3 + (g.level - 1) * 2 := by
    rw [(spawnGhosts_some m fuel g g1 h).2]
    exact Int.toNat_of_nonneg hcount
  constructor
  · intro i gh hi
    obtain ⟨kx, hk⟩ := (forall₂_range_getElem _ _ hb).2 i gh hi
    have ht := (spawned_type m _ _ _ i gh kx hk).1
    have hiff := batchType_boss_iff g.level (3 + (g.level - 1) * 2) i (m.uniform (kx + 2) 0 1).1
    constructor
    · rw [ht, hiff]
      constructor
      · rintro ⟨h1, h2⟩; exact ⟨h1, by omega⟩
      · rintro ⟨h1, h2⟩; exact ⟨h1, by omega⟩
    · refine ⟨kx, hk, ?_⟩
      intro hnb
      rw [ht] at hnb ⊢
      have hc : ¬ (g.level % 3 = 0 ∧ (i : Int) = 3 + (g.level - 1) * 2 - 1) :=
        fun hc => hnb (hiff.mpr hc)
      unfold batchType
      rw [if_neg hc]
      constructor
      · intro hr; rw [if_pos hr]
      · intro hr; rw [if_neg hr]
  · have hR : ∀ i gh, SpawnedAt m g.level (3 + (g.level - 1) * 2) g.superman.position i gh →
        decide (gh.type = GhostType.Boss) =
          decide (g.level % 3 = 0 ∧ (i : Int) = 3 + (g.level - 1) * 2 - 1) := by
      intro i gh ⟨kx, hk⟩
      rw [(spawned_type m _ _ _ i gh kx hk).1]
      exact decide_eq_decide.mpr (batchType_boss_iff _ _ _ _)
    rw [forall₂_filter_length _ _ hR _ _ hb]
    by_cases hc : g.level % 3 = 0
    · rw [if_pos hc]
      have hn : 1 ≤ (3 + (g.level - 1) * 2).toNat := by omega
      rw [← range_filter_last _ hn]
      congr 1
      apply List.filter_congr
      intro i _
      apply decide_eq_decide.mpr
      constructor
      · rintro ⟨_, h2⟩; omega
      · intro h2; exact ⟨hc, by omega⟩
    · rw [if_neg hc, List.length_eq_zero, List.filter_eq_nil_iff]
      intro i _
      simp only [decide_eq_true_eq]
      exact fun h2 => hc h2.1

theorem C12_batch_variants_witness :
    (1 : Int) ≤ levelThreeGame.level ∧
    ∃ g1, Game.spawnGhosts approxMath 1 levelThreeGame = some g1 ∧
      (g1.ghosts.filter (fun gh => decide (gh.type = GhostType.Boss))).length =
        (if levelThreeGame.level % 3 = 0 then 1 else 0) ∧
      g1.ghosts.map Ghost.type =
        [GhostType.Fast, GhostType.Fast, GhostType.Fast, GhostType.Fast, GhostType.Fast,
          GhostType.Fast, GhostType.Boss] :=
  have hC := C12_batch_variants approxMath 1 levelThreeGame (by decide)
  ⟨by decide, (hC.2 placeable_approxMath).elim fun g1 h =>
    ⟨g1, h, ((hC.1 g1 h).2), by
      have h1 : Game.spawnGhosts approxMath 1 levelThreeGame =
          some ((Game.spawnGhosts approxMath 1 levelThreeGame).get (by decide!)) :=
        (Option.some_get _).symm
      rw [h1, Option.some.injEq] at h
      subst h
      decide!⟩⟩

/-- C20: with canonical generator outputs, every ghost built by `spawnGhosts`
has a position (x, y) with 50 ≤ x ≤ 800 - 50 and 50 ≤ y ≤ 600 - 50 that is not
within 100 of the player on both axes: |x - px| ≥ 100 or |y - py| ≥ 100 for the
player position (px, py) of the call. -/
theorem C20_spawn_positions (m : Runtime) (fuel : Nat) (g : Game) (hu : UnitStream m) :
    (∀ g1, Game.spawnGhosts m fuel g = some g1 → ∀ gh ∈ g1.ghosts,
      50 ≤ gh.position.x ∧ gh.position.x ≤ 800 - 50 ∧
      50 ≤ gh.position.y ∧ gh.position.y ≤ 600 - 50 ∧
      (|gh.position.x - g.superman.position.x| ≥ 100 ∨
        |gh.position.y - g.superman.position.y| ≥ 100)) ∧
    (Placeable m fuel g.superman.position.x g.superman.position.y →
      ∃ g1, Game.spawnGhosts m fuel g = some g1) := by
  refine ⟨?_, spawnGhosts_of_placeable m fuel g⟩
  intro g1 h gh hgh
  obtain ⟨i, hi⟩ := List.mem_iff_getElem?.mp hgh
  obtain ⟨kx, hk⟩ := (forall₂_range_getElem _ _ (spawnGhosts_batch m fuel g g1 h)).2 i gh hi
  have hp := (spawned_type m _ _ _ i gh kx hk).2
  have hacc := hk.1
  unfold Accepted at hacc
  rw [hp]
  simp only [Runtime.uniform, Game.WINDOW_WIDTH, Game.WINDOW_HEIGHT] at hacc ⊢
  obtain ⟨hx0, hx1⟩ := hu kx
  obtain ⟨hy0, hy1⟩ := hu (kx + 1)
  push_cast at hacc ⊢
  refine ⟨by nlinarith, by nlinarith, by nlinarith, by nlinarith, ?_⟩
  by_contra hcon
  rw [not_or] at hcon
  exact hacc ⟨not_le.mp hcon.1, not_le.mp hcon.2⟩

theorem unitStream_approxMath : UnitStream approxMath := by
  intro k
  simp [approxMath, approxRuntime]

theorem C20_spawn_positions_witness :
    UnitStream approxMath ∧
    ∃ g1, Game.spawnGhosts approxMath 1 levelThreeGame = some g1 ∧
      ∀ gh ∈ g1.ghosts, 50 ≤ gh.position.x ∧ gh.position.x ≤ 800 - 50 ∧
        50 ≤ gh.position.y ∧ gh.position.y ≤ 600 - 50 ∧
        (|gh.position.x - levelThreeGame.superman.position.x| ≥ 100 ∨
          |gh.position.y - levelThreeGame.superman.position.y| ≥ 100) :=
  have hC := C20_spawn_positions approxMath 1 levelThreeGame unitStream_approxMath
  ⟨unitStream_approxMath, (hC.2 placeable_approxMath).elim fun g1 h => ⟨g1, h, hC.1 g1 h⟩⟩

/-! ### Speed limit, window clamp and punch window of the player -/

theorem Superman.update_velocity (m : Runtime) (k : Keys) (w h : Nat) (dt : ℚ)
    (s : Superman) : (s.update m k w h dt).velocity = (s.handleInput m k dt).velocity := by
  unfold Superman.update Superman.constrainToWindow Superman.updateCape
    Superman.updateAnimation
  dsimp only
  split_ifs <;> rfl

theorem approxSqrt_nonneg (q : ℚ) : 0 ≤ approxSqrt q := by
  unfold approxSqrt
  split_ifs
  · exact le_refl _
  · positivity

/-- The square root to six decimals is rounded down. -/
theorem approxSqrt_sq_le (q : ℚ) (hq : 0 ≤ q) : approxSqrt q * approxSqrt q ≤ q := by
  unfold approxSqrt
  split_ifs with h0
  · simpa using hq
  · have hfl : 0 ≤ ⌊q * 1000000000000⌋ := Int.floor_nonneg.mpr (by positivity)
    have hn : ((Int.toNat ⌊q * 1000000000000⌋ : Nat) : ℚ) = ((⌊q * 1000000000000⌋ : Int) : ℚ) := by
      have := Int.toNat_of_nonneg hfl
      exact_mod_cast this
    have hle : ((Int.toNat ⌊q * 1000000000000⌋ : Nat) : ℚ) ≤ q * 1000000000000 := by
      rw [hn]; exact Int.floor_le _
    have hs : ((Nat.sqrt (Int.toNat ⌊q * 1000000000000⌋) : Nat) : ℚ) *
        ((Nat.sqrt (Int.toNat ⌊q * 1000000000000⌋) : Nat) : ℚ) ≤
        ((Int.toNat ⌊q * 1000000000000⌋ : Nat) : ℚ) := by
      have := Nat.sqrt_le (Int.toNat ⌊q * 1000000000000⌋)
      exact_mod_cast this
    generalize ((Nat.sqrt (Int.toNat ⌊q * 1000000000000⌋) : Nat) : ℚ) = c at hs ⊢
    have e : c / 1000000 * (c / 1000000) = c * c / 1000000000000 := by ring
    rw [e, div_le_iff₀ (by norm_num)]
    linarith

/-- The value of the square root to six decimals, from the floor `N` of the
scaled argument and its integer square root `S`. -/
theorem approxSqrt_eval (q : ℚ) (N S : Nat) (hq : 0 < q) (hN0 : (N : ℚ) ≤ q * 1000000000000)
    (hN1 : q * 1000000000000 < (N : ℚ) + 1) (hS0 : S * S ≤ N) (hS1 : N < (S + 1) * (S + 1)) :
    approxSqrt q = (S : ℚ) / 1000000 := by
  unfold approxSqrt
  have hfl : ⌊q * 1000000000000⌋ = (N : Int) := by
    rw [Int.floor_eq_iff]
    exact ⟨by exact_mod_cast hN0, by exact_mod_cast hN1⟩
  have hs : Nat.sqrt N = S := (Nat.eq_sqrt.mpr ⟨hS0, hS1⟩).symm
  rw [if_neg (not_le.mpr hq), hfl, Int.toNat_natCast, hs]

theorem approxSqrt_sq (n : ℕ) (hn : 0 < n) : approxSqrt ((n : ℚ) * n) = n := by
  have hq : (0 : ℚ) < n := by exact_mod_cast hn
  rw [approxSqrt_eval ((n : ℚ) * n) (n * 1000000 * (n * 1000000)) (n * 1000000)
    (mul_pos hq hq) (by push_cast; nlinarith) (by push_cast; nlinarith) (le_refl _)
    (by nlinarith)]
  push_cast
  field_simp

theorem sqrtShort_approxMath : SqrtShort approxMath := by
  intro q hq
  show 0 < approxSqrt q ∧ q ≤ approxSqrt q * approxSqrt q * (1 + 1 / 100000)
  unfold approxSqrt
  have hpos : 0 < q := by linarith
  rw [if_neg (not_le.mpr hpos)]
  have hfl : 0 ≤ ⌊q * 1000000000000⌋ := Int.floor_nonneg.mpr (by positivity)
  have hn : ((Int.toNat ⌊q * 1000000000000⌋ : Nat) : ℚ) = ((⌊q * 1000000000000⌋ : Int) : ℚ) := by
    have := Int.toNat_of_nonneg hfl
    exact_mod_cast this
  have hlt : q * 1000000000000 < ((Int.toNat ⌊q * 1000000000000⌋ : Nat) : ℚ) + 1 := by
    rw [hn]; exact Int.lt_floor_add_one _
  have hbig : 1000000 ≤ Nat.sqrt (Int.toNat ⌊q * 1000000000000⌋) := by
    rw [Nat.le_sqrt]
    have h1 : (1000000000000 : ℚ) ≤ q * 1000000000000 := by nlinarith
    have h2 : (1000000000000 : Int) ≤ ⌊q * 1000000000000⌋ := Int.le_floor.mpr (by exact_mod_cast h1)
    omega
  have hs2 : ((Int.toNat ⌊q * 1000000000000⌋ : Nat) : ℚ) + 1 ≤
      (((Nat.sqrt (Int.toNat ⌊q * 1000000000000⌋) : Nat) : ℚ) + 1) *
        (((Nat.sqrt (Int.toNat ⌊q * 1000000000000⌋) : Nat) : ℚ) + 1) := by
    have : Int.toNat ⌊q * 1000000000000⌋ + 1 ≤
        (Nat.sqrt (Int.toNat ⌊q * 1000000000000⌋) + 1) *
          (Nat.sqrt (Int.toNat ⌊q * 1000000000000⌋) + 1) := Nat.lt_succ_sqrt _
    exact_mod_cast this
  have hc : (1000000 : ℚ) ≤ ((Nat.sqrt (Int.toNat ⌊q * 1000000000000⌋) : Nat) : ℚ) := by
    exact_mod_cast hbig
  generalize ((Nat.sqrt (Int.toNat ⌊q * 1000000000000⌋) : Nat) : ℚ) = c at hs2 hc ⊢
  constructor
  · positivity
  · have e : c / 1000000 * (c / 1000000) * (1 + 1 / 100000) =
        c * c * (1 + 1 / 100000) / 1000000000000 := by ring
    rw [e, le_div_iff₀ (by norm_num)]
    nlinarith

theorem sqrtNear_approxMath : SqrtNear approxMath := by
  intro q hq
  show approxSqrt q ≤ 1 ∨ (approxSqrt q - 1) * (approxSqrt q - 1) ≤ q
  have h0 := approxSqrt_nonneg q
  have h1 := approxSqrt_sq_le q hq
  by_cases h : approxSqrt q ≤ 1
  · exact Or.inl h
  · right
    nlinarith

theorem handleInput_eq (m : Runtime) (k : Keys) (dt : ℚ) (s : Superman) :
    (s.handleInput m k dt).velocity =
      if m.sqrt ((s.frictionVelocity m k dt).x * (s.frictionVelocity m k dt).x +
          (s.frictionVelocity m k dt).y * (s.frictionVelocity m k dt).y) > Superman.MAX_SPEED then
        ⟨(s.frictionVelocity m k dt).x /
            m.sqrt ((s.frictionVelocity m k dt).x * (s.frictionVelocity m k dt).x +
              (s.frictionVelocity m k dt).y * (s.frictionVelocity m k dt).y) * Superman.MAX_SPEED,
          (s.frictionVelocity m k dt).y /
            m.sqrt ((s.frictionVelocity m k dt).x * (s.frictionVelocity m k dt).x +
              (s.frictionVelocity m k dt).y * (s.frictionVelocity m k dt).y) * Superman.MAX_SPEED⟩
      else s.frictionVelocity m k dt := rfl

/-- After the speed limit the squared speed is at most `MAX_SPEED` squared up to
the shortfall of the square root, and at most the squared speed before it. -/
theorem handleInput_speedSq (m : Runtime) (hm : SqrtShort m) (k : Keys) (dt : ℚ)
    (s : Superman) :
    (s.handleInput m k dt).speedSq ≤ 300 * 300 * (1 + 1 / 100000) ∧
    (s.handleInput m k dt).speedSq ≤
      (s.frictionVelocity m k dt).x * (s.frictionVelocity m k dt).x +
        (s.frictionVelocity m k dt).y * (s.frictionVelocity m k dt).y := by
  unfold Superman.speedSq
  rw [handleInput_eq]
  generalize s.frictionVelocity m k dt = v
  have hq : 0 ≤ v.x * v.x + v.y * v.y := by
    nlinarith [mul_self_nonneg v.x, mul_self_nonneg v.y]
  have hsh := hm (v.x * v.x + v.y * v.y)
  generalize m.sqrt (v.x * v.x + v.y * v.y) = c at hsh ⊢
  simp only [Superman.MAX_SPEED]
  split_ifs with hc
  · have hcpos : 0 < c := by linarith
    have hcc : 0 < c * c := mul_pos hcpos hcpos
    have e : v.x / c * 300 * (v.x / c * 300) + v.y / c * 300 * (v.y / c * 300) =
        (v.x * v.x + v.y * v.y) * (300 * 300 / (c * c)) := by
      field_simp
      ring
    dsimp only
    rw [e]
    have hr : 300 * 300 / (c * c) ≤ 1 := (div_le_one hcc).mpr (by nlinarith)
    have hr0 : 0 ≤ 300 * 300 / (c * c) := by positivity
    constructor
    · by_cases h1 : 1 ≤ v.x * v.x + v.y * v.y
      · have h2 := (hsh h1).2
        have e2 : (v.x * v.x + v.y * v.y) * (300 * 300 / (c * c)) =
            (v.x * v.x + v.y * v.y) / (c * c) * (300 * 300) := by ring
        rw [e2]
        have h3 : (v.x * v.x + v.y * v.y) / (c * c) ≤ 1 + 1 / 100000 := by
          rw [div_le_iff₀ hcc]
          linarith
        nlinarith
      · nlinarith
    · nlinarith
  · have hc2 : c ≤ 300 := not_lt.mp hc
    constructor
    · by_cases h1 : 1 ≤ v.x * v.x + v.y * v.y
      · obtain ⟨h2, h3⟩ := hsh h1
        nlinarith
      · nlinarith
    · exact le_refl _

theorem runSupermanFrames_speedSq (m : Runtime) (hm : SqrtShort m) :
    ∀ (inputs : List FrameInput) (s : Superman), inputs ≠ [] →
      (runSupermanFrames m inputs s).speedSq ≤ 300 * 300 * (1 + 1 / 100000) := by
  intro inputs
  induction inputs with
  | nil => intro s h; exact absurd rfl h
  | cons inp rest ih =>
    intro s _
    by_cases hr : rest = []
    · subst hr
      simp only [runSupermanFrames, List.foldl_cons, List.foldl_nil, Superman.speedSq,
        Superman.update_velocity]
      exact (handleInput_speedSq m hm inp.keys inp.deltaTime s).1
    · exact ih _ hr

/-- C13 (amended): when the square of the computed square root falls short of its
argument by a relative 1/100000 at most (as for the exact square root and for a
binary32 one), then for every prior velocity, held keys and `dt` the velocity
left by `handleInput` has squared speed at most 300 * 300 * (1 + 1/100000), that
is speed at most 300.0015; `Superman::update` keeps that velocity, so the bound
holds after every frame of any non-empty sequence of frames. -/
theorem C13_speed_at_most_max (m : Runtime) (hm : SqrtShort m) (k : Keys) (w h : Nat) (dt : ℚ)
    (s : Superman) (inputs : List FrameInput) (hn : inputs ≠ []) :
    (s.handleInput m k dt).speedSq ≤ 300 * 300 * (1 + 1 / 100000) ∧
    (s.update m k w h dt).speedSq ≤ 300 * 300 * (1 + 1 / 100000) ∧
    (runSupermanFrames m inputs s).speedSq ≤ 300 * 300 * (1 + 1 / 100000) ∧
    Superman.MAX_SPEED = 300 ∧
    (300 : ℚ) * 300 * (1 + 1 / 100000) ≤ (300 + 15 / 10000) * (300 + 15 / 10000) := by
  have h1 := (handleInput_speedSq m hm k dt s).1
  have h3 := runSupermanFrames_speedSq m hm inputs s hn
  refine ⟨h1, ?_, h3, rfl, by norm_num⟩
  unfold Superman.speedSq
  rw [Superman.update_velocity]
  exact h1

theorem C13_speed_at_most_max_witness :
    SqrtShort approxMath ∧ [diagonalFrame, diagonalFrame] ≠ [] ∧
    (fastPlayer.handleInput approxMath diagonalFrame.keys (1 / 8)).speedSq ≤
      300 * 300 * (1 + 1 / 100000) ∧
    (runSupermanFrames approxMath [diagonalFrame, diagonalFrame] fastPlayer).speedSq ≤
      300 * 300 * (1 + 1 / 100000) :=
  have hC := C13_speed_at_most_max approxMath sqrtShort_approxMath diagonalFrame.keys 800 600
    (1 / 8) fastPlayer [diagonalFrame, diagonalFrame] (by simp)
  ⟨sqrtShort_approxMath, by simp, hC.1, hC.2.2.1⟩

/-- C13 (as stated, refuted): with the square root rounded down to six decimals,
a player moving at (-555, -1272) who holds the down and right keys for a frame of
1/64 s is left by `handleInput` with a squared speed above 300 * 300. -/
theorem C13_counterexample :
    (divingPlayer.handleInput approxMath diagonalFrame.keys (1 / 64)).speedSq > 300 * 300 := by
  have hraw : Superman.rawInput diagonalFrame.keys = ⟨1, 1⟩ := by decide!
  have h2 : approxSqrt ((1 : ℚ) * 1 + 1 * 1) = 1414213 / 1000000 := by
    rw [approxSqrt_eval ((1 : ℚ) * 1 + 1 * 1) 2000000000000 1414213 (by norm_num)
      (by norm_num) (by norm_num) (by norm_num) (by norm_num)]
    norm_num
  have hv : divingPlayer.frictionVelocity approxMath diagonalFrame.keys (1 / 64) =
      ⟨-5507372820014155 / 11863278485504, -1592181011975339 / 1482909810688⟩ := by
    unfold Superman.frictionVelocity
    rw [hraw]
    show (divingPlayer.velocity.add
      (((if approxSqrt ((1 : ℚ) * 1 + 1 * 1) > 0 then
          (⟨1 / approxSqrt ((1 : ℚ) * 1 + 1 * 1), 1 / approxSqrt ((1 : ℚ) * 1 + 1 * 1)⟩ : Vec2)
        else ⟨1, 1⟩).scale Superman.acceleration).scale (1 / 64))).scale Superman.friction = _
    rw [h2, if_pos (by norm_num)]
    apply Vec2.eq_of_components
    · show ((-555 : ℚ) + 1 / (1414213 / 1000000) * 800 * (1 / 64)) * (7130317 / 8388608) = _
      norm_num
    · show ((-1272 : ℚ) + 1 / (1414213 / 1000000) * 800 * (1 / 64)) * (7130317 / 8388608) = _
      norm_num
  have hc : approxSqrt ((-5507372820014155 / 11863278485504 : ℚ) *
      (-5507372820014155 / 11863278485504) +
      (-1592181011975339 / 1482909810688) * (-1592181011975339 / 1482909810688)) =
      1169752026 / 1000000 := by
    rw [approxSqrt_eval _ 1368319804334564250 1169752026 (by norm_num) (by norm_num)
      (by norm_num) (by norm_num) (by norm_num)]
    norm_num
  unfold Superman.speedSq
  rw [handleInput_eq, hv]
  show _ < _
  rw [show approxMath.sqrt = approxSqrt from rfl, hc, if_pos (by norm_num [Superman.MAX_SPEED])]
  norm_num [Superman.MAX_SPEED]

theorem norm_add_le_sq (a b c d B W : ℚ) (hB : 0 ≤ B) (hW : 0 ≤ W)
    (h1 : a * a + b * b ≤ B * B) (h2 : c * c + d * d ≤ W * W) :
    (a + c) * (a + c) + (b + d) * (b + d) ≤ (B + W) * (B + W) := by
  have hcs : a * c + b * d ≤ B * W := by
    by_contra hcon
    rw [not_le] at hcon
    have hBW : 0 ≤ B * W := mul_nonneg hB hW
    have g1 : B * W * (B * W) < (a * c + b * d) * (a * c + b * d) := by nlinarith
    have g2 : (a * c + b * d) * (a * c + b * d) ≤ (a * a + b * b) * (c * c + d * d) := by
      nlinarith [mul_self_nonneg (a * d - b * c)]
    have g3 : (a * a + b * b) * (c * c + d * d) ≤ B * B * (W * W) :=
      mul_le_mul h1 h2 (by nlinarith [mul_self_nonneg c, mul_self_nonneg d])
        (mul_self_nonneg B)
    nlinarith
  nlinarith

/-- The direction read from the keys is zero or has squared length 1 or 2. -/
theorem rawInput_sq (k : Keys) :
    Superman.rawInput k = ⟨0, 0⟩ ∨
    1 ≤ (Superman.rawInput k).x * (Superman.rawInput k).x +
      (Superman.rawInput k).y * (Superman.rawInput k).y := by
  rcases k with ⟨_ | _, _ | _, _ | _, _ | _⟩ <;> decide!

/-- The direction that `handleInput` accelerates along has squared length at
most 1 + 1/100000 when the square of the square root falls short by no more. -/
theorem inputDirection_le (m : Runtime) (hm : SqrtShort m) (d : Vec2)
    (hd : d = ⟨0, 0⟩ ∨ 1 ≤ d.x * d.x + d.y * d.y) :
    (if m.sqrt (d.x * d.x + d.y * d.y) > 0 then
        (⟨d.x / m.sqrt (d.x * d.x + d.y * d.y), d.y / m.sqrt (d.x * d.x + d.y * d.y)⟩ : Vec2)
      else d).x *
      (if m.sqrt (d.x * d.x + d.y * d.y) > 0 then
        (⟨d.x / m.sqrt (d.x * d.x + d.y * d.y), d.y / m.sqrt (d.x * d.x + d.y * d.y)⟩ : Vec2)
      else d).x +
    (if m.sqrt (d.x * d.x + d.y * d.y) > 0 then
        (⟨d.x / m.sqrt (d.x * d.x + d.y * d.y), d.y / m.sqrt (d.x * d.x + d.y * d.y)⟩ : Vec2)
      else d).y *
      (if m.sqrt (d.x * d.x + d.y * d.y) > 0 then
        (⟨d.x / m.sqrt (d.x * d.x + d.y * d.y), d.y / m.sqrt (d.x * d.x + d.y * d.y)⟩ : Vec2)
      else d).y ≤ 1 + 1 / 100000 := by
  rcases hd with hd | hd
  · subst hd
    split_ifs <;> norm_num
  · obtain ⟨h0, h1⟩ := hm _ hd
    generalize m.sqrt (d.x * d.x + d.y * d.y) = c at h0 h1
    rw [if_pos h0]
    have hcc : 0 < c * c := mul_pos h0 h0
    show d.x / c * (d.x / c) + d.y / c * (d.y / c) ≤ 1 + 1 / 100000
    rw [div_mul_div_comm, div_mul_div_comm, ← add_div, div_le_iff₀ hcc]
    linarith

/-- One step of the speed recurrence: acceleration adds at most about
800 * dt to the speed and friction scales it by 0.85f, which maps
[0, restSpeed] into itself for dt up to `frameTime`. -/
theorem frictionVelocity_rest (m : Runtime) (hm : SqrtShort m) (k : Keys) (dt : ℚ)
    (s : Superman) (h0 : 0 ≤ dt) (h1 : dt ≤ frameTime)
    (hs : s.speedSq ≤ Superman.restSpeed * Superman.restSpeed) :
    (s.frictionVelocity m k dt).x * (s.frictionVelocity m k dt).x +
      (s.frictionVelocity m k dt).y * (s.frictionVelocity m k dt).y ≤
      Superman.restSpeed * Superman.restSpeed := by
  have hdir := inputDirection_le m hm (Superman.rawInput k) (rawInput_sq k)
  unfold Superman.frictionVelocity
  dsimp only
  generalize (if m.sqrt ((Superman.rawInput k).x * (Superman.rawInput k).x +
      (Superman.rawInput k).y * (Superman.rawInput k).y) > 0 then
        (⟨(Superman.rawInput k).x / m.sqrt ((Superman.rawInput k).x * (Superman.rawInput k).x +
            (Superman.rawInput k).y * (Superman.rawInput k).y),
          (Superman.rawInput k).y / m.sqrt ((Superman.rawInput k).x * (Superman.rawInput k).x +
            (Superman.rawInput k).y * (Superman.rawInput k).y)⟩ : Vec2)
      else Superman.rawInput k) = u at hdir
  simp only [Superman.restSpeed] at hs ⊢
  simp only [frameTime] at h1
  unfold Superman.speedSq at hs
  have hw : u.x * Superman.acceleration * dt * (u.x * Superman.acceleration * dt) +
      u.y * Superman.acceleration * dt * (u.y * Superman.acceleration * dt) ≤
      133335 / 10000 * (133335 / 10000) := by
    have e : u.x * Superman.acceleration * dt * (u.x * Superman.acceleration * dt) +
        u.y * Superman.acceleration * dt * (u.y * Superman.acceleration * dt) =
        (u.x * u.x + u.y * u.y) * ((800 * dt) * (800 * dt)) := by
      simp only [Superman.acceleration]; ring
    have hd : (800 * dt) * (800 * dt) ≤
        (800 * (8947849 / 536870912)) * (800 * (8947849 / 536870912)) := by nlinarith
    have hd0 : 0 ≤ (800 * dt) * (800 * dt) := mul_self_nonneg _
    have hu0 : 0 ≤ u.x * u.x + u.y * u.y := by
      nlinarith [mul_self_nonneg u.x, mul_self_nonneg u.y]
    rw [e]
    have := mul_le_mul hdir hd hd0 (by norm_num : (0 : ℚ) ≤ 1 + 1 / 100000)
    refine le_trans this ?_
    norm_num
  have ht := norm_add_le_sq s.velocity.x s.velocity.y (u.x * Superman.acceleration * dt)
    (u.y * Superman.acceleration * dt) (7556 / 100) (133335 / 10000) (by norm_num)
    (by norm_num) hs hw
  show (s.velocity.x + u.x * Superman.acceleration * dt) * Superman.friction *
      ((s.velocity.x + u.x * Superman.acceleration * dt) * Superman.friction) +
    (s.velocity.y + u.y * Superman.acceleration * dt) * Superman.friction *
      ((s.velocity.y + u.y * Superman.acceleration * dt) * Superman.friction) ≤
    7556 / 100 * (7556 / 100)
  simp only [Superman.friction]
  nlinarith

theorem handleInput_rest (m : Runtime) (hm : SqrtShort m) (k : Keys) (dt : ℚ)
    (s : Superman) (h0 : 0 ≤ dt) (h1 : dt ≤ frameTime)
    (hs : s.speedSq ≤ Superman.restSpeed * Superman.restSpeed) :
    (s.handleInput m k dt).speedSq ≤ Superman.restSpeed * Superman.restSpeed :=
  le_trans (handleInput_speedSq m hm k dt s).2 (frictionVelocity_rest m hm k dt s h0 h1 hs)

theorem runSupermanFrames_rest (m : Runtime) (hm : SqrtShort m) :
    ∀ (inputs : List FrameInput) (s : Superman),
      (∀ inp ∈ inputs, 0 ≤ inp.deltaTime ∧ inp.deltaTime ≤ frameTime) →
      s.speedSq ≤ Superman.restSpeed * Superman.restSpeed →
      (runSupermanFrames m inputs s).speedSq ≤ Superman.restSpeed * Superman.restSpeed := by
  intro inputs
  induction inputs with
  | nil => intro s _ hs; exact hs
  | cons inp rest ih =>
    intro s hdt hs
    obtain ⟨h0, h1⟩ := hdt inp (List.mem_cons_self _ _)
    refine ih _ (fun a ha => hdt a (List.mem_cons_of_mem _ ha)) ?_
    have := handleInput_rest m hm inp.keys inp.deltaTime s h0 h1 hs
    unfold Superman.speedSq at this ⊢
    rw [Superman.update_velocity]
    exact this

/-- C29 (amended): from rest (a newly constructed or reset player has velocity 0),
over every sequence of frames with 0 ≤ dt ≤ `frameTime` (the binary32 quotient
1.0f / 60, which covers every dt up to 1/60) and any held keys, the squared speed
after each `handleInput` is at most the square of 75.56, a bound just above the
fixed point of the recurrence with the friction 0.85f, when the square of the
square root falls short of its argument by a relative 1/100000 at most; when the
square root over-estimates by at most 1 as well, the measured speed in the next
`handleInput` is at most `MAX_SPEED = 300`, so the speed limit is not applied
and the velocity is the unclamped one. -/
theorem C29_speed_from_rest (m : Runtime) (hm : SqrtShort m) (inputs : List FrameInput)
    (s : Superman) (hrest : s.velocity = ⟨0, 0⟩)
    (hdt : ∀ inp ∈ inputs, 0 ≤ inp.deltaTime ∧ inp.deltaTime ≤ frameTime) :
    Superman.restSpeed = 7556 / 100 ∧ 1 / 60 ≤ frameTime ∧
    (∀ x y : ℚ, (Superman.new x y).velocity = ⟨0, 0⟩ ∧ (s.reset x y).velocity = ⟨0, 0⟩) ∧
    (runSupermanFrames m inputs s).speedSq ≤ Superman.restSpeed * Superman.restSpeed ∧
    (∀ (k : Keys) (dt : ℚ), 0 ≤ dt → dt ≤ frameTime →
      ((runSupermanFrames m inputs s).handleInput m k dt).speedSq ≤
        Superman.restSpeed * Superman.restSpeed ∧
      (SqrtNear m →
        m.sqrt (((runSupermanFrames m inputs s).frictionVelocity m k dt).x *
            ((runSupermanFrames m inputs s).frictionVelocity m k dt).x +
          ((runSupermanFrames m inputs s).frictionVelocity m k dt).y *
            ((runSupermanFrames m inputs s).frictionVelocity m k dt).y) ≤ Superman.MAX_SPEED ∧
        ((runSupermanFrames m inputs s).handleInput m k dt).velocity =
          (runSupermanFrames m inputs s).frictionVelocity m k dt)) := by
  have hs0 : s.speedSq ≤ Superman.restSpeed * Superman.restSpeed := by
    unfold Superman.speedSq
    rw [hrest]
    norm_num [Superman.restSpeed]
  have hrun := runSupermanFrames_rest m hm inputs s hdt hs0
  refine ⟨rfl, by norm_num [frameTime], fun x y => ⟨rfl, rfl⟩, hrun, fun k dt h0 h1 =>
    ⟨handleInput_rest m hm k dt _ h0 h1 hrun, fun hn => ?_⟩⟩
  have hf := frictionVelocity_rest m hm k dt _ h0 h1 hrun
  have hle : m.sqrt (((runSupermanFrames m inputs s).frictionVelocity m k dt).x *
        ((runSupermanFrames m inputs s).frictionVelocity m k dt).x +
      ((runSupermanFrames m inputs s).frictionVelocity m k dt).y *
        ((runSupermanFrames m inputs s).frictionVelocity m k dt).y) ≤ Superman.MAX_SPEED := by
    generalize (runSupermanFrames m inputs s).frictionVelocity m k dt = v at hf ⊢
    have hq : 0 ≤ v.x * v.x + v.y * v.y := by
      nlinarith [mul_self_nonneg v.x, mul_self_nonneg v.y]
    have hnear := hn _ hq
    generalize m.sqrt (v.x * v.x + v.y * v.y) = c at hnear ⊢
    simp only [Superman.restSpeed] at hf
    simp only [Superman.MAX_SPEED]
    rcases hnear with hc | hc
    · linarith
    · by_contra hcon
      rw [not_le] at hcon
      nlinarith
  refine ⟨hle, ?_⟩
  rw [handleInput_eq, if_neg (not_lt.mpr hle)]

theorem C29_speed_from_rest_witness :
    SqrtShort approxMath ∧ SqrtNear approxMath ∧
    (Superman.new 400 300).velocity = ⟨0, 0⟩ ∧
    (∀ inp ∈ [climbFrame, climbFrame],
      0 ≤ inp.deltaTime ∧ inp.deltaTime ≤ frameTime) ∧
    (runSupermanFrames approxMath [climbFrame, climbFrame] (Superman.new 400 300)).speedSq ≤
      Superman.restSpeed * Superman.restSpeed ∧
    ((runSupermanFrames approxMath [climbFrame, climbFrame] (Superman.new 400 300)).handleInput
        approxMath climbFrame.keys (1 / 64)).velocity =
      (runSupermanFrames approxMath [climbFrame, climbFrame]
        (Superman.new 400 300)).frictionVelocity approxMath climbFrame.keys (1 / 64) := by
  have hdt : ∀ inp ∈ [climbFrame, climbFrame],
      0 ≤ inp.deltaTime ∧ inp.deltaTime ≤ frameTime := by
    intro inp hinp
    simp only [List.mem_cons, List.mem_singleton, List.not_mem_nil, or_false, or_self] at hinp
    rw [hinp]
    exact ⟨by norm_num [climbFrame], by norm_num [climbFrame, frameTime]⟩
  have hC := C29_speed_from_rest approxMath sqrtShort_approxMath [climbFrame, climbFrame]
    (Superman.new 400 300) rfl hdt
  exact ⟨sqrtShort_approxMath, sqrtNear_approxMath, rfl, hdt, hC.2.2.2.1,
    ((hC.2.2.2.2 climbFrame.keys (1 / 64) (by norm_num)
      (by norm_num [frameTime])).2 sqrtNear_approxMath).2⟩

theorem rightStep_bounds (dt v : ℚ) (hd0 : 0 ≤ dt) (hd1 : dt ≤ 1 / 50) (h0 : 0 ≤ v)
    (h1 : v ≤ 100) : 0 ≤ rightStep dt v ∧ rightStep dt v ≤ 100 := by
  unfold rightStep
  simp only [Superman.friction]
  constructor
  · positivity
  · nlinarith

/-- With the right key held and no vertical speed, a frame of `handleInput`
applies `rightStep` to the horizontal speed. -/
theorem handleInput_right (dt : ℚ) (hd0 : 0 ≤ dt) (hd1 : dt ≤ 1 / 50) (s : Superman)
    (hy : s.velocity.y = 0) (h0 : 0 ≤ s.velocity.x) (h1 : s.velocity.x ≤ 100) :
    (s.handleInput approxMath (rightFrame dt).keys dt).velocity =
      ⟨rightStep dt s.velocity.x, 0⟩ := by
  have hraw : Superman.rawInput (rightFrame dt).keys = ⟨1, 0⟩ := by
    simp [Superman.rawInput, rightFrame]
  have h2 : approxSqrt ((1 : ℚ) * 1 + 0 * 0) = 1 := by
    rw [approxSqrt_eval ((1 : ℚ) * 1 + 0 * 0) 1000000000000 1000000 (by norm_num)
      (by norm_num) (by norm_num) (by norm_num) (by norm_num)]
    norm_num
  have hv : s.frictionVelocity approxMath (rightFrame dt).keys dt =
      ⟨rightStep dt s.velocity.x, 0⟩ := by
    unfold Superman.frictionVelocity
    rw [hraw]
    show (s.velocity.add
      (((if approxSqrt ((1 : ℚ) * 1 + 0 * 0) > 0 then
          (⟨1 / approxSqrt ((1 : ℚ) * 1 + 0 * 0), 0 / approxSqrt ((1 : ℚ) * 1 + 0 * 0)⟩ : Vec2)
        else ⟨1, 0⟩).scale Superman.acceleration).scale dt)).scale Superman.friction = _
    rw [h2, if_pos (by norm_num)]
    apply Vec2.eq_of_components
    · show (s.velocity.x + 1 / 1 * Superman.acceleration * dt) * Superman.friction =
        (s.velocity.x + 800 * dt) * Superman.friction
      simp only [Superman.acceleration]
      ring
    · show (s.velocity.y + 0 / 1 * Superman.acceleration * dt) * Superman.friction = 0
      rw [hy]
      ring
  rw [handleInput_eq, hv]
  obtain ⟨hb0, hb1⟩ := rightStep_bounds dt s.velocity.x hd0 hd1 h0 h1
  have hq : 0 ≤ rightStep dt s.velocity.x * rightStep dt s.velocity.x + 0 * 0 := by positivity
  have hsq := approxSqrt_sq_le _ hq
  have hnn := approxSqrt_nonneg (rightStep dt s.velocity.x * rightStep dt s.velocity.x + 0 * 0)
  rw [if_neg]
  rw [not_lt]
  show approxSqrt (rightStep dt s.velocity.x * rightStep dt s.velocity.x + 0 * 0) ≤ 300
  by_contra hcon
  rw [not_le] at hcon
  nlinarith

theorem runSupermanFrames_right (dt : ℚ) (hd0 : 0 ≤ dt) (hd1 : dt ≤ 1 / 50) :
    ∀ (n : Nat) (s : Superman), s.velocity.y = 0 → 0 ≤ s.velocity.x → s.velocity.x ≤ 100 →
      (runSupermanFrames approxMath (List.replicate n (rightFrame dt)) s).velocity =
        ⟨(rightStep dt)^[n] s.velocity.x, 0⟩ := by
  intro n
  induction n with
  | zero =>
    intro s hy _ _
    exact Vec2.eq_of_components rfl hy
  | succ n ih =>
    intro s hy h0 h1
    have hstep := handleInput_right dt hd0 hd1 s hy h0 h1
    obtain ⟨hb0, hb1⟩ := rightStep_bounds dt s.velocity.x hd0 hd1 h0 h1
    have hu : (s.update approxMath (rightFrame dt).keys (rightFrame dt).winW
        (rightFrame dt).winH (rightFrame dt).deltaTime).velocity =
        ⟨rightStep dt s.velocity.x, 0⟩ := by
      rw [Superman.update_velocity]
      exact hstep
    have := ih (s.update approxMath (rightFrame dt).keys (rightFrame dt).winW
        (rightFrame dt).winH (rightFrame dt).deltaTime) (by rw [hu]) (by rw [hu]; exact hb0)
        (by rw [hu]; exact hb1)
    rw [hu] at this
    rw [List.replicate_succ, Function.iterate_succ_apply]
    exact this

/-- C29 (as stated, refuted): with the friction 0.85f, a player at rest who holds
the right key for 100 frames of 1/60 s reaches a speed above 680 / 9 =
0.85 * (800 / 60) / 0.15; so does one who holds it for 100 frames of the
binary32 quotient 1.0f / 60. -/
theorem C29_counterexample :
    (Superman.new 400 300).velocity = ⟨0, 0⟩ ∧
    (runSupermanFrames approxMath (List.replicate 100 (rightFrame (1 / 60)))
      (Superman.new 400 300)).speedSq > 680 / 9 * (680 / 9) ∧
    (runSupermanFrames approxMath (List.replicate 100 (rightFrame frameTime))
      (Superman.new 400 300)).speedSq > 680 / 9 * (680 / 9) := by
  refine ⟨rfl, ?_, ?_⟩
  · unfold Superman.speedSq
    rw [runSupermanFrames_right (1 / 60) (by norm_num) (by norm_num) 100 (Superman.new 400 300)
      rfl (le_refl _) (by norm_num [Superman.new])]
    decide!
  · unfold Superman.speedSq
    rw [runSupermanFrames_right frameTime (by norm_num [frameTime])
      (by norm_num [frameTime]) 100 (Superman.new 400 300)
      rfl (le_refl _) (by norm_num [Superman.new])]
    decide!

theorem Superman.update_position (m : Runtime) (k : Keys) (w h : Nat) (dt : ℚ) (s : Superman) :
    ∃ p : Vec2, (s.update m k w h dt).position =
      ⟨max (Superman.SIZE * (1 / 2)) (min ((w : ℚ) - Superman.SIZE * (1 / 2)) p.x),
       max (Superman.SIZE * (1 / 2)) (min ((h : ℚ) - Superman.SIZE * (1 / 2)) p.y)⟩ := by
  refine ⟨(s.handleInput m k dt).position.add ((s.handleInput m k dt).velocity.scale dt), ?_⟩
  unfold Superman.update Superman.constrainToWindow Superman.updateCape
    Superman.updateAnimation
  dsimp only
  split_ifs <;> rfl

/-- C18: in a window of width W ≥ 40 and height H ≥ 40, after
`Superman::update`, for every prior state, keys and dt, the position satisfies
SIZE/2 ≤ x ≤ W - SIZE/2 and SIZE/2 ≤ y ≤ H - SIZE/2 with SIZE = 40, so the 40 by
40 bounds lie inside the playfield; the clamp leaves a position that is already
in that range unchanged. -/
theorem C18_position_inside_window (m : Runtime) (k : Keys) (w h : Nat) (dt : ℚ)
    (s : Superman) (hw : 40 ≤ w) (hh : 40 ≤ h) :
    (s.update m k w h dt).InsideWindow w h ∧
    (20 ≤ (s.update m k w h dt).position.x ∧ (s.update m k w h dt).position.x ≤ (w : ℚ) - 20 ∧
      20 ≤ (s.update m k w h dt).position.y ∧
      (s.update m k w h dt).position.y ≤ (h : ℚ) - 20) ∧
    (0 ≤ (s.update m k w h dt).getBounds.left ∧
      (s.update m k w h dt).getBounds.left + (s.update m k w h dt).getBounds.width ≤ (w : ℚ) ∧
      0 ≤ (s.update m k w h dt).getBounds.top ∧
      (s.update m k w h dt).getBounds.top + (s.update m k w h dt).getBounds.height ≤ (h : ℚ) ∧
      (s.update m k w h dt).getBounds.width = 40 ∧
      (s.update m k w h dt).getBounds.height = 40) ∧
    (s.InsideWindow w h → s.constrainToWindow w h = s) := by
  have hw1 : (40 : ℚ) ≤ (w : ℚ) := by exact_mod_cast hw
  have hh1 : (40 : ℚ) ≤ (h : ℚ) := by exact_mod_cast hh
  obtain ⟨p, hp⟩ := Superman.update_position m k w h dt s
  have hb : 20 ≤ (s.update m k w h dt).position.x ∧
      (s.update m k w h dt).position.x ≤ (w : ℚ) - 20 ∧
      20 ≤ (s.update m k w h dt).position.y ∧
      (s.update m k w h dt).position.y ≤ (h : ℚ) - 20 := by
    rw [hp]
    have e : Superman.SIZE * (1 / 2) = 20 := by norm_num [Superman.SIZE]
    simp only [e]
    exact ⟨le_max_left _ _, max_le (by linarith) (min_le_left _ _), le_max_left _ _,
      max_le (by linarith) (min_le_left _ _)⟩
  obtain ⟨b1, b2, b3, b4⟩ := hb
  refine ⟨?_, ⟨b1, b2, b3, b4⟩, ?_, ?_⟩
  · simp only [Superman.InsideWindow, Superman.SIZE]
    norm_num
    exact ⟨b1, b2, b3, b4⟩
  · simp only [Superman.getBounds, Superman.SIZE]
    norm_num
    exact ⟨b1, by linarith, b3, by linarith⟩
  · intro hin
    obtain ⟨i1, i2, i3, i4⟩ := hin
    simp only [Superman.SIZE] at i1 i2 i3 i4
    have e1 : max (Superman.SIZE * (1 / 2)) (min ((w : ℚ) - Superman.SIZE * (1 / 2))
        s.position.x) = s.position.x := by
      simp only [Superman.SIZE]
      rw [min_eq_right (by linarith), max_eq_right (by linarith)]
    have e2 : max (Superman.SIZE * (1 / 2)) (min ((h : ℚ) - Superman.SIZE * (1 / 2))
        s.position.y) = s.position.y := by
      simp only [Superman.SIZE]
      rw [min_eq_right (by linarith), max_eq_right (by linarith)]
    unfold Superman.constrainToWindow
    rw [e1, e2]

theorem C18_position_inside_window_witness :
    40 ≤ 800 ∧ 40 ≤ 600 ∧
    (strayPlayer.update approxMath slowFrame.keys 800 600 (1 / 8)).InsideWindow 800 600 ∧
    (strayPlayer.update approxMath slowFrame.keys 800 600 (1 / 8)).position = ⟨780, 580⟩ :=
  ⟨by decide, by decide,
    (C18_position_inside_window approxMath slowFrame.keys 800 600 (1 / 8) strayPlayer
      (by decide) (by decide)).1, by decide!⟩

theorem Superman.update_punchTimer (m : Runtime) (k : Keys) (w h : Nat) (dt : ℚ)
    (s : Superman) :
    (s.update m k w h dt).punchTimer =
      (if s.punchTimer > 0 then f32 (s.punchTimer - dt) else s.punchTimer) ∧
    (s.update m k w h dt).punchTarget = s.punchTarget := by
  unfold Superman.update Superman.constrainToWindow Superman.updateCape
    Superman.updateAnimation Superman.handleInput
  dsimp only
  split_ifs <;> exact ⟨rfl, rfl⟩

/-- The punch timer over frames is the binary32 countdown of its start value for
as long as it is positive, and it is positive exactly as long as the countdown
is. -/
theorem punchTimer_countdown (m : Runtime) :
    ∀ (inputs : List FrameInput) (s : Superman),
      (∀ inp ∈ inputs, 0 ≤ inp.deltaTime) →
      (0 < (runSupermanFrames m inputs s).punchTimer ↔
        0 < countdown s.punchTimer (inputs.map FrameInput.deltaTime)) ∧
      (0 < (runSupermanFrames m inputs s).punchTimer →
        (runSupermanFrames m inputs s).punchTimer =
          countdown s.punchTimer (inputs.map FrameInput.deltaTime)) ∧
      (runSupermanFrames m inputs s).punchTarget = s.punchTarget := by
  intro inputs
  induction inputs with
  | nil =>
    intro s _
    exact ⟨Iff.rfl, fun _ => rfl, rfl⟩
  | cons inp rest ih =>
    intro s hnn
    have hdt : 0 ≤ inp.deltaTime := hnn inp (List.mem_cons_self _ _)
    have hrest : ∀ i ∈ rest, 0 ≤ i.deltaTime := fun i hi => hnn i (List.mem_cons_of_mem _ hi)
    have hmap : ∀ d ∈ rest.map FrameInput.deltaTime, 0 ≤ d := by
      intro d hd
      obtain ⟨i, hi, rfl⟩ := List.mem_map.mp hd
      exact hrest i hi
    obtain ⟨ht, htar⟩ := Superman.update_punchTimer m inp.keys inp.winW inp.winH inp.deltaTime s
    obtain ⟨i1, i2, i3⟩ := ih (s.update m inp.keys inp.winW inp.winH inp.deltaTime) hrest
    have erun : runSupermanFrames m (inp :: rest) s =
        runSupermanFrames m rest (s.update m inp.keys inp.winW inp.winH inp.deltaTime) := rfl
    have ecd : countdown s.punchTimer ((inp :: rest).map FrameInput.deltaTime) =
        countdown (f32 (s.punchTimer - inp.deltaTime)) (rest.map FrameInput.deltaTime) := rfl
    rw [erun, ecd]
    by_cases hp : s.punchTimer > 0
    · rw [ht, if_pos hp] at i1 i2
      exact ⟨i1, i2, by rw [i3, htar]⟩
    · rw [ht, if_neg hp] at i1 i2
      have hle : s.punchTimer ≤ 0 := not_lt.mp hp
      have h1 : ¬ 0 < countdown s.punchTimer (rest.map FrameInput.deltaTime) :=
        not_lt.mpr (countdown_dead _ _ hmap hle)
      have h2 : ¬ 0 < countdown (f32 (s.punchTimer - inp.deltaTime))
          (rest.map FrameInput.deltaTime) :=
        not_lt.mpr (countdown_dead _ _ hmap (f32_nonpos _ (by linarith)))
      have h3 : ¬ 0 < (runSupermanFrames m rest
          (s.update m inp.keys inp.winW inp.winH inp.deltaTime)).punchTimer :=
        fun h => h1 (i1.mp h)
      exact ⟨⟨fun h => absurd h h3, fun h => absurd h h2⟩, fun h => absurd h h3,
        by rw [i3, htar]⟩

/-- C19 (amended): right after `performPunch(target)` the player is punching and
the target is recorded. `punchDuration` is the binary32 constant 0.3f =
5033165 / 16777216, and the timer is counted down in binary32, so after n
subsequent `Superman::update` calls with non-negative steps totalling t the
player is punching when t < punchDuration * (1 - n / 2^22), and is punching only
when t < punchDuration * (1 + n / 2^22) (for n up to 2^22); between the two
bounds the rounding of the subtractions decides. -/
theorem C19_punch_window (m : Runtime) (target : Vec2) (s : Superman)
    (inputs : List FrameInput) (hnn : ∀ inp ∈ inputs, 0 ≤ inp.deltaTime) :
    (s.performPunch target).isPunching = true ∧
    (s.performPunch target).punchTarget = target ∧
    Superman.punchDuration = 5033165 / 16777216 ∧
    (totalTime inputs <
        Superman.punchDuration - inputs.length * (Superman.punchDuration / 2 ^ 22) →
      (runSupermanFrames m inputs (s.performPunch target)).isPunching = true) ∧
    ((runSupermanFrames m inputs (s.performPunch target)).isPunching = true →
      inputs.length ≤ 2 ^ 22 →
      totalTime inputs <
        Superman.punchDuration + inputs.length * (Superman.punchDuration / 2 ^ 22)) ∧
    (runSupermanFrames m inputs (s.performPunch target)).punchTarget = target := by
  have h0 : (s.performPunch target).isPunching = true := by
    simp [Superman.performPunch, Superman.isPunching, Superman.punchDuration]
  have hmap : ∀ d ∈ inputs.map FrameInput.deltaTime, 0 ≤ d := by
    intro d hd
    obtain ⟨i, hi, rfl⟩ := List.mem_map.mp hd
    exact hnn i hi
  obtain ⟨c1, _, c3⟩ := punchTimer_countdown m inputs (s.performPunch target) hnn
  have hstart : (s.performPunch target).punchTimer = Superman.punchDuration := rfl
  rw [hstart] at c1
  have hL : (1 : ℚ) / 2 ^ 126 ≤ Superman.punchDuration := by
    norm_num [Superman.punchDuration]
  obtain ⟨bU, bL⟩ := countdown_bounds Superman.punchDuration hL
    (inputs.map FrameInput.deltaTime) hmap
  rw [List.length_map] at bU bL
  have hsum : (inputs.map FrameInput.deltaTime).sum = totalTime inputs := rfl
  rw [hsum] at bU bL
  have hE : (0 : ℚ) ≤ inputs.length * (Superman.punchDuration / 2 ^ 22) := by
    apply mul_nonneg (Nat.cast_nonneg _)
    norm_num [Superman.punchDuration]
  refine ⟨h0, rfl, rfl, fun hlt => ?_, fun hp hlen => ?_, c3⟩
  · simp only [Superman.isPunching, decide_eq_true_eq, gt_iff_lt]
    exact c1.mpr (lt_of_lt_of_le (by linarith) (bL hlt))
  · simp only [Superman.isPunching, decide_eq_true_eq, gt_iff_lt] at hp
    have hc := c1.mp hp
    have := bU hc hlen
    linarith

theorem C19_punch_window_witness :
    (∀ inp ∈ [idleFrame, slowFrame, slowFrame], 0 ≤ inp.deltaTime) ∧
    totalTime [idleFrame, slowFrame, slowFrame] = 17 / 64 ∧
    totalTime [idleFrame, slowFrame, slowFrame] <
      Superman.punchDuration -
        ([idleFrame, slowFrame, slowFrame].length : Nat) * (Superman.punchDuration / 2 ^ 22) ∧
    (runSupermanFrames approxMath [idleFrame, slowFrame, slowFrame]
        (strayPlayer.performPunch ⟨10, 20⟩)).isPunching = true ∧
    (runSupermanFrames approxMath [idleFrame, slowFrame, slowFrame, slowFrame]
        (strayPlayer.performPunch ⟨10, 20⟩)).isPunching = false :=
  have hnn : ∀ inp ∈ [idleFrame, slowFrame, slowFrame], 0 ≤ inp.deltaTime := by
    decide!
  have hlt : totalTime [idleFrame, slowFrame, slowFrame] <
      Superman.punchDuration -
        ([idleFrame, slowFrame, slowFrame].length : Nat) * (Superman.punchDuration / 2 ^ 22) := by
    decide!
  ⟨hnn, by decide!, hlt, (C19_punch_window approxMath ⟨10, 20⟩ strayPlayer
      [idleFrame, slowFrame, slowFrame] hnn).2.2.2.1 hlt, by decide!⟩

/-- C19 (as stated, refuted): after `performPunch`, three updates of 0.1f each
(13421773 / 134217728 s), totalling 0.3000000045 s ≥ 0.3 s, leave the player
punching; and so do two updates of 0.1f followed by one of the next binary32
value above 0.1f, which total exactly the constant `punchDuration` = 0.3f. -/
theorem C19_counterexample :
    (∀ inp ∈ tenthFrames, 0 ≤ inp.deltaTime) ∧ 3 / 10 ≤ totalTime tenthFrames ∧
    (runSupermanFrames approxMath tenthFrames
      ((Superman.new 400 300).performPunch ⟨10, 20⟩)).isPunching = true ∧
    (∀ inp ∈ tenthFramesUp, 0 ≤ inp.deltaTime) ∧
    totalTime tenthFramesUp = Superman.punchDuration ∧ 3 / 10 ≤ totalTime tenthFramesUp ∧
    (runSupermanFrames approxMath tenthFramesUp
      ((Superman.new 400 300).performPunch ⟨10, 20⟩)).isPunching = true := by
  decide!

/-! ### The trail of a projectile -/

theorem ageTrail_eq (dt : ℚ) (l : List TrailPoint) :
    Projectile.ageTrail dt l =
      (l.map (agePoint dt)).filter (fun pt => decide (0 < pt.alpha ∧ pt.age ≤ 5 / 10)) := by
  induction l with
  | nil => rfl
  | cons pt rest ih =>
    simp only [Projectile.ageTrail, List.map_cons, List.filter_cons, agePoint]
    by_cases h : 1 - (pt.age + dt) / (5 / 10) ≤ 0 ∨ pt.age + dt > 5 / 10
    · have h2 : ¬ (0 < 1 - (pt.age + dt) / (5 / 10) ∧ pt.age + dt ≤ 5 / 10) := by
        rintro ⟨a, b⟩
        rcases h with h | h
        · exact absurd a (not_lt.mpr h)
        · exact absurd b (not_le.mpr h)
      rw [if_pos h, ih, decide_eq_false h2]
      simp
    · have h2 : 0 < 1 - (pt.age + dt) / (5 / 10) ∧ pt.age + dt ≤ 5 / 10 := by
        rw [not_or] at h
        exact ⟨not_le.mp h.1, not_lt.mp h.2⟩
      rw [if_neg h, ih, decide_eq_true h2]
      simp [agePoint]

theorem Projectile.update_trail (m : Runtime) (dt : ℚ) (p : Projectile) :
    (p.update m dt).trail =
      (if p.active then
        (Projectile.ageTrail dt
          (⟨p.position.add (p.velocity.scale dt), 1, 0⟩ :: p.trail)).take
            Projectile.maxTrailPoints
      else p.trail) ∧
    (p.active = true → (p.update m dt).position = p.position.add (p.velocity.scale dt)) := by
  have ht : ∀ l : List TrailPoint,
      (if l.length > Projectile.maxTrailPoints then l.take Projectile.maxTrailPoints else l) =
        l.take Projectile.maxTrailPoints := by
    intro l
    split_ifs with h
    · rfl
    · exact (List.take_of_length_le (not_lt.mp h)).symm
  cases h : p.type <;> by_cases ha : p.active = true <;>
    simp [Projectile.update, Projectile.updateTrail, h, ha, ht]

theorem trailOK_step (dt : ℚ) (hdt : 0 ≤ dt) (pos : Vec2) (tr : List TrailPoint)
    (h : TrailOK tr) :
    (Projectile.ageTrail dt (⟨pos, 1, 0⟩ :: tr)).Pairwise (fun a b => a.age ≤ b.age) ∧
    TrailOK ((Projectile.ageTrail dt (⟨pos, 1, 0⟩ :: tr)).take Projectile.maxTrailPoints) := by
  obtain ⟨_, hsort, hpts⟩ := h
  have hs0 : (⟨pos, 1, 0⟩ :: tr : List TrailPoint).Pairwise (fun a b => a.age ≤ b.age) := by
    rw [List.pairwise_cons]
    exact ⟨fun a ha => (hpts a ha).1, hsort⟩
  have hs1 : ((⟨pos, 1, 0⟩ :: tr : List TrailPoint).map (agePoint dt)).Pairwise
      (fun a b => a.age ≤ b.age) := by
    rw [List.pairwise_map]
    exact hs0.imp (fun hab => by simp only [agePoint]; linarith)
  have hs2 : (Projectile.ageTrail dt (⟨pos, 1, 0⟩ :: tr)).Pairwise
      (fun a b => a.age ≤ b.age) := by
    rw [ageTrail_eq]
    exact hs1.filter _
  refine ⟨hs2, ?_, hs2.take, ?_⟩
  · exact List.length_take_le _ _
  · intro pt hpt
    have hmem := List.mem_of_mem_take hpt
    rw [ageTrail_eq, List.mem_filter, List.mem_map] at hmem
    obtain ⟨⟨pt0, hpt0, rfl⟩, hkeep⟩ := hmem
    simp only [agePoint, decide_eq_true_eq] at hkeep ⊢
    have h0 : 0 ≤ pt0.age := by
      rcases List.mem_cons.mp hpt0 with h1 | h1
      · rw [h1]
      · exact (hpts pt0 h1).1
    obtain ⟨hk1, hk2⟩ := hkeep
    have e : (pt0.age + dt) / (5 / 10) = (pt0.age + dt) * 2 := by ring
    rw [e] at hk1 ⊢
    exact ⟨by linarith, by linarith, trivial, hk1, by linarith⟩

theorem update_trailOK (m : Runtime) (dt : ℚ) (hdt : 0 ≤ dt) (p : Projectile)
    (h : TrailOK p.trail) : TrailOK (p.update m dt).trail := by
  rw [(Projectile.update_trail m dt p).1]
  split_ifs
  · exact (trailOK_step dt hdt _ p.trail h).2
  · exact h

theorem runUpdates_trailOK (m : Runtime) :
    ∀ (dts : List ℚ) (p : Projectile), (∀ dt ∈ dts, 0 ≤ dt) → TrailOK p.trail →
      TrailOK (runUpdates m dts p).trail := by
  intro dts
  induction dts with
  | nil => intro p _ h; exact h
  | cons dt rest ih =>
    intro p hnn h
    exact ih (p.update m dt) (fun d hd => hnn d (List.mem_cons_of_mem _ hd))
      (update_trailOK m dt (hnn dt (List.mem_cons_self _ _)) p h)

/-- C16: after every `Projectile::update` call with dt ≥ 0, for every variant,
on a projectile whose trail satisfies the invariant (a new projectile has an
empty trail), the trail holds at most maxTrailPoints = 10 points, ordered by
non-decreasing age from front to back, each with age < 0.5 and
alpha = 1 - age / 0.5 in (0, 1]; the trail is the first 10 of the points that
qualify, so the points dropped are the oldest. -/
theorem C16_trail_invariant (m : Runtime) (start target : Vec2) (ty : ProjectileType)
    (dts : List ℚ) (hnn : ∀ dt ∈ dts, 0 ≤ dt) (p : Projectile) (dt : ℚ) (hdt : 0 ≤ dt)
    (hp : TrailOK p.trail) :
    TrailOK (runUpdates m dts (Projectile.new m start target ty)).trail ∧
    TrailOK (p.update m dt).trail ∧
    (p.active = true →
      (p.update m dt).trail =
        (Projectile.ageTrail dt (⟨(p.update m dt).position, 1, 0⟩ :: p.trail)).take 10 ∧
      ∀ a ∈ (Projectile.ageTrail dt (⟨(p.update m dt).position, 1, 0⟩ :: p.trail)).take 10,
        ∀ b ∈ (Projectile.ageTrail dt (⟨(p.update m dt).position, 1, 0⟩ :: p.trail)).drop 10,
          a.age ≤ b.age) ∧
    Projectile.maxTrailPoints = 10 := by
  refine ⟨runUpdates_trailOK m dts _ hnn ?_, update_trailOK m dt hdt p hp, ?_, rfl⟩
  · exact ⟨Nat.zero_le _, List.Pairwise.nil, fun pt h => absurd h (List.not_mem_nil _)⟩
  · intro ha
    obtain ⟨ht, hpos⟩ := Projectile.update_trail m dt p
    rw [hpos ha]
    have hs := (trailOK_step dt hdt (p.position.add (p.velocity.scale dt)) p.trail hp).1
    refine ⟨by rw [ht, if_pos ha]; rfl, ?_⟩
    intro a ha1 b hb1
    rw [← List.take_append_drop 10 (Projectile.ageTrail dt
      (⟨p.position.add (p.velocity.scale dt), 1, 0⟩ :: p.trail)), List.pairwise_append] at hs
    exact hs.2.2 a ha1 b hb1

theorem C16_trail_invariant_witness :
    (∀ dt ∈ [(1 / 64 : ℚ), 1 / 64, 1 / 8], 0 ≤ dt) ∧ (0 : ℚ) ≤ 1 / 64 ∧
    TrailOK sampleLaser.trail ∧
    TrailOK (runUpdates approxMath [1 / 64, 1 / 64, 1 / 8]
      (Projectile.new approxMath ⟨400, 300⟩ ⟨400, 300⟩ ProjectileType.SuperPunch)).trail ∧
    TrailOK (sampleLaser.update approxMath (1 / 64)).trail ∧
    (sampleLaser.update approxMath (1 / 64)).trail = [⟨⟨6525 / 16, 300⟩, 31 / 32, 1 / 64⟩] :=
  have hnn : ∀ dt ∈ [(1 / 64 : ℚ), 1 / 64, 1 / 8], 0 ≤ dt := by decide!
  have h0 : TrailOK sampleLaser.trail :=
    ⟨Nat.zero_le _, List.Pairwise.nil, fun pt h => absurd h (List.not_mem_nil _)⟩
  have hC := C16_trail_invariant approxMath ⟨400, 300⟩ ⟨400, 300⟩ ProjectileType.SuperPunch
    [1 / 64, 1 / 64, 1 / 8] hnn sampleLaser (1 / 64) (by norm_num) h0
  ⟨hnn, by norm_num, h0, hC.1, hC.2.1, by decide!⟩

/-! ### The projectile pass of a frame -/

theorem updateProjectiles_eq (m : Runtime) (dt : ℚ) (ps : List Projectile) :
    Game.updateProjectiles m dt ps =
      (ps.map (fun p => p.update m dt)).filter
        (fun p => p.isActive && !p.isOffScreen Game.WINDOW_WIDTH Game.WINDOW_HEIGHT) := by
  induction ps with
  | nil => rfl
  | cons p rest ih =>
    simp only [Game.updateProjectiles, List.map_cons, List.filter_cons, ih]
    cases (p.update m dt).isActive <;>
      cases (p.update m dt).isOffScreen Game.WINDOW_WIDTH Game.WINDOW_HEIGHT <;> simp

theorem Projectile.update_lifetime (m : Runtime) (dt : ℚ) (p : Projectile)
    (ha : p.active = true) :
    (p.update m dt).lifetime = f32 (p.lifetime - dt) ∧
    ((p.update m dt).isActive = true ↔ 0 < (p.update m dt).lifetime) := by
  cases h : p.type <;>
    simp [Projectile.update, Projectile.updateTrail, Projectile.isActive, h, ha]

theorem Projectile.onScreen_iff (p : Projectile) :
    p.isOffScreen Game.WINDOW_WIDTH Game.WINDOW_HEIGHT = false ↔
      (-p.size ≤ p.position.x ∧ p.position.x ≤ 800 + p.size ∧
        -p.size ≤ p.position.y ∧ p.position.y ≤ 600 + p.size) := by
  simp only [Projectile.isOffScreen, Game.WINDOW_WIDTH, Game.WINDOW_HEIGHT, Bool.or_eq_false_iff,
    decide_eq_false_iff_not, not_lt, gt_iff_lt]
  norm_num
  tauto

theorem runPasses_lifetime (m : Runtime) :
    ∀ (dts : List ℚ) (ps : List Projectile) (l : ℚ), 0 < l →
      (∀ q ∈ ps, q.active = true ∧ q.lifetime = l) →
      ∀ q ∈ runPasses m dts ps,
        q.active = true ∧ q.lifetime = countdown l dts ∧ 0 < q.lifetime := by
  intro dts
  induction dts with
  | nil =>
    intro ps l hl h q hq
    have := h q hq
    exact ⟨this.1, this.2, by rw [this.2]; exact hl⟩
  | cons dt rest ih =>
    intro ps l hl h q hq
    by_cases hpos : 0 < f32 (l - dt)
    · have h1 : ∀ q1 ∈ Game.updateProjectiles m dt ps,
          q1.active = true ∧ q1.lifetime = f32 (l - dt) := by
        intro q1 hq1
        rw [updateProjectiles_eq, List.mem_filter, List.mem_map] at hq1
        obtain ⟨⟨q0, hq0, rfl⟩, hk⟩ := hq1
        simp only [Bool.and_eq_true] at hk
        have hl0 := (Projectile.update_lifetime m dt q0 (h q0 hq0).1).1
        exact ⟨hk.1, by rw [hl0, (h q0 hq0).2]⟩
      exact ih (Game.updateProjectiles m dt ps) (f32 (l - dt)) hpos h1 q hq
    · have hnil : Game.updateProjectiles m dt ps = [] := by
        rw [updateProjectiles_eq, List.filter_eq_nil_iff]
        intro q1 hq1
        rw [List.mem_map] at hq1
        obtain ⟨q0, hq0, rfl⟩ := hq1
        obtain ⟨hl0, hact⟩ := Projectile.update_lifetime m dt q0 (h q0 hq0).1
        intro hk
        simp only [Bool.and_eq_true] at hk
        have := hact.mp hk.1
        rw [hl0, (h q0 hq0).2] at this
        exact hpos this
      have hempty : ∀ ds : List ℚ, runPasses m ds [] = [] := by
        intro ds
        induction ds with
        | nil => rfl
        | cons d r ihd => simpa [runPasses, Game.updateProjectiles] using ihd
      have : runPasses m (dt :: rest) ps = [] := by
        simp only [runPasses, List.foldl_cons, hnil]
        exact hempty rest
      rw [this] at hq
      exact absurd hq (List.not_mem_nil _)

theorem collideProjectiles_subset (m : Runtime) :
    ∀ (ps : List Projectile) (g : Game), ∀ q ∈ (Game.collideProjectiles m ps g).1, q ∈ ps := by
  intro ps
  induction ps with
  | nil => intro g q hq; simp [Game.collideProjectiles] at hq
  | cons p rest ih =>
    intro g q hq
    cases hs : Game.scanGhosts p.getBounds g.ghosts with
    | none =>
      simp only [Game.collideProjectiles, hs, List.mem_cons] at hq
      rcases hq with h | h
      · rw [h]; exact List.mem_cons_self _ _
      · exact List.mem_cons_of_mem _ (ih g q h)
    | some res =>
      simp only [Game.collideProjectiles, hs] at hq
      exact List.mem_cons_of_mem _ (ih _ q hq)

theorem afterCollisions_projectiles (m : Runtime) (inp : FrameInput) (g : Game) :
    ∀ q ∈ (Game.afterCollisions m inp g).projectiles,
      q ∈ Game.updateProjectiles m inp.deltaTime g.projectiles := by
  intro q hq
  have hcp := contactPass_spec m
    (Game.checkProjectileCollisions m (Game.updateEntities m inp g)).superman.getBounds
    (Game.checkProjectileCollisions m (Game.updateEntities m inp g)).ghosts
    (Game.checkProjectileCollisions m (Game.updateEntities m inp g))
  have e : (Game.afterCollisions m inp g).projectiles =
      (Game.checkProjectileCollisions m (Game.updateEntities m inp g)).projectiles :=
    hcp.2.2.2.2.1
  rw [e] at hq
  exact collideProjectiles_subset m (Game.updateProjectiles m inp.deltaTime g.projectiles)
    (Game.updateEntities m inp g) q hq

theorem updatePlaying_projectiles (m : Runtime) (fuel : Nat) (inp : FrameInput) (g g1 : Game)
    (h : Game.updatePlaying m fuel inp g = some g1) :
    ∀ q ∈ g1.projectiles, q ∈ Game.updateProjectiles m inp.deltaTime g.projectiles := by
  have hfin : ∀ c, (Game.finishFrame inp c).projectiles = c.projectiles := by
    intro c
    unfold Game.finishFrame Game.gameOver
    dsimp only
    split_ifs <;> rfl
  by_cases he : (Game.afterCollisions m inp g).ghosts = []
  · rw [(updatePlaying_cases m fuel inp g).1 he] at h
    cases hn : Game.nextLevel m fuel (Game.afterCollisions m inp g) with
    | none => simp [hn] at h
    | some g2 =>
      simp only [hn, Option.map_some', Option.some.injEq] at h
      subst h
      rw [hfin, (nextLevel_some m fuel _ g2 hn).2.2.2.2.1]
      exact afterCollisions_projectiles m inp g
  · rw [(updatePlaying_cases m fuel inp g).2 he] at h
    simp only [Option.some.injEq] at h
    subst h
    rw [hfin]
    exact afterCollisions_projectiles m inp g

theorem handlePlayingInput_projectiles (m : Runtime) (mouseX mouseY : Int) (event : Event)
    (g : Game) (hact : ∀ q ∈ g.projectiles, q.active = true) :
    ∀ q ∈ (Game.handlePlayingInput m mouseX mouseY event g).projectiles, q.active = true := by
  cases event with
  | Closed => exact hact
  | Other => exact hact
  | KeyPressed code =>
    cases code with
    | Space =>
      intro q hq
      have hq1 : q ∈ g.projectiles ++ [Projectile.new m g.superman.position
          ⟨(mouseX : ℚ), (mouseY : ℚ)⟩ ProjectileType.Laser] := hq
      rcases List.mem_append.mp hq1 with h | h
      · exact hact q h
      · rw [List.mem_singleton.mp h]; rfl
    | Escape => exact hact
    | Enter => exact hact
    | Other => exact hact
  | MouseButtonPressed button x y =>
    cases button with
    | Other => exact hact
    | Left =>
      have hp : (g.superman.performPunch ⟨(x : ℚ), (y : ℚ)⟩).isPunching = true := by
        simp [Superman.performPunch, Superman.isPunching, Superman.punchDuration]
      have h := punchGhosts_spec m g.ghosts
        { g with superman := g.superman.performPunch ⟨(x : ℚ), (y : ℚ)⟩ } hp
      have e : (Game.handlePlayingInput m mouseX mouseY
          (Event.MouseButtonPressed MouseButton.Left x y) g).projectiles = g.projectiles := by
        simp only [Game.handlePlayingInput, reduceCtorEq, if_false]
        exact h.2.2.2.2.2.1
      rw [e]
      exact hact

/-- C17 (amended): the projectile pass of `updatePlaying` updates every projectile
and keeps exactly those that are then active and not off screen; for a
projectile that was active before (as every projectile of the collection is),
that is: remaining lifetime above 0 and position within `[-size, W + size]` by
`[-size, H + size]`. The remaining lifetime is a binary32 variable from which
each dt is subtracted with rounding: a new projectile of lifetime L (Laser 3,
SuperPunch 1, BossAttack 5) still in the collection after n ≤ 2^22 frames of
non-negative dt of total time t has remaining lifetime `countdown L dts` and
t < L + n * L / 2^22, and every projectile left by the pass, hence by the frame,
is active and not off screen; the input events keep every projectile of the
collection active. -/
theorem C17_projectile_survival (m : Runtime) (dt : ℚ) (ps : List Projectile)
    (p : Projectile) (start target : Vec2) (ty : ProjectileType) (dts : List ℚ) (fuel : Nat)
    (inp : FrameInput) (g : Game) (mouseX mouseY : Int) (event : Event) :
    Game.updateProjectiles m dt ps =
      (ps.map (fun q => q.update m dt)).filter
        (fun q => q.isActive && !q.isOffScreen Game.WINDOW_WIDTH Game.WINDOW_HEIGHT) ∧
    (p.active = true →
      (((p.update m dt).isActive &&
          !(p.update m dt).isOffScreen Game.WINDOW_WIDTH Game.WINDOW_HEIGHT) = true ↔
        (p.update m dt).Survives)) ∧
    (∀ q ∈ Game.updateProjectiles m dt ps,
      q.isActive = true ∧ q.isOffScreen Game.WINDOW_WIDTH Game.WINDOW_HEIGHT = false) ∧
    (∀ q ∈ runPasses m dts [Projectile.new m start target ty],
      q.lifetime = countdown (Projectile.maxLifetimeOf ty) dts ∧ 0 < q.lifetime) ∧
    (runPasses m dts [Projectile.new m start target ty] ≠ [] →
      (∀ d ∈ dts, 0 ≤ d) → dts.length ≤ 2 ^ 22 →
      dts.sum < Projectile.maxLifetimeOf ty +
        dts.length * (Projectile.maxLifetimeOf ty / 2 ^ 22)) ∧
    (Projectile.new m start target ty).active = true ∧
    Projectile.maxLifetimeOf ProjectileType.Laser = 3 ∧
    Projectile.maxLifetimeOf ProjectileType.SuperPunch = 1 ∧
    Projectile.maxLifetimeOf ProjectileType.BossAttack = 5 ∧
    (∀ g1, Game.updatePlaying m fuel inp g = some g1 → ∀ q ∈ g1.projectiles,
      q.isActive = true ∧ q.isOffScreen Game.WINDOW_WIDTH Game.WINDOW_HEIGHT = false) ∧
    ((∀ q ∈ g.projectiles, q.active = true) →
      ∀ q ∈ (Game.handlePlayingInput m mouseX mouseY event g).projectiles, q.active = true) := by
  have hleft : ∀ q ∈ Game.updateProjectiles m inp.deltaTime g.projectiles,
      q.isActive = true ∧ q.isOffScreen Game.WINDOW_WIDTH Game.WINDOW_HEIGHT = false := by
    intro q hq
    rw [updateProjectiles_eq, List.mem_filter] at hq
    simpa using hq.2
  have hL : 0 < Projectile.maxLifetimeOf ty := by cases ty <;> simp [Projectile.maxLifetimeOf]
  have hL1 : 1 / 2 ^ 126 ≤ Projectile.maxLifetimeOf ty := by
    cases ty <;> norm_num [Projectile.maxLifetimeOf]
  have hrun := runPasses_lifetime m dts [Projectile.new m start target ty]
    (Projectile.maxLifetimeOf ty) hL
    (fun q0 h0 => by rw [List.mem_singleton.mp h0]; exact ⟨rfl, rfl⟩)
  refine ⟨updateProjectiles_eq m dt ps, ?_, ?_, fun q hq => (hrun q hq).2, ?_,
    rfl, rfl, rfl, rfl,
    fun g1 h q hq => hleft q (updatePlaying_projectiles m fuel inp g g1 h q hq),
    handlePlayingInput_projectiles m mouseX mouseY event g⟩
  · intro ha
    obtain ⟨_, hact⟩ := Projectile.update_lifetime m dt p ha
    have hon := Projectile.onScreen_iff (p.update m dt)
    simp only [Bool.and_eq_true, Bool.not_eq_true', Projectile.Survives]
    rw [hact, hon]
  · intro q hq
    rw [updateProjectiles_eq, List.mem_filter] at hq
    simpa using hq.2
  · intro hne hnn hlen
    obtain ⟨q, hq⟩ := List.exists_mem_of_ne_nil _ hne
    obtain ⟨_, hlife, hpos⟩ := hrun q hq
    rw [hlife] at hpos
    have := (countdown_bounds (Projectile.maxLifetimeOf ty) hL1 dts hnn).1 hpos hlen
    linarith

theorem C17_projectile_survival_witness :
    sampleLaser.active = true ∧
    (((sampleLaser.update approxMath (1 / 64)).isActive &&
        !(sampleLaser.update approxMath (1 / 64)).isOffScreen Game.WINDOW_WIDTH
          Game.WINDOW_HEIGHT) = true ↔
      (sampleLaser.update approxMath (1 / 64)).Survives) ∧
    (Game.updateProjectiles approxMath (1 / 64) [sampleLaser]).length = 1 ∧
    runPasses approxMath [1 / 2, 1 / 2] [sampleLaser] = [] ∧
    (runPasses approxMath [1 / 64, 1 / 64]
      [Projectile.new approxMath ⟨400, 300⟩ ⟨400, 300⟩ ProjectileType.Laser] ≠ [] ∧
      ((1 : ℚ) / 64 + 1 / 64 <
        Projectile.maxLifetimeOf ProjectileType.Laser +
          2 * (Projectile.maxLifetimeOf ProjectileType.Laser / 2 ^ 22))) :=
  ⟨rfl, (C17_projectile_survival approxMath (1 / 64) [sampleLaser] sampleLaser ⟨400, 300⟩
      ⟨401, 300⟩ ProjectileType.Laser [1 / 64] 1 idleFrame contactGame 0 0
      Event.Other).2.1 rfl, by decide!, by decide!, by decide!, by norm_num [Projectile.maxLifetimeOf]⟩

/-- C17 (as stated, refuted): a Laser (lifetime 3 s) created with equal start and
target is still in the collection after 180 projectile passes of the binary32
frame time 1.0f / 60, whose total is 3 s or more: the rounded subtractions leave
a remaining lifetime above 0. -/
theorem C17_counterexample :
    Projectile.maxLifetimeOf ProjectileType.Laser = 3 ∧
    3 ≤ (List.replicate 180 frameTime).sum ∧
    runPasses approxMath (List.replicate 180 frameTime)
      [Projectile.new approxMath ⟨400, 300⟩ ⟨400, 300⟩ ProjectileType.Laser] ≠ [] := by
  decide!

/-! ### The particle pool and its capacity -/

theorem PoolGrows.refl (a : ParticleSystem × Nat) : PoolGrows a a :=
  ⟨⟨[], by simp⟩, rfl, rfl, fun h => h, fun _ => rfl⟩

theorem PoolGrows.trans {a b c : ParticleSystem × Nat} (h1 : PoolGrows a b)
    (h2 : PoolGrows b c) : PoolGrows a c := by
  obtain ⟨⟨ad1, e1⟩, m1, c1, k1, f1⟩ := h1
  obtain ⟨⟨ad2, e2⟩, m2, c2, k2, f2⟩ := h2
  have hcap : b.1.capacity = a.1.capacity := by
    unfold ParticleSystem.capacity; rw [m1]
  rw [hcap] at k2 f2
  refine ⟨⟨ad1 ++ ad2, by rw [e2, e1, List.append_assoc]⟩, by rw [m2, m1], by rw [c2, c1],
    fun h => k2 (k1 h), fun h => ?_⟩
  have hb := f1 h
  rw [hb] at f2
  exact f2 h

theorem addParticle_grows (m : Runtime) (position velocity : Vec2) (color : Color)
    (lifetime size : ℚ) (type : ParticleType) (ps : ParticleSystem) (k k1 : Nat) :
    PoolGrows (ps, k)
      (ParticleSystem.addParticle m position velocity color lifetime size type (ps, k1)) := by
  unfold ParticleSystem.addParticle
  dsimp only
  split_ifs with h
  · refine ⟨⟨_, rfl⟩, rfl, rfl, fun _ => ?_, fun hc => ?_⟩
    · simp only [ParticleSystem.capacity, List.length_append, List.length_singleton]
      push_cast
      omega
    · exact absurd h (not_lt.mpr hc)
  · exact ⟨⟨[], by simp⟩, rfl, rfl, fun h0 => h0, fun _ => rfl⟩

theorem foldl_grows (f : ParticleSystem × Nat → Nat → ParticleSystem × Nat)
    (hf : ∀ st i, PoolGrows st (f st i)) :
    ∀ (idxs : List Nat) (st : ParticleSystem × Nat), PoolGrows st (idxs.foldl f st) := by
  intro idxs
  induction idxs with
  | nil => intro st; exact PoolGrows.refl st
  | cons i rest ih => intro st; exact (hf st i).trans (ih (f st i))

theorem addExplosion_grows (m : Runtime) (position : Vec2) (n : Int)
    (st : ParticleSystem × Nat) :
    PoolGrows st (ParticleSystem.addExplosion m position n st) :=
  foldl_grows _ (fun s _ => addParticle_grows m _ _ _ _ _ _ s.1 s.2 _) _ st

theorem addLaserEffect_grows (m : Runtime) (position : Vec2) (n : Int)
    (st : ParticleSystem × Nat) :
    PoolGrows st (ParticleSystem.addLaserEffect m position n st) :=
  foldl_grows _ (fun s _ => addParticle_grows m _ _ _ _ _ _ s.1 s.2 _) _ st

theorem addPunchEffect_grows (m : Runtime) (position : Vec2) (n : Int)
    (st : ParticleSystem × Nat) :
    PoolGrows st (ParticleSystem.addPunchEffect m position n st) :=
  foldl_grows _ (fun s _ => addParticle_grows m _ _ _ _ _ _ s.1 s.2 _) _ st

theorem addDamageEffect_grows (m : Runtime) (position : Vec2) (n : Int)
    (st : ParticleSystem × Nat) :
    PoolGrows st (ParticleSystem.addDamageEffect m position n st) :=
  foldl_grows _ (fun s _ => addParticle_grows m _ _ _ _ _ _ s.1 s.2 _) _ st

theorem addLevelCompleteEffect_grows (m : Runtime) (position : Vec2) (n : Int)
    (st : ParticleSystem × Nat) :
    PoolGrows st (ParticleSystem.addLevelCompleteEffect m position n st) :=
  foldl_grows _ (fun s _ => addParticle_grows m _ _ _ _ _ _ s.1 s.2 _) _ st

theorem addSmokeEffect_grows (m : Runtime) (position : Vec2) (n : Int)
    (st : ParticleSystem × Nat) :
    PoolGrows st (ParticleSystem.addSmokeEffect m position n st) :=
  foldl_grows _ (fun s _ => addParticle_grows m _ _ _ _ _ _ s.1 s.2 _) _ st

theorem addSparkEffect_grows (m : Runtime) (position direction : Vec2) (n : Int)
    (st : ParticleSystem × Nat) :
    PoolGrows st (ParticleSystem.addSparkEffect m position direction n st) :=
  foldl_grows _ (fun s _ => addParticle_grows m _ _ _ _ _ _ s.1 s.2 _) _ st

theorem stepEffects_grows (m : Runtime) (dt : ℚ) :
    ∀ (effs : List ContinuousEffect) (st : ParticleSystem × Nat),
      PoolGrows st (ParticleSystem.stepEffects m dt effs st).2 := by
  intro effs
  induction effs with
  | nil => intro st; exact PoolGrows.refl st
  | cons e rest ih =>
    intro st
    have hspawn : PoolGrows st
        (match e.type with
          | .Smoke => ParticleSystem.addSmokeEffect m e.position 2 st
          | .Spark => ParticleSystem.addSparkEffect m e.position ⟨0, -1⟩ 1 st
          | _ => st) := by
      cases e.type
      case Smoke => exact addSmokeEffect_grows m _ _ st
      case Spark => exact addSparkEffect_grows m _ _ _ st
      all_goals exact PoolGrows.refl st
    simp only [ParticleSystem.stepEffects]
    split_ifs
    · exact hspawn.trans (ih _)
    · exact hspawn.trans (ih _)
    · exact ih _
    · exact ih _

theorem update_pool (m : Runtime) (dt : ℚ) (st : ParticleSystem × Nat) :
    (∃ added, (ParticleSystem.update m dt st).1.particles =
      (st.1.particles.map (ParticleSystem.updateParticle dt)).filter
        (fun p => !decide (p.life ≤ 0)) ++ added) ∧
    (ParticleSystem.update m dt st).1.maxParticles = st.1.maxParticles ∧
    ((st.1.particles.length : Int) ≤ st.1.capacity →
      ((ParticleSystem.update m dt st).1.particles.length : Int) ≤ st.1.capacity) ∧
    ∀ p ∈ (ParticleSystem.update m dt st).1.particles, 0 < p.life := by
  have hg := stepEffects_grows m dt st.1.continuousEffects
    ({ st.1 with particles := st.1.particles.map (ParticleSystem.updateParticle dt) }, st.2)
  obtain ⟨⟨added, hadd⟩, hmax, _, hcap, _⟩ := hg
  dsimp only at hadd hmax hcap
  have hparts : (ParticleSystem.update m dt st).1.particles =
      ((ParticleSystem.stepEffects m dt st.1.continuousEffects
        ({ st.1 with particles := st.1.particles.map (ParticleSystem.updateParticle dt) },
          st.2)).2.1.particles).filter (fun p => !decide (p.life ≤ 0)) := rfl
  have hmax2 : (ParticleSystem.update m dt st).1.maxParticles =
      (ParticleSystem.stepEffects m dt st.1.continuousEffects
        ({ st.1 with particles := st.1.particles.map (ParticleSystem.updateParticle dt) },
          st.2)).2.1.maxParticles := rfl
  refine ⟨⟨added.filter (fun p => !decide (p.life ≤ 0)), ?_⟩, ?_, ?_, ?_⟩
  · rw [hparts, hadd, List.filter_append]
  · rw [hmax2, hmax]
  · intro h
    rw [hparts]
    have hlen : ((st.1.particles.map (ParticleSystem.updateParticle dt)).length : Int) ≤
        intToSizeT st.1.maxParticles := by
      rw [List.length_map]; exact h
    have h1 : (((ParticleSystem.stepEffects m dt st.1.continuousEffects
        ({ st.1 with particles := st.1.particles.map (ParticleSystem.updateParticle dt) },
          st.2)).2.1.particles.length : Nat) : Int) ≤ intToSizeT st.1.maxParticles := hcap hlen
    have h2 := List.length_filter_le (fun p : Particle => !decide (p.life ≤ 0))
      (ParticleSystem.stepEffects m dt st.1.continuousEffects
        ({ st.1 with particles := st.1.particles.map (ParticleSystem.updateParticle dt) },
          st.2)).2.1.particles
    exact le_trans (by exact_mod_cast h2) h1
  · intro p hp
    rw [hparts, List.mem_filter] at hp
    simpa using hp.2

theorem PoolOp.run_capacity (m : Runtime) (op : PoolOp) (st : ParticleSystem × Nat)
    (h : (st.1.particles.length : Int) ≤ st.1.capacity) :
    ((op.run m st).1.particles.length : Int) ≤ (op.run m st).1.capacity ∧
    (op.run m st).1.maxParticles = st.1.maxParticles := by
  have hof : ∀ st1, PoolGrows st st1 →
      ((st1.1.particles.length : Int) ≤ st1.1.capacity ∧
        st1.1.maxParticles = st.1.maxParticles) := by
    intro st1 hg
    obtain ⟨_, hmax, _, hcap, _⟩ := hg
    exact ⟨by unfold ParticleSystem.capacity at hcap ⊢; rw [hmax]; exact hcap h, hmax⟩
  cases op with
  | addExplosion p n => exact hof _ (addExplosion_grows m p n st)
  | addLaserEffect p n => exact hof _ (addLaserEffect_grows m p n st)
  | addPunchEffect p n => exact hof _ (addPunchEffect_grows m p n st)
  | addDamageEffect p n => exact hof _ (addDamageEffect_grows m p n st)
  | addLevelCompleteEffect p n => exact hof _ (addLevelCompleteEffect_grows m p n st)
  | addSmokeEffect p n => exact hof _ (addSmokeEffect_grows m p n st)
  | addSparkEffect p d n => exact hof _ (addSparkEffect_grows m p d n st)
  | addContinuousEffect p t d => exact ⟨h, rfl⟩
  | update dt =>
    obtain ⟨_, hmax, hcap, _⟩ := update_pool m dt st
    refine ⟨?_, hmax⟩
    show ((ParticleSystem.update m dt st).1.particles.length : Int) ≤
      intToSizeT (ParticleSystem.update m dt st).1.maxParticles
    rw [hmax]
    exact hcap h
  | clear =>
    refine ⟨?_, rfl⟩
    simp only [PoolOp.run, ParticleSystem.clear, ParticleSystem.capacity, intToSizeT,
      List.length_nil, Nat.cast_zero]
    exact Int.emod_nonneg _ (by norm_num)

theorem runPoolOps_capacity (m : Runtime) :
    ∀ (ops : List PoolOp) (st : ParticleSystem × Nat),
      (st.1.particles.length : Int) ≤ st.1.capacity →
      ((runPoolOps m ops st).1.particles.length : Int) ≤ (runPoolOps m ops st).1.capacity ∧
      (runPoolOps m ops st).1.maxParticles = st.1.maxParticles := by
  intro ops
  induction ops with
  | nil => intro st h; exact ⟨h, rfl⟩
  | cons op rest ih =>
    intro st h
    obtain ⟨h1, h2⟩ := PoolOp.run_capacity m op st h
    obtain ⟨h3, h4⟩ := ih (op.run m st) h1
    exact ⟨h3, by rw [← h2, ← h4]; rfl⟩

/-- C15: with the capacity fixed, after every sequence of particle-system
operations (the seven effect requests, `addContinuousEffect`, `update`, `clear`)
on a pool within its capacity (the new pool is empty, with capacity 1000) the
number of pooled particles is at most the capacity; a creation request made
while the pool is at its capacity returns the particle system unchanged. -/
theorem C15_pool_never_exceeds_capacity (m : Runtime) (ops : List PoolOp)
    (st : ParticleSystem × Nat) (hst : (st.1.particles.length : Int) ≤ st.1.capacity)
    (k : Nat) (op : PoolOp) (hop : op.IsCreation) :
    (((runPoolOps m ops st).1.particles.length : Int) ≤ st.1.capacity ∧
      (runPoolOps m ops st).1.maxParticles = st.1.maxParticles) ∧
    (((runPoolOps m ops (ParticleSystem.new, k)).1.particles.length : Int) ≤ 1000) ∧
    (st.1.capacity ≤ (st.1.particles.length : Int) → (op.run m st).1 = st.1) ∧
    (ParticleSystem.new.capacity = 1000 ∧ ParticleSystem.new.particles = []) := by
  have h1 := runPoolOps_capacity m ops st hst
  have hnew : ((ParticleSystem.new, k) : ParticleSystem × Nat).1.capacity = 1000 := by
    simp [ParticleSystem.capacity, ParticleSystem.new, intToSizeT]
  have h2 := runPoolOps_capacity m ops (ParticleSystem.new, k)
    (by rw [hnew]; simp [ParticleSystem.new])
  refine ⟨⟨?_, h1.2⟩, ?_, ?_, hnew, rfl⟩
  · have := h1.1
    unfold ParticleSystem.capacity at this ⊢
    rw [h1.2] at this
    exact this
  · have := h2.1
    unfold ParticleSystem.capacity at this
    rw [h2.2] at this
    simpa [ParticleSystem.new, intToSizeT] using this
  · intro hfull
    cases op with
    | addExplosion p n => exact (addExplosion_grows m p n st).2.2.2.2 hfull
    | addLaserEffect p n => exact (addLaserEffect_grows m p n st).2.2.2.2 hfull
    | addPunchEffect p n => exact (addPunchEffect_grows m p n st).2.2.2.2 hfull
    | addDamageEffect p n => exact (addDamageEffect_grows m p n st).2.2.2.2 hfull
    | addLevelCompleteEffect p n => exact (addLevelCompleteEffect_grows m p n st).2.2.2.2 hfull
    | addSmokeEffect p n => exact (addSmokeEffect_grows m p n st).2.2.2.2 hfull
    | addSparkEffect p d n => exact (addSparkEffect_grows m p d n st).2.2.2.2 hfull
    | addContinuousEffect p t d => exact absurd hop (by simp [PoolOp.IsCreation])
    | update dt => exact absurd hop (by simp [PoolOp.IsCreation])
    | clear => exact absurd hop (by simp [PoolOp.IsCreation])

theorem C15_pool_never_exceeds_capacity_witness :
    ((smallPool, 0).1.particles.length : Int) ≤ (smallPool, 0).1.capacity ∧
    (PoolOp.addSmokeEffect ⟨10, 10⟩ 2).IsCreation ∧
    ((runPoolOps approxMath
        [PoolOp.addExplosion ⟨100, 100⟩ 20, PoolOp.update (1 / 64),
          PoolOp.addDamageEffect ⟨5, 5⟩ 10] (smallPool, 0)).1.particles.length : Int) ≤
      (smallPool, 0).1.capacity ∧
    (runPoolOps approxMath
        [PoolOp.addExplosion ⟨100, 100⟩ 20, PoolOp.update (1 / 64),
          PoolOp.addDamageEffect ⟨5, 5⟩ 10] (smallPool, 0)).1.particles.length = 3 :=
  have h0 : ((smallPool, 0).1.particles.length : Int) ≤ (smallPool, 0).1.capacity := by
    decide!
  ⟨h0, trivial,
    (C15_pool_never_exceeds_capacity approxMath
      [PoolOp.addExplosion ⟨100, 100⟩ 20, PoolOp.update (1 / 64),
        PoolOp.addDamageEffect ⟨5, 5⟩ 10] (smallPool, 0) h0 0
      (PoolOp.addSmokeEffect ⟨10, 10⟩ 2) trivial).1.1, by decide!⟩

/-! ### The fade of a particle -/

theorem updateParticle_life (dt : ℚ) (p : Particle) :
    (ParticleSystem.updateParticle dt p).life = f32 (p.life - dt) ∧
    (ParticleSystem.updateParticle dt p).maxLife = p.maxLife ∧
    (0 < f32 (p.life - dt) →
      (ParticleSystem.updateParticle dt p).color.a =
        floatToUint8 (f32 (255 * f32 (f32 (p.life - dt) / p.maxLife)))) := by
  unfold ParticleSystem.updateParticle
  dsimp only
  split_ifs with h1 h2
  · exact ⟨rfl, rfl, fun h => absurd h1 (not_le.mpr h)⟩
  · exact ⟨rfl, rfl, fun _ => rfl⟩
  · exact ⟨rfl, rfl, fun _ => rfl⟩

theorem evolveParticle_life :
    ∀ (dts : List ℚ) (p : Particle),
      (evolveParticle dts p).life = countdown p.life dts ∧
      (evolveParticle dts p).maxLife = p.maxLife := by
  intro dts
  induction dts with
  | nil => intro p; simp [evolveParticle, countdown]
  | cons dt rest ih =>
    intro p
    have h := ih (ParticleSystem.updateParticle dt p)
    obtain ⟨h1, h2, _⟩ := updateParticle_life dt p
    simp only [evolveParticle, countdown, List.foldl_cons] at h ⊢
    rw [h.1, h.2, h1, h2]
    exact ⟨rfl, rfl⟩

theorem evolveParticle_alpha (dts : List ℚ) (hne : dts ≠ []) (p : Particle)
    (h : 0 < countdown p.life dts) :
    (evolveParticle dts p).color.a =
      floatToUint8 (f32 (255 * f32 (countdown p.life dts / p.maxLife))) := by
  rcases List.eq_nil_or_concat dts with h0 | ⟨init, last, rfl⟩
  · exact absurd h0 hne
  · rw [List.concat_eq_append] at h ⊢
    have hi := evolveParticle_life init p
    have hc : countdown p.life (init ++ [last]) = f32 (countdown p.life init - last) := by
      rw [countdown_append]; rfl
    rw [hc] at h ⊢
    have e : evolveParticle (init ++ [last]) p =
        ParticleSystem.updateParticle last (evolveParticle init p) := by
      simp [evolveParticle, List.foldl_append]
    rw [e, (updateParticle_life last _).2.2 (by rw [hi.1]; exact h), hi.1, hi.2]

theorem filter_map_filter {f : Particle → Particle} (alive : Particle → Bool)
    (hf : ∀ q, alive q = false → alive (f q) = false) (l : List Particle) :
    ((l.filter alive).map f).filter alive = (l.map f).filter alive := by
  induction l with
  | nil => rfl
  | cons q rest ih =>
    cases hq : alive q
    · simp [List.filter_cons, hq, hf q hq, ih]
    · simp [List.filter_cons, hq, ih]

theorem evolveParticle_dead (dts : List ℚ) (hnn : ∀ dt ∈ dts, 0 ≤ dt) (q : Particle)
    (h : (!decide (q.life ≤ 0)) = false) :
    (!decide ((evolveParticle dts q).life ≤ 0)) = false := by
  simp only [Bool.not_eq_false', decide_eq_true_eq] at h ⊢
  rw [(evolveParticle_life dts q).1]
  exact countdown_dead dts _ hnn h

theorem runPoolUpdates_alive (m : Runtime) :
    ∀ (dts : List ℚ) (st : ParticleSystem × Nat), (∀ dt ∈ dts, 0 ≤ dt) →
      (∀ p ∈ st.1.particles, 0 < p.life) →
      ∃ added, (runPoolUpdates m dts st).1.particles =
        (st.1.particles.map (evolveParticle dts)).filter (fun p => !decide (p.life ≤ 0)) ++
          added := by
  intro dts
  induction dts with
  | nil =>
    intro st _ halive
    refine ⟨[], ?_⟩
    have hid : st.1.particles.map (evolveParticle []) = st.1.particles := by
      rw [show evolveParticle [] = id from rfl, List.map_id]
    rw [hid, List.append_nil, List.filter_eq_self.mpr]
    · rfl
    · intro p hp
      have := halive p hp
      simpa using this
  | cons dt rest ih =>
    intro st hnn _
    obtain ⟨⟨added1, h1⟩, _, _, halive1⟩ := update_pool m dt st
    obtain ⟨added2, h2⟩ := ih (ParticleSystem.update m dt st)
      (fun d hd => hnn d (List.mem_cons_of_mem _ hd)) halive1
    refine ⟨(added1.map (evolveParticle rest)).filter (fun p => !decide (p.life ≤ 0)) ++
      added2, ?_⟩
    have hrun : runPoolUpdates m (dt :: rest) st =
        runPoolUpdates m rest (ParticleSystem.update m dt st) := rfl
    have hev : ∀ l : List Particle, l.map (evolveParticle (dt :: rest)) =
        (l.map (ParticleSystem.updateParticle dt)).map (evolveParticle rest) := by
      intro l; simp [evolveParticle]
    rw [hrun, h2, h1, List.map_append, List.filter_append, hev,
      filter_map_filter _ (fun q hq => evolveParticle_dead rest
        (fun d hd => hnn d (List.mem_cons_of_mem _ hd)) q hq), List.append_assoc]

theorem runPoolUpdates_all_alive (m : Runtime) :
    ∀ (dts : List ℚ) (st : ParticleSystem × Nat), (∀ p ∈ st.1.particles, 0 < p.life) →
      ∀ p ∈ (runPoolUpdates m dts st).1.particles, 0 < p.life := by
  intro dts
  induction dts with
  | nil => intro st h; exact h
  | cons dt rest ih =>
    intro st _
    exact ih (ParticleSystem.update m dt st) (update_pool m dt st).2.2.2

theorem runPoolUpdates_pool (m : Runtime) (dts : List ℚ) (hne : dts ≠ [])
    (st : ParticleSystem × Nat) (hnn : ∀ dt ∈ dts, 0 ≤ dt) :
    (∃ added, (runPoolUpdates m dts st).1.particles =
      (st.1.particles.map (evolveParticle dts)).filter (fun p => !decide (p.life ≤ 0)) ++
        added) ∧
    ∀ p ∈ (runPoolUpdates m dts st).1.particles, 0 < p.life := by
  cases dts with
  | nil => exact absurd rfl hne
  | cons dt rest =>
    obtain ⟨⟨added1, h1⟩, _, _, halive1⟩ := update_pool m dt st
    have hnn2 : ∀ d ∈ rest, 0 ≤ d := fun d hd => hnn d (List.mem_cons_of_mem _ hd)
    obtain ⟨added2, h2⟩ := runPoolUpdates_alive m rest (ParticleSystem.update m dt st) hnn2
      halive1
    have hrun : runPoolUpdates m (dt :: rest) st =
        runPoolUpdates m rest (ParticleSystem.update m dt st) := rfl
    have hev : ∀ l : List Particle, l.map (evolveParticle (dt :: rest)) =
        (l.map (ParticleSystem.updateParticle dt)).map (evolveParticle rest) := by
      intro l; simp [evolveParticle]
    constructor
    · refine ⟨(added1.map (evolveParticle rest)).filter (fun p => !decide (p.life ≤ 0)) ++
        added2, ?_⟩
      rw [hrun, h2, h1, List.map_append, List.filter_append, hev,
        filter_map_filter _ (fun q hq => evolveParticle_dead rest hnn2 q hq),
        List.append_assoc]
    · rw [hrun]
      exact runPoolUpdates_all_alive m rest _ halive1

theorem floatToUint8_floor (x : ℚ) (h0 : 0 ≤ x) (h1 : x < 256) :
    ((floatToUint8 x : Nat) : Int) = ⌊x⌋ := by
  have hf0 : 0 ≤ ⌊x⌋ := Int.floor_nonneg.mpr h0
  have hf1 : ⌊x⌋ < 256 := Int.floor_lt.mpr (by exact_mod_cast h1)
  unfold floatToUint8
  omega

/-- The alpha computed from a remaining life `l` that is within `n * L / 2^22` of
`L - t`: the two roundings of `255 * (l / L)` keep it within
`255 * (n + 2) / 2^22` of `255 * (L - t) / L`. -/
theorem alpha_near (L l t : ℚ) (n : Nat) (hL : 0 < L) (hl : 0 < l) (ht : 0 ≤ t)
    (hn : n ≤ 16000) (hlo : L - t - n * (L / 2 ^ 22) ≤ l) (hhi : l ≤ L - t + n * (L / 2 ^ 22)) :
    |f32 (255 * f32 (l / L)) - 255 * (L - t) / L| ≤ 255 * ((n : ℚ) + 2) / 2 ^ 22 ∧
    0 ≤ f32 (255 * f32 (l / L)) ∧ f32 (255 * f32 (l / L)) < 256 := by
  have hn1 : (n : ℚ) ≤ 16000 := by exact_mod_cast hn
  have hn0 : (0 : ℚ) ≤ n := Nat.cast_nonneg n
  have hx0 : 0 < l / L := div_pos hl hL
  have hxlo : (L - t) / L - n / 2 ^ 22 ≤ l / L := by
    rw [le_div_iff₀ hL]
    have e : ((L - t) / L - n / 2 ^ 22) * L = L - t - n * (L / 2 ^ 22) := by
      field_simp
      ring
    rw [e]
    exact hlo
  have hxhi : l / L ≤ (L - t) / L + n / 2 ^ 22 := by
    rw [div_le_iff₀ hL]
    have e : ((L - t) / L + n / 2 ^ 22) * L = L - t + n * (L / 2 ^ 22) := by
      field_simp
      ring
    rw [e]
    exact hhi
  have hr1 : (L - t) / L ≤ 1 := by
    rw [div_le_one hL]
    linarith
  have hx2 : l / L ≤ 2 := by
    have : (n : ℚ) / 2 ^ 22 ≤ 1 := by
      rw [div_le_one (by positivity)]
      norm_num
      linarith
    linarith
  have e1 := f32_err (l / L)
  rw [abs_of_pos hx0] at e1
  have e1a := abs_le.mp e1
  have hy0 : 0 ≤ f32 (l / L) := f32_nonneg _ hx0.le
  have hy : 0 ≤ 255 * f32 (l / L) := by positivity
  have e2 := f32_err (255 * f32 (l / L))
  rw [abs_of_nonneg hy] at e2
  have e2a := abs_le.mp e2
  have hX : 255 * (L - t) / L = 255 * ((L - t) / L) := by ring
  have hsmall : (1 : ℚ) / 2 ^ 150 ≤ 1 / 2 ^ 30 := by
    apply one_div_le_one_div_of_le (by positivity)
    exact pow_le_pow_right₀ (by norm_num) (by norm_num)
  have hnum : (2 : ℚ) ^ 22 = 4194304 ∧ (2 : ℚ) ^ 24 = 16777216 ∧ (2 : ℚ) ^ 30 = 1073741824 := by
    norm_num
  obtain ⟨p22, p24, p30⟩ := hnum
  rw [p30] at hsmall
  rw [p24] at e1a e2a
  rw [p22] at hxlo hxhi ⊢
  have hq : (n : ℚ) / 4194304 ≤ 16000 / 4194304 := by
    apply div_le_div_of_nonneg_right hn1 (by norm_num)
  have hy2 : f32 (l / L) ≤ 2 + 1 / 1000 := by
    have : l / L / 16777216 ≤ 2 / 16777216 := div_le_div_of_nonneg_right hx2 (by norm_num)
    linarith [e1a.2]
  have hy3 : 255 * f32 (l / L) / 16777216 ≤ 512 / 16777216 :=
    div_le_div_of_nonneg_right (by linarith) (by norm_num)
  have hx3 : l / L / 16777216 ≤ 2 / 16777216 := div_le_div_of_nonneg_right hx2 (by norm_num)
  have hgoal : |f32 (255 * f32 (l / L)) - 255 * (L - t) / L| ≤ 255 * ((n : ℚ) + 2) / 4194304 := by
    rw [hX, abs_le]
    constructor
    · have : -(255 * ((n : ℚ) + 2) / 4194304) = -(255 * (n / 4194304)) - 510 / 4194304 := by ring
      rw [this]
      linarith [e1a.1, e2a.1]
    · have : 255 * ((n : ℚ) + 2) / 4194304 = 255 * (n / 4194304) + 510 / 4194304 := by ring
      rw [this]
      linarith [e1a.2, e2a.2]
  refine ⟨hgoal, f32_nonneg _ hy, ?_⟩
  have hb := (abs_le.mp hgoal).2
  have : 255 * ((n : ℚ) + 2) / 4194304 = 255 * (n / 4194304) + 510 / 4194304 := by ring
  rw [this, hX] at hb
  linarith

/-- C14 (amended): a particle created with lifetime L (a normal binary32 number,
at least 2^-126) in the pool, after n ≤ 16000 `ParticleSystem::update` calls with
non-negative steps totalling t > 0: the pool is the list of the original
particles still alive, each advanced by the steps, followed by the particles
emitted meanwhile; the remaining life is the binary32 variable `countdown L dts`,
within n * L / 2^22 of L - t while positive. If t < L - n * L / 2^22 the particle
is in the pool and its alpha is the truncation of a value within
255 * (n + 2) / 2^22 of 255 * (L - t) / L, hence at most 1 away from
255 * (L - t) / L truncated to 8 bits; if t > L + n * L / 2^22 the particle is
not in the pool. -/
theorem C14_particle_linear_fade (m : Runtime) (pos vel : Vec2) (col : Color) (L size : ℚ)
    (ty : ParticleType) (spin : Nat) (p : Particle)
    (hp : p = Particle.new pos vel col L size ty spin) (hL : 1 / 2 ^ 126 ≤ L) (dts : List ℚ)
    (hnn : ∀ dt ∈ dts, 0 ≤ dt) (ht : 0 < dts.sum) (hlen : dts.length ≤ 16000)
    (st : ParticleSystem × Nat) (hin : p ∈ st.1.particles) :
    (∃ added, (runPoolUpdates m dts st).1.particles =
      (st.1.particles.map (evolveParticle dts)).filter (fun q => !decide (q.life ≤ 0)) ++
        added) ∧
    ((evolveParticle dts p).life = countdown L dts ∧ (evolveParticle dts p).maxLife = L) ∧
    (dts.sum < L - dts.length * (L / 2 ^ 22) →
      evolveParticle dts p ∈ (runPoolUpdates m dts st).1.particles ∧
      (∃ a : ℚ, |a - 255 * (L - dts.sum) / L| ≤ 255 * ((dts.length : ℚ) + 2) / 2 ^ 22 ∧
        (((evolveParticle dts p).color.a : Nat) : Int) = ⌊a⌋) ∧
      ⌊255 * (L - dts.sum) / L⌋ - 1 ≤ (((evolveParticle dts p).color.a : Nat) : Int) ∧
      (((evolveParticle dts p).color.a : Nat) : Int) ≤ ⌊255 * (L - dts.sum) / L⌋ + 1) ∧
    (L + dts.length * (L / 2 ^ 22) < dts.sum →
      evolveParticle dts p ∉ (runPoolUpdates m dts st).1.particles ∧
      evolveParticle dts p ∉
        (st.1.particles.map (evolveParticle dts)).filter (fun q => !decide (q.life ≤ 0))) ∧
    ((0 < (evolveParticle dts p).life →
        (evolveParticle dts p).life ≤ L - dts.sum + dts.length * (L / 2 ^ 22)) ∧
      (dts.sum < L - dts.length * (L / 2 ^ 22) →
        L - dts.sum - dts.length * (L / 2 ^ 22) ≤ (evolveParticle dts p).life)) := by
  have hne : dts ≠ [] := by
    intro h0; rw [h0] at ht; simp at ht
  have hL0 : 0 < L := lt_of_lt_of_le (by positivity) hL
  have hlife : p.life = L := by rw [hp]; rfl
  have hmax : p.maxLife = L := by rw [hp]; rfl
  obtain ⟨⟨added, hpool⟩, halive⟩ := runPoolUpdates_pool m dts hne st hnn
  have he := evolveParticle_life dts p
  rw [hlife, hmax] at he
  obtain ⟨hup, hlow⟩ := countdown_bounds L hL dts hnn
  have hlen2 : dts.length ≤ 2 ^ 22 := le_trans hlen (by norm_num)
  refine ⟨⟨added, hpool⟩, he, ?_, ?_,
    ⟨fun h => by rw [he.1] at h ⊢; exact hup h hlen2, fun h => by rw [he.1]; exact hlow h⟩⟩
  · intro hlt
    have hlo := hlow hlt
    have hpos : 0 < countdown L dts := by linarith
    have hhi := hup hpos hlen2
    have ha := evolveParticle_alpha dts hne p (by rw [hlife]; exact hpos)
    rw [hlife, hmax] at ha
    obtain ⟨hnear, ha0, ha1⟩ := alpha_near L (countdown L dts) dts.sum dts.length hL0 hpos
      ht.le hlen hlo hhi
    have hfl := floatToUint8_floor _ ha0 ha1
    rw [← ha] at hfl
    have hE : 255 * ((dts.length : ℚ) + 2) / 2 ^ 22 < 1 := by
      have : (dts.length : ℚ) ≤ 16000 := by exact_mod_cast hlen
      rw [div_lt_one (by positivity)]
      norm_num
      linarith
    have hab := abs_le.mp hnear
    refine ⟨?_, ⟨_, hnear, hfl⟩, ?_, ?_⟩
    · rw [hpool]
      apply List.mem_append_left
      rw [List.mem_filter]
      refine ⟨List.mem_map_of_mem _ hin, ?_⟩
      simp only [Bool.not_eq_true', decide_eq_false_iff_not, not_le]
      rw [he.1]; exact hpos
    · rw [hfl]
      have h1 : 255 * (L - dts.sum) / L - 1 ≤ f32 (255 * f32 (countdown L dts / L)) := by
        linarith [hab.1]
      have := Int.floor_le_floor h1
      rw [Int.floor_sub_one] at this
      exact this
    · rw [hfl]
      have h1 : f32 (255 * f32 (countdown L dts / L)) ≤ 255 * (L - dts.sum) / L + 1 := by
        linarith [hab.2]
      have := Int.floor_le_floor h1
      rw [Int.floor_add_one] at this
      exact this
  · intro hgt
    have hdead : ¬ 0 < (evolveParticle dts p).life := by
      rw [he.1]
      intro hpos
      have := hup hpos hlen2
      linarith
    constructor
    · exact fun hmem => hdead (halive _ hmem)
    · intro hmem
      rw [List.mem_filter] at hmem
      have := hmem.2
      simp only [Bool.not_eq_true', decide_eq_false_iff_not, not_le] at this
      exact hdead this

theorem C14_particle_linear_fade_witness :
    sampleSpark = Particle.new ⟨100, 100⟩ ⟨8, 0⟩ Color.White (1 / 2) 2 ParticleType.Spark 0 ∧
    (1 : ℚ) / 2 ^ 126 ≤ 1 / 2 ∧ (∀ dt ∈ [(1 / 64 : ℚ), 1 / 8], 0 ≤ dt) ∧
    (0 : ℚ) < [(1 / 64 : ℚ), 1 / 8].sum ∧ [(1 / 64 : ℚ), 1 / 8].length ≤ 16000 ∧
    sampleSpark ∈ (sparkPool, 0).1.particles ∧
    [(1 / 64 : ℚ), 1 / 8].sum <
      1 / 2 - ([(1 / 64 : ℚ), 1 / 8].length : ℚ) * (1 / 2 / 2 ^ 22) ∧
    evolveParticle [1 / 64, 1 / 8] sampleSpark ∈
      (runPoolUpdates approxMath [1 / 64, 1 / 8] (sparkPool, 0)).1.particles ∧
    (evolveParticle [1 / 64, 1 / 8] sampleSpark).color.a = 183 ∧
    (runPoolUpdates approxMath [1 / 2, 1 / 8] (sparkPool, 0)).1.particles = [] :=
  have hL : (1 : ℚ) / 2 ^ 126 ≤ 1 / 2 := by norm_num
  have hnn : ∀ dt ∈ [(1 / 64 : ℚ), 1 / 8], 0 ≤ dt := by decide!
  have hs : (0 : ℚ) < [(1 / 64 : ℚ), 1 / 8].sum := by decide!
  have hlen : [(1 / 64 : ℚ), 1 / 8].length ≤ 16000 := by decide
  have hlt : [(1 / 64 : ℚ), 1 / 8].sum <
      1 / 2 - ([(1 / 64 : ℚ), 1 / 8].length : ℚ) * (1 / 2 / 2 ^ 22) := by
    norm_num
  have hin : sampleSpark ∈ (sparkPool, 0).1.particles := by decide!
  have hC := C14_particle_linear_fade approxMath ⟨100, 100⟩ ⟨8, 0⟩ Color.White (1 / 2) 2
    ParticleType.Spark 0 sampleSpark rfl hL [1 / 64, 1 / 8] hnn hs hlen (sparkPool, 0) hin
  ⟨rfl, hL, hnn, hs, hlen, hin, hlt, (hC.2.2.1 hlt).1, by decide!, by decide!⟩

/-- C14 (as stated, refuted): for a spark of lifetime 3/2 s updated with the
binary32 frame time 1.0f / 60, after 6 updates (t < L) the alpha is 238 while
255 * (L - t) / L truncates to 237, and after 90 updates (t > L) the particle is
still in the pool: the rounded subtractions leave a remaining life above 0. -/
theorem C14_counterexample :
    slowSpark = Particle.new ⟨100, 100⟩ ⟨8, 0⟩ Color.White (3 / 2) 2 ParticleType.Spark 0 ∧
    slowSpark ∈ (slowPool, 0).1.particles ∧
    (0 < (List.replicate 6 frameTime).sum ∧ (List.replicate 6 frameTime).sum < 3 / 2) ∧
    ⌊255 * (3 / 2 - (List.replicate 6 frameTime).sum) / (3 / 2)⌋ = 237 ∧
    (evolveParticle (List.replicate 6 frameTime) slowSpark).color.a = 238 ∧
    evolveParticle (List.replicate 6 frameTime) slowSpark ∈
      (runPoolUpdates approxMath (List.replicate 6 frameTime) (slowPool, 0)).1.particles ∧
    3 / 2 < (List.replicate 90 frameTime).sum ∧
    evolveParticle (List.replicate 90 frameTime) slowSpark ∈
      (runPoolUpdates approxMath (List.replicate 90 frameTime) (slowPool, 0)).1.particles := by
  decide!

/-! ### Ghost updates -/

theorem moveTowardsSuperman_fields (m : Runtime) (sp : Vec2) (dt : ℚ) (g : Ghost) (r : Nat) :
    (Ghost.moveTowardsSuperman m sp dt g r).1 =
      { g with velocity := (Ghost.moveTowardsSuperman m sp dt g r).1.velocity } := by
  unfold Ghost.moveTowardsSuperman
  dsimp only
  split_ifs <;> rfl

theorem moveTowardsSuperman_timers (m : Runtime) (sp : Vec2) (dt : ℚ) (g : Ghost) (r : Nat)
    (a b : ℚ) :
    (Ghost.moveTowardsSuperman m sp dt { g with aiUpdateTimer := a, damageTimer := b } r).1.velocity
      = (Ghost.moveTowardsSuperman m sp dt g r).1.velocity := by
  unfold Ghost.moveTowardsSuperman Ghost.speed Ghost.aggroRange
  dsimp only
  split_ifs <;> rfl

theorem Ghost.update_ghostVelocity (m : Runtime) (dt : ℚ) (sp : Vec2) (g : Ghost) (r : Nat) :
    (g.update m dt sp r).1.velocity =
      if g.aiUpdateTimer + dt ≥ 1 / 10 then (Ghost.moveTowardsSuperman m sp dt g r).1.velocity
      else g.velocity := by
  unfold Ghost.update
  dsimp only
  by_cases h : g.aiUpdateTimer + dt ≥ 1 / 10
  · rw [if_pos h, if_pos h]
    rw [moveTowardsSuperman_fields]
    dsimp only [Ghost.updateFloatingAnimation, Ghost.updateAnimation, Ghost.updateBossAttack]
    split_ifs <;> exact moveTowardsSuperman_timers m sp dt g r _ _
  · rw [if_neg h, if_neg h]
    dsimp only [Ghost.updateFloatingAnimation, Ghost.updateAnimation, Ghost.updateBossAttack]
    split_ifs <;> rfl

theorem Ghost.update_ghostType (m : Runtime) (dt : ℚ) (sp : Vec2) (g : Ghost) (r : Nat) :
    (g.update m dt sp r).1.type = g.type := by
  unfold Ghost.update
  dsimp only
  by_cases h : g.aiUpdateTimer + dt ≥ 1 / 10
  · rw [if_pos h, moveTowardsSuperman_fields]
    dsimp only [Ghost.updateFloatingAnimation, Ghost.updateAnimation, Ghost.updateBossAttack]
    split_ifs <;> rfl
  · rw [if_neg h]
    dsimp only [Ghost.updateFloatingAnimation, Ghost.updateAnimation, Ghost.updateBossAttack]
    split_ifs <;> rfl

theorem Ghost.update_damageTimer (m : Runtime) (dt : ℚ) (sp : Vec2) (g : Ghost) (r : Nat) :
    (g.update m dt sp r).1.damageTimer = g.damageTimer + dt := by
  unfold Ghost.update
  dsimp only
  by_cases h : g.aiUpdateTimer + dt ≥ 1 / 10
  · rw [if_pos h, moveTowardsSuperman_fields]
    dsimp only [Ghost.updateFloatingAnimation, Ghost.updateAnimation, Ghost.updateBossAttack]
    split_ifs <;> rfl
  · rw [if_neg h]
    dsimp only [Ghost.updateFloatingAnimation, Ghost.updateAnimation, Ghost.updateBossAttack]
    split_ifs <;> rfl

theorem Ghost.update_bossAttackTimer (m : Runtime) (dt : ℚ) (sp : Vec2) (g : Ghost) (r : Nat) :
    (g.update m dt sp r).1.bossAttackTimer =
      if g.type = GhostType.Boss then
        if g.bossAttackTimer + dt ≥ 3 then 0 else g.bossAttackTimer + dt
      else g.bossAttackTimer := by
  unfold Ghost.update
  dsimp only
  by_cases h : g.aiUpdateTimer + dt ≥ 1 / 10
  · rw [if_pos h, moveTowardsSuperman_fields]
    dsimp only [Ghost.updateFloatingAnimation, Ghost.updateAnimation, Ghost.updateBossAttack,
      Ghost.bossAttackCooldown]
    split_ifs <;> rfl
  · rw [if_neg h]
    dsimp only [Ghost.updateFloatingAnimation, Ghost.updateAnimation, Ghost.updateBossAttack,
      Ghost.bossAttackCooldown]
    split_ifs <;> rfl

theorem Ghost.update_damageValue (m : Runtime) (dt : ℚ) (sp : Vec2) (g : Ghost) (r : Nat) :
    (g.update m dt sp r).1.damageValue =
      if g.type = GhostType.Boss ∧ g.bossAttackTimer + dt ≥ 3 then
        if g.damageTimer + dt > 5 / 10 then 20 else 30
      else g.damageValue := by
  unfold Ghost.update
  dsimp only
  by_cases h : g.aiUpdateTimer + dt ≥ 1 / 10
  · rw [if_pos h, moveTowardsSuperman_fields]
    dsimp only [Ghost.updateFloatingAnimation, Ghost.updateAnimation, Ghost.updateBossAttack,
      Ghost.bossAttackCooldown]
    by_cases hb : g.type = GhostType.Boss
    · by_cases ht : g.bossAttackTimer + dt ≥ 3
      · rw [if_pos hb, if_pos ht, if_pos (And.intro hb ht)]
      · rw [if_pos hb, if_neg ht, if_neg (fun c => ht c.2)]
    · rw [if_neg hb, if_neg (fun c => hb c.1)]
  · rw [if_neg h]
    dsimp only [Ghost.updateFloatingAnimation, Ghost.updateAnimation, Ghost.updateBossAttack,
      Ghost.bossAttackCooldown]
    by_cases hb : g.type = GhostType.Boss
    · by_cases ht : g.bossAttackTimer + dt ≥ 3
      · rw [if_pos hb, if_pos ht, if_pos (And.intro hb ht)]
      · rw [if_pos hb, if_neg ht, if_neg (fun c => ht c.2)]
    · rw [if_neg hb, if_neg (fun c => hb c.1)]

theorem Ghost.update_floating (m : Runtime) (dt : ℚ) (sp : Vec2) (g : Ghost) (r : Nat) :
    (g.update m dt sp r).1.basePosition.y = g.basePosition.y ∧
    (g.update m dt sp r).1.floatingTimer =
      g.floatingTimer + dt * Ghost.floatingFrequencyOf g.type ∧
    (g.update m dt sp r).1.position.y =
      g.basePosition.y +
        m.sin (g.floatingTimer + dt * Ghost.floatingFrequencyOf g.type) *
          Ghost.floatingAmplitudeOf g.type := by
  unfold Ghost.update
  dsimp only
  by_cases h : g.aiUpdateTimer + dt ≥ 1 / 10
  · rw [if_pos h, moveTowardsSuperman_fields]
    dsimp only [Ghost.updateFloatingAnimation, Ghost.updateAnimation, Ghost.updateBossAttack]
    split_ifs <;> exact ⟨rfl, rfl, rfl⟩
  · rw [if_neg h]
    dsimp only [Ghost.updateFloatingAnimation, Ghost.updateAnimation, Ghost.updateBossAttack]
    split_ifs <;> exact ⟨rfl, rfl, rfl⟩

theorem runGhostUpdates_append (m : Runtime) (fs : List (ℚ × Vec2)) (f : ℚ × Vec2)
    (st : Ghost × Nat) :
    runGhostUpdates m (fs ++ [f]) st =
      (runGhostUpdates m fs st).1.update m f.1 f.2 (runGhostUpdates m fs st).2 := by
  unfold runGhostUpdates
  rw [List.foldl_append]
  rfl

theorem runGhostUpdates_type (m : Runtime) (fs : List (ℚ × Vec2)) (st : Ghost × Nat) :
    (runGhostUpdates m fs st).1.type = st.1.type ∧
    (runGhostUpdates m fs st).1.basePosition.y = st.1.basePosition.y := by
  induction fs using List.reverseRecOn with
  | nil => exact ⟨rfl, rfl⟩
  | append_singleton fs f ih =>
    rw [runGhostUpdates_append, Ghost.update_ghostType, (Ghost.update_floating _ _ _ _ _).1]
    exact ih

/-- A Boss that is never damaged: the damage timer is never behind the attack
timer, and the contact damage stays at the baseline. -/
theorem runGhostUpdates_boss (m : Runtime) (fs : List (ℚ × Vec2)) (st : Ghost × Nat)
    (hdt : ∀ f ∈ fs, 0 ≤ f.1) (hb : st.1.type = GhostType.Boss)
    (h0 : 0 ≤ st.1.bossAttackTimer) (h1 : st.1.bossAttackTimer ≤ st.1.damageTimer)
    (h2 : st.1.damageValue = 20) :
    0 ≤ (runGhostUpdates m fs st).1.bossAttackTimer ∧
    (runGhostUpdates m fs st).1.bossAttackTimer ≤ (runGhostUpdates m fs st).1.damageTimer ∧
    (runGhostUpdates m fs st).1.damageValue = 20 := by
  induction fs using List.reverseRecOn with
  | nil => exact ⟨h0, h1, h2⟩
  | append_singleton fs f ih =>
    have hf : 0 ≤ f.1 := hdt f (by simp)
    obtain ⟨i0, i1, i2⟩ := ih (fun a ha => hdt a (by simp [ha]))
    have ht := (runGhostUpdates_type m fs st).1
    rw [hb] at ht
    rw [runGhostUpdates_append, Ghost.update_bossAttackTimer, Ghost.update_damageTimer,
      Ghost.update_damageValue, if_pos ht]
    by_cases hk : (runGhostUpdates m fs st).1.bossAttackTimer + f.1 ≥ 3
    · rw [if_pos hk, if_pos (And.intro ht hk), if_pos (by linarith)]
      exact ⟨le_refl _, by linarith, rfl⟩
    · rw [if_neg hk, if_neg (fun c => hk c.2)]
      exact ⟨by linarith, by linarith, i2⟩

theorem trigUnit_circleMath : TrigUnit circleMath := by
  intro a
  show circleCos a * circleCos a + circleSin a * circleSin a = 1
  unfold circleCos circleSin
  have hd : (1 : ℚ) + a / 2 * (a / 2) ≠ 0 := by nlinarith [sq_nonneg (a / 2)]
  have key : ∀ n s d : ℚ, d ≠ 0 → n * n + s * s = d * d →
      n / d * (n / d) + s / d * (s / d) = 1 := by
    intro n s d h0 h
    have e : n / d * (n / d) + s / d * (s / d) = (n * n + s * s) / (d * d) := by
      field_simp
    rw [e, h, div_self (mul_ne_zero h0 h0)]
  exact key _ _ _ hd (by ring)

/-- C21 (amended): the damping of an idle ghost is part of the throttled AI step.
On a `Ghost::update` call that runs the AI step (the AI accumulator plus `dt`
has reached 0.1 s) while the measured distance to the player exceeds the aggro
radius, the velocity after the call is 0.9 times the velocity before; on a call
that does not run the AI step the velocity is unchanged. -/
theorem C21_damping_on_ai_tick (m : Runtime) (dt : ℚ) (sp : Vec2) (g : Ghost) (r : Nat)
    (hfar : g.aggroRange <
      m.sqrt ((sp.x - g.position.x) * (sp.x - g.position.x) +
        (sp.y - g.position.y) * (sp.y - g.position.y))) :
    (g.aiUpdateTimer + dt ≥ 1 / 10 →
      (g.update m dt sp r).1.velocity = g.velocity.scale (9 / 10)) ∧
    (¬ g.aiUpdateTimer + dt ≥ 1 / 10 → (g.update m dt sp r).1.velocity = g.velocity) := by
  constructor
  · intro h
    rw [Ghost.update_ghostVelocity, if_pos h]
    unfold Ghost.moveTowardsSuperman
    dsimp only [Vec2.sub]
    rw [if_neg (fun c => absurd c.2 (not_le.mpr hfar))]
  · intro h
    rw [Ghost.update_ghostVelocity, if_neg h]

theorem C21_damping_on_ai_tick_witness :
    driftingGhost.aggroRange <
      approxMath.sqrt (((700 : ℚ) - driftingGhost.position.x) * (700 - driftingGhost.position.x) +
        ((100 : ℚ) - driftingGhost.position.y) * (100 - driftingGhost.position.y)) ∧
    (driftingGhost.update approxMath (1 / 8) ⟨700, 100⟩ 0).1.velocity =
      driftingGhost.velocity.scale (9 / 10) ∧
    (driftingGhost.update approxMath (1 / 64) ⟨700, 100⟩ 0).1.velocity =
      driftingGhost.velocity := by
  have e : ((700 : ℚ) - driftingGhost.position.x) * (700 - driftingGhost.position.x) +
      ((100 : ℚ) - driftingGhost.position.y) * (100 - driftingGhost.position.y) =
      ((600 : ℕ) : ℚ) * (600 : ℕ) := by
    show ((700 : ℚ) - 100) * (700 - 100) + ((100 : ℚ) - 100) * (100 - 100) = _
    norm_num
  have hfar : driftingGhost.aggroRange <
      approxMath.sqrt (((700 : ℚ) - driftingGhost.position.x) * (700 - driftingGhost.position.x) +
        ((100 : ℚ) - driftingGhost.position.y) * (100 - driftingGhost.position.y)) := by
    rw [e]
    show Ghost.aggroRangeOf GhostType.Regular < approxSqrt (((600 : ℕ) : ℚ) * (600 : ℕ))
    rw [approxSqrt_sq 600 (by norm_num)]
    norm_num [Ghost.aggroRangeOf]
  exact ⟨hfar,
    (C21_damping_on_ai_tick approxMath (1 / 8) ⟨700, 100⟩ driftingGhost 0 hfar).1 (by decide!),
    (C21_damping_on_ai_tick approxMath (1 / 64) ⟨700, 100⟩ driftingGhost 0 hfar).2 (by decide!)⟩

/-- C21 counterexample: a Regular ghost drifting at (64, 0) with the player 600 px
away, three times its aggro radius of 200; after a frame of 1/64 s, which does not
reach the 0.1 s AI interval, its velocity is still (64, 0) and not 0.9 times that. -/
theorem C21_counterexample :
    driftingGhost.aggroRange * driftingGhost.aggroRange <
      ((700 : ℚ) - driftingGhost.position.x) * (700 - driftingGhost.position.x) +
        ((100 : ℚ) - driftingGhost.position.y) * (100 - driftingGhost.position.y) ∧
    (driftingGhost.update approxMath (1 / 64) ⟨700, 100⟩ 0).1.velocity = ⟨64, 0⟩ ∧
    (driftingGhost.update approxMath (1 / 64) ⟨700, 100⟩ 0).1.velocity ≠
      driftingGhost.velocity.scale (9 / 10) := by
  decide!

/-- C22 (failing input): a Boss that was never damaged reaches its 3.0 s attack
cooldown on this update (the attack timer is reset to 0), yet `getDamage()` is 20
after the update and not the boosted 30. -/
theorem C22_boost_undone_on_tick :
    tickBoss.type = GhostType.Boss ∧
    tickBoss.bossAttackTimer + 1 / 64 = Ghost.bossAttackCooldown ∧
    (tickBoss.update approxMath (1 / 64) ⟨400, 300⟩ 0).1.bossAttackTimer = 0 ∧
    (tickBoss.update approxMath (1 / 64) ⟨400, 300⟩ 0).1.getDamage = 20 := by
  decide!

/-- C25: for a Boss the contact damage changes only on a cooldown tick (attack
timer plus `dt` at least 3.0 s), where it becomes 20 if the time since the last
`takeDamage` exceeds 0.5 s and 30 otherwise; between ticks it is unchanged.
Consequently a Boss from the constructor that never receives `takeDamage`
reports `getDamage() = 20` after every sequence of updates with `dt ≥ 0`. -/
theorem C25_boss_damage_follows_damage_timer (m : Runtime) (p : Vec2) (r : Nat)
    (frames : List (ℚ × Vec2)) (hdt : ∀ f ∈ frames, 0 ≤ f.1) :
    (∀ (g : Ghost) (dt : ℚ) (sp : Vec2) (k : Nat), g.type = GhostType.Boss →
      (g.update m dt sp k).1.damageTimer = g.damageTimer + dt ∧
      (g.bossAttackTimer + dt ≥ 3 →
        (g.update m dt sp k).1.bossAttackTimer = 0 ∧
        (g.update m dt sp k).1.getDamage =
          if (g.update m dt sp k).1.damageTimer > 5 / 10 then 20 else 30) ∧
      (¬ g.bossAttackTimer + dt ≥ 3 →
        (g.update m dt sp k).1.bossAttackTimer = g.bossAttackTimer + dt ∧
        (g.update m dt sp k).1.getDamage = g.getDamage)) ∧
    (∀ (g : Ghost) (d : ℚ), (g.takeDamage d).damageTimer = 0) ∧
    (runGhostUpdates m frames (Ghost.new m p GhostType.Boss r)).1.getDamage = 20 := by
  refine ⟨fun g dt sp k hb => ⟨Ghost.update_damageTimer m dt sp g k, fun ht => ?_, fun ht => ?_⟩,
    fun _ _ => rfl, ?_⟩
  · rw [Ghost.update_damageTimer]
    unfold Ghost.getDamage
    rw [Ghost.update_bossAttackTimer, Ghost.update_damageValue, if_pos hb, if_pos ht,
      if_pos (And.intro hb ht)]
    exact ⟨rfl, rfl⟩
  · unfold Ghost.getDamage
    rw [Ghost.update_bossAttackTimer, Ghost.update_damageValue, if_pos hb, if_neg ht,
      if_neg (fun c => ht c.2)]
    exact ⟨rfl, rfl⟩
  · exact (runGhostUpdates_boss m frames (Ghost.new m p GhostType.Boss r) hdt rfl
      (le_refl _) (le_refl _) rfl).2.2

theorem C25_boss_damage_follows_damage_timer_witness :
    (∀ f ∈ [((1 : ℚ), (⟨400, 300⟩ : Vec2)), (1, ⟨400, 300⟩), (2, ⟨0, 0⟩)], 0 ≤ f.1) ∧
    (runGhostUpdates approxMath [(1, ⟨400, 300⟩), (1, ⟨400, 300⟩), (2, ⟨0, 0⟩)]
      (Ghost.new approxMath ⟨400, 300⟩ GhostType.Boss 0)).1.getDamage = 20 := by
  have h : ∀ f ∈ [((1 : ℚ), (⟨400, 300⟩ : Vec2)), (1, ⟨400, 300⟩), (2, ⟨0, 0⟩)], 0 ≤ f.1 := by
    intro f hf
    simp only [List.mem_cons, List.mem_singleton, List.not_mem_nil, or_false] at hf
    rcases hf with rfl | rfl | rfl <;> norm_num
  exact ⟨h, (C25_boss_damage_follows_damage_timer approxMath ⟨400, 300⟩ 0 _ h).2.2⟩

theorem regenerateHealth_idle (dt : ℚ) (s : Superman) (h : s.regenTimer < Superman.regenRate) :
    s.regenerateHealth dt = s := by
  unfold Superman.regenerateHealth
  rw [if_neg (fun c => absurd c.1 (not_le.mpr h))]

theorem runCalls_append (m : Runtime) (cs : List SupermanCall) (c : SupermanCall)
    (s : Superman) : runCalls m (cs ++ [c]) s = c.run m (runCalls m cs s) := by
  unfold runCalls
  rw [List.foldl_append]
  rfl

theorem updateTime_append (cs : List SupermanCall) (c : SupermanCall) :
    updateTime (cs ++ [c]) = updateTime cs + updateTime [c] := by
  induction cs with
  | nil => simp [updateTime]
  | cons a rest ih =>
    cases a with
    | update k w h dt =>
      show dt + updateTime (rest ++ [c]) = dt + updateTime rest + updateTime [c]
      rw [ih, add_assoc]
    | takeDamage d => exact ih
    | regenerateHealth d => exact ih
    | reset x y => exact ih

theorem updateTime_nonneg (cs : List SupermanCall) (h : ∀ c ∈ cs, c.Forward) :
    0 ≤ updateTime cs := by
  induction cs with
  | nil => exact le_refl _
  | cons a rest ih =>
    have hr := ih (fun c hc => h c (List.mem_cons_of_mem _ hc))
    have ha := h a (List.mem_cons_self _ _)
    cases a with
    | update k w hh dt =>
      have : (0 : ℚ) ≤ dt := ha
      simp only [updateTime]
      linarith
    | takeDamage d => simpa only [updateTime] using hr
    | regenerateHealth d => simpa only [updateTime] using hr
    | reset x y => simpa only [updateTime] using hr

/-- While less than `regenRate` of update time has passed since the accumulator
was 0, the accumulator is below `regenRate`. -/
theorem runCalls_regenTimer (m : Runtime) (cs : List SupermanCall) (s : Superman)
    (h0 : s.regenTimer = 0) (hf : ∀ c ∈ cs, c.Forward)
    (ht : updateTime cs < Superman.regenRate) :
    (runCalls m cs s).regenTimer ≤ updateTime cs := by
  induction cs using List.reverseRecOn with
  | nil => exact le_of_eq h0
  | append_singleton cs c ih =>
    have hcs : ∀ a ∈ cs, a.Forward := fun a ha => hf a (by simp [ha])
    have hc : c.Forward := hf c (by simp)
    have hc0 : 0 ≤ updateTime [c] := updateTime_nonneg [c] (by simpa using hc)
    rw [updateTime_append] at ht ⊢
    have hi := ih hcs (by linarith)
    rw [runCalls_append]
    cases c with
    | takeDamage d => exact le_trans hi (by linarith)
    | regenerateHealth d =>
      show ((runCalls m cs s).regenerateHealth d).regenTimer ≤ _
      rw [regenerateHealth_idle d _ (by linarith)]
      linarith
    | reset x y =>
      show (0 : ℚ) ≤ _
      linarith [updateTime_nonneg cs hcs]
    | update k w hh dt =>
      show ((runCalls m cs s).update m k w hh dt).regenTimer ≤ _
      rw [Superman.update_regenTimer]
      simp only [updateTime]
      linarith

/-- C23: `regenerateHealth` adds `regenAmount = 1` to health, capped at
`maxHealth`, and sets the accumulator to 0 exactly when the accumulator is at
least `regenRate = 1` and health is below `maxHealth`; otherwise it changes
nothing, in particular never at `maxHealth`. `update` adds `dt` to the
accumulator, so after a regeneration no further one happens until the update
calls have added 1 s. -/
theorem C23_regeneration (m : Runtime) (s : Superman) (dt dt2 : ℚ)
    (calls : List SupermanCall) (hf : ∀ c ∈ calls, c.Forward) (ht : updateTime calls < 1) :
    Superman.regenAmount = 1 ∧ Superman.regenRate = 1 ∧
    (s.regenTimer ≥ Superman.regenRate ∧ s.health < Superman.maxHealth →
      s.regenerateHealth dt =
        { s with health := min Superman.maxHealth (s.health + Superman.regenAmount)
                 regenTimer := 0 } ∧
      (s.regenerateHealth dt).health ≠ s.health ∧
      (runCalls m calls (s.regenerateHealth dt)).regenerateHealth dt2 =
        runCalls m calls (s.regenerateHealth dt)) ∧
    (¬ (s.regenTimer ≥ Superman.regenRate ∧ s.health < Superman.maxHealth) →
      s.regenerateHealth dt = s) ∧
    (s.health = Superman.maxHealth → s.regenerateHealth dt = s) ∧
    (∀ (k : Keys) (w h : Nat), (s.update m k w h dt).regenTimer = s.regenTimer + dt) := by
  refine ⟨rfl, rfl, fun hc => ?_, fun hc => ?_, fun hm => ?_,
    fun k w h => Superman.update_regenTimer m k w h dt s⟩
  · have e : s.regenerateHealth dt =
        { s with health := min Superman.maxHealth (s.health + Superman.regenAmount)
                 regenTimer := 0 } := by
      unfold Superman.regenerateHealth
      rw [if_pos hc]
      dsimp only
      by_cases hcap : s.health + Superman.regenAmount > Superman.maxHealth
      · rw [if_pos hcap, min_eq_left (le_of_lt hcap)]
      · rw [if_neg hcap, min_eq_right (not_lt.mp hcap)]
    refine ⟨e, ?_, ?_⟩
    · rw [e]
      show min Superman.maxHealth (s.health + Superman.regenAmount) ≠ s.health
      have h1 : s.health < Superman.maxHealth := hc.2
      have h2 : s.health < s.health + Superman.regenAmount := by
        norm_num [Superman.regenAmount]
      exact ne_of_gt (lt_min h1 h2)
    · refine regenerateHealth_idle dt2 _ (lt_of_le_of_lt
        (runCalls_regenTimer m calls _ (by rw [e]) hf ht) ht)
  · unfold Superman.regenerateHealth
    rw [if_neg hc]
  · unfold Superman.regenerateHealth
    rw [if_neg (fun c => absurd hm (ne_of_lt c.2))]

theorem C23_regeneration_witness :
    (∀ c ∈ [SupermanCall.update ⟨false, false, false, false⟩ 800 600 (1 / 2),
        SupermanCall.takeDamage 10, SupermanCall.regenerateHealth (1 / 2),
        SupermanCall.update ⟨false, false, false, false⟩ 800 600 (1 / 4)], c.Forward) ∧
    updateTime [SupermanCall.update ⟨false, false, false, false⟩ 800 600 (1 / 2),
        SupermanCall.takeDamage 10, SupermanCall.regenerateHealth (1 / 2),
        SupermanCall.update ⟨false, false, false, false⟩ 800 600 (1 / 4)] < 1 ∧
    (hurtPlayer.regenTimer ≥ Superman.regenRate ∧ hurtPlayer.health < Superman.maxHealth) ∧
    (hurtPlayer.regenerateHealth (1 / 64)).health = 51 ∧
    (hurtPlayer.regenerateHealth (1 / 64)).regenTimer = 0 ∧
    (runCalls approxMath [SupermanCall.update ⟨false, false, false, false⟩ 800 600 (1 / 2),
        SupermanCall.takeDamage 10, SupermanCall.regenerateHealth (1 / 2),
        SupermanCall.update ⟨false, false, false, false⟩ 800 600 (1 / 4)]
      (hurtPlayer.regenerateHealth (1 / 64))).regenerateHealth (1 / 64) =
      runCalls approxMath [SupermanCall.update ⟨false, false, false, false⟩ 800 600 (1 / 2),
        SupermanCall.takeDamage 10, SupermanCall.regenerateHealth (1 / 2),
        SupermanCall.update ⟨false, false, false, false⟩ 800 600 (1 / 4)]
      (hurtPlayer.regenerateHealth (1 / 64)) := by
  have hf : ∀ c ∈ [SupermanCall.update ⟨false, false, false, false⟩ 800 600 (1 / 2),
        SupermanCall.takeDamage 10, SupermanCall.regenerateHealth (1 / 2),
        SupermanCall.update ⟨false, false, false, false⟩ 800 600 (1 / 4)], c.Forward := by
    intro c hc
    simp only [List.mem_cons, List.mem_singleton, List.not_mem_nil, or_false] at hc
    rcases hc with rfl | rfl | rfl | rfl <;> simp [SupermanCall.Forward]
  have ht : updateTime [SupermanCall.update ⟨false, false, false, false⟩ 800 600 (1 / 2),
        SupermanCall.takeDamage 10, SupermanCall.regenerateHealth (1 / 2),
        SupermanCall.update ⟨false, false, false, false⟩ 800 600 (1 / 4)] < 1 := by
    norm_num [updateTime]
  have hc : hurtPlayer.regenTimer ≥ Superman.regenRate ∧
      hurtPlayer.health < Superman.maxHealth := by decide!
  exact ⟨hf, ht, hc, by decide!, by decide!,
    ((C23_regeneration approxMath hurtPlayer (1 / 64) (1 / 64) _ hf ht).2.2.1 hc).2.2⟩

theorem takeDamage_fold_health (ds : List ℚ) :
    ∀ s : Superman, 0 ≤ s.health → (∀ d ∈ ds, 0 ≤ d) →
      (ds.foldl (fun st d => st.takeDamage d) s).health = max 0 (s.health - ds.sum) := by
  induction ds with
  | nil =>
    intro s h0 _
    simp only [List.foldl_nil, List.sum_nil, sub_zero]
    exact (max_eq_right h0).symm
  | cons d rest ih =>
    intro s h0 hd
    have hd0 : 0 ≤ d := hd d (List.mem_cons_self _ _)
    have hrest : ∀ x ∈ rest, 0 ≤ x := fun x hx => hd x (List.mem_cons_of_mem _ hx)
    have hsum : 0 ≤ rest.sum := List.sum_nonneg hrest
    have e : (s.takeDamage d).health = max 0 (s.health - d) := by
      unfold Superman.takeDamage
      dsimp only
      by_cases hlt : s.health - d < 0
      · rw [if_pos hlt, max_eq_left (le_of_lt hlt)]
      · rw [if_neg hlt, max_eq_right (not_lt.mp hlt)]
    rw [List.foldl_cons, ih (s.takeDamage d) (by rw [e]; exact le_max_left _ _) hrest, e,
      List.sum_cons]
    by_cases hlt : s.health - d < 0
    · rw [max_eq_left (le_of_lt hlt), max_eq_left (by linarith), max_eq_left (by linarith)]
    · rw [max_eq_right (not_lt.mp hlt), sub_sub]

theorem foldl_map_damage (gs : List Ghost) (s : Superman) :
    gs.foldl (fun st gh => st.takeDamage gh.getDamage) s =
      (gs.map Ghost.getDamage).foldl (fun st d => st.takeDamage d) s := by
  rw [List.foldl_map]

/-- C24: one `checkSupermanGhostCollisions` pass applies `takeDamage(getDamage())`
once for each ghost whose bounds intersect the player's bounds, in collection
order, so with health and damages not negative the health afterwards is
max(0, health before - sum of the damages of the overlapping ghosts); the pass
leaves the ghosts and the score as they were, and a pass in which no ghost
overlaps leaves the player unchanged. -/
theorem C24_contact_pass (m : Runtime) (g : Game) (hh : 0 ≤ g.superman.health)
    (hd : ∀ gh ∈ g.ghosts, 0 ≤ gh.getDamage) :
    (Game.checkSupermanGhostCollisions m g).superman =
      (overlapping g).foldl (fun s gh => s.takeDamage gh.getDamage) g.superman ∧
    (Game.checkSupermanGhostCollisions m g).superman.health =
      max 0 (g.superman.health - ((overlapping g).map Ghost.getDamage).sum) ∧
    (Game.checkSupermanGhostCollisions m g).ghosts = g.ghosts ∧
    (Game.checkSupermanGhostCollisions m g).score = g.score ∧
    (overlapping g = [] → (Game.checkSupermanGhostCollisions m g).superman = g.superman) := by
  obtain ⟨h1, h2, _, h4, _⟩ := contactPass_spec m g.superman.getBounds g.ghosts g
  have e : (Game.checkSupermanGhostCollisions m g).superman =
      (overlapping g).foldl (fun s gh => s.takeDamage gh.getDamage) g.superman := h1
  refine ⟨e, ?_, h4, h2, fun hn => ?_⟩
  · rw [e, foldl_map_damage]
    refine takeDamage_fold_health _ _ hh (fun d hdm => ?_)
    obtain ⟨gh, hgh, rfl⟩ := List.mem_map.mp hdm
    exact hd gh (List.mem_of_mem_filter hgh)
  · rw [e, hn]
    rfl

theorem C24_contact_pass_witness :
    0 ≤ crowdedGame.superman.health ∧ (∀ gh ∈ crowdedGame.ghosts, 0 ≤ gh.getDamage) ∧
    (overlapping crowdedGame).map Ghost.getDamage = [10, 20] ∧
    crowdedGame.superman.health = 100 ∧
    (Game.checkSupermanGhostCollisions approxMath crowdedGame).superman.health =
      max 0 (crowdedGame.superman.health -
        ((overlapping crowdedGame).map Ghost.getDamage).sum) ∧
    (Game.checkSupermanGhostCollisions approxMath crowdedGame).superman.health = 70 ∧
    (Game.checkSupermanGhostCollisions approxMath crowdedGame).ghosts.length = 3 :=
  ⟨by decide!, by decide!, by decide!, by decide!,
    (C24_contact_pass approxMath crowdedGame (by decide!) (by decide!)).2.1,
    by decide!, by decide!⟩


/-! ### The placement loop of `spawnGhosts` -/

/-- A result of the placement loop is its first kept sample: every earlier sample
was rejected. -/
theorem samplePosition_first (m : Runtime) (px py : ℚ) (fuel : Nat) :
    ∀ k x y k1, Game.samplePosition m px py fuel k = some (x, y, k1) →
      ∃ j, j < fuel ∧ k1 = k + 2 * j + 2 ∧ Accepted m px py (k + 2 * j) ∧
        (∀ i, i < j → ¬ Accepted m px py (k + 2 * i)) ∧
        x = (m.uniform (k + 2 * j) 50 (((Game.WINDOW_WIDTH - 50 : Int) : ℚ))).1 ∧
        y = (m.uniform (k + 2 * j + 1) 50 (((Game.WINDOW_HEIGHT - 50 : Int) : ℚ))).1 := by
  induction fuel with
  | zero => intro k x y k1 h; simp [Game.samplePosition] at h
  | succ n ih =>
    intro k x y k1 h
    simp only [Game.samplePosition] at h
    split_ifs at h with hc
    · obtain ⟨j, hj, hk, hacc, hrej, hx, hy⟩ := ih _ _ _ _ h
      have e : k + 2 * (j + 1) = (m.uniform (m.uniform k 50
          (((Game.WINDOW_WIDTH - 50 : Int) : ℚ))).2 50
          (((Game.WINDOW_HEIGHT - 50 : Int) : ℚ))).2 + 2 * j := by
        simp only [Runtime.uniform]; omega
      refine ⟨j + 1, by omega, by rw [e]; exact hk, by rw [e]; exact hacc, ?_,
        by rw [e]; exact hx, by rw [e]; exact hy⟩
      intro i hi
      cases i with
      | zero =>
        intro hacc0
        exact hacc0 hc
      | succ i =>
        have e2 : k + 2 * (i + 1) = (m.uniform (m.uniform k 50
            (((Game.WINDOW_WIDTH - 50 : Int) : ℚ))).2 50
            (((Game.WINDOW_HEIGHT - 50 : Int) : ℚ))).2 + 2 * i := by
          simp only [Runtime.uniform]; omega
        rw [e2]
        exact hrej i (by omega)
    · simp only [Option.some.injEq, Prod.mk.injEq] at h
      obtain ⟨hx, hy, hk⟩ := h
      refine ⟨0, Nat.succ_pos n, ?_, hc, fun i hi => absurd hi (Nat.not_lt_zero i),
        hx.symm, hy.symm⟩
      rw [← hk]
      simp only [Runtime.uniform]

theorem samplePosition_isSome_iff (m : Runtime) (px py : ℚ) (fuel k : Nat) :
    (Game.samplePosition m px py fuel k).isSome = true ↔
      ∃ j, j < fuel ∧ Accepted m px py (k + 2 * j) := by
  constructor
  · intro h
    obtain ⟨⟨x, y, k1⟩, hv⟩ := Option.isSome_iff_exists.mp h
    obtain ⟨j, hj, _, hacc, _⟩ := samplePosition_first m px py fuel k x y k1 hv
    exact ⟨j, hj, hacc⟩
  · rintro ⟨j, hj, hacc⟩
    obtain ⟨x, y, k1, hv, _⟩ := samplePosition_of_accepted m px py fuel k j hj hacc
    rw [hv]
    rfl

/-- For every player position one of two generator outputs gives a kept sample. -/
theorem accepted_exists (px py : ℚ) :
    ∃ u : ℚ, 0 ≤ u ∧ u < 1 ∧
      ∀ (ints : Nat → Nat) (k : Nat), Accepted (approxRuntime (fun _ => u) ints) px py k := by
  by_cases h : |(50 : ℚ) - px| < 100
  · refine ⟨6 / 7, by norm_num, by norm_num, fun ints k => ?_⟩
    unfold Accepted
    simp only [Runtime.uniform, approxRuntime, Game.WINDOW_WIDTH, Game.WINDOW_HEIGHT]
    push_cast
    intro hc
    have h1 := (abs_lt.mp h).1
    have h2 := (abs_lt.mp hc.1).2
    linarith
  · refine ⟨0, le_refl _, by norm_num, fun ints k => ?_⟩
    unfold Accepted
    simp only [Runtime.uniform, approxRuntime, Game.WINDOW_WIDTH, Game.WINDOW_HEIGHT]
    push_cast
    intro hc
    apply h
    have e : (50 : ℚ) + (750 - 50) * 0 = 50 := by norm_num
    rw [← e]
    exact hc.1

/-- C26: in the 800 by 600 playfield, for every player position (px, py), the
placement loop of `spawnGhosts` returns the first sample (x, y) of the stream
with |x - px| ≥ 100 or |y - py| ≥ 100; a point of [50, 750] x [50, 550] with that
property exists and is a possible sample; and the loop, which has no iteration
cap, ends if and only if the stream yields such a sample at some iteration. -/
theorem C26_placement_loop (m : Runtime) (px py : ℚ) (k : Nat) :
    (∀ fuel x y k1, Game.samplePosition m px py fuel k = some (x, y, k1) →
      ∃ j, j < fuel ∧ k1 = k + 2 * j + 2 ∧
        (∀ i, i < j → ¬ Accepted m px py (k + 2 * i)) ∧
        x = (m.uniform (k + 2 * j) 50 (((Game.WINDOW_WIDTH - 50 : Int) : ℚ))).1 ∧
        y = (m.uniform (k + 2 * j + 1) 50 (((Game.WINDOW_HEIGHT - 50 : Int) : ℚ))).1 ∧
        (|x - px| ≥ 100 ∨ |y - py| ≥ 100)) ∧
    (∀ j, Accepted m px py (k + 2 * j) ↔
      (|(m.uniform (k + 2 * j) 50 (((Game.WINDOW_WIDTH - 50 : Int) : ℚ))).1 - px| ≥ 100 ∨
        |(m.uniform (k + 2 * j + 1) 50 (((Game.WINDOW_HEIGHT - 50 : Int) : ℚ))).1 - py|
          ≥ 100)) ∧
    ((∃ fuel, (Game.samplePosition m px py fuel k).isSome = true) ↔
      ∃ j, Accepted m px py (k + 2 * j)) ∧
    (∀ fuel, (∀ j, j < fuel → ¬ Accepted m px py (k + 2 * j)) →
      Game.samplePosition m px py fuel k = none) ∧
    (∃ x y : ℚ, 50 ≤ x ∧ x ≤ 750 ∧ 50 ≤ y ∧ y ≤ 550 ∧ (|x - px| ≥ 100 ∨ |y - py| ≥ 100) ∧
      ∃ u : ℚ, 0 ≤ u ∧ u < 1 ∧
        x = ((approxRuntime (fun _ => u) (fun _ => 0)).uniform k 50
          (((Game.WINDOW_WIDTH - 50 : Int) : ℚ))).1 ∧
        y = ((approxRuntime (fun _ => u) (fun _ => 0)).uniform (k + 1) 50
          (((Game.WINDOW_HEIGHT - 50 : Int) : ℚ))).1 ∧
        Placeable (approxRuntime (fun _ => u) (fun _ => 0)) 1 px py) := by
  have hacc : ∀ (m0 : Runtime) (a : Nat), Accepted m0 px py a ↔
      (|(m0.uniform a 50 (((Game.WINDOW_WIDTH - 50 : Int) : ℚ))).1 - px| ≥ 100 ∨
        |(m0.uniform (a + 1) 50 (((Game.WINDOW_HEIGHT - 50 : Int) : ℚ))).1 - py| ≥ 100) := by
    intro m0 a
    unfold Accepted
    rw [not_and_or, not_lt, not_lt]
  refine ⟨fun fuel x y k1 h => ?_, fun j => hacc m (k + 2 * j), ⟨?_, ?_⟩, fun fuel hn => ?_, ?_⟩
  · obtain ⟨j, hj, hk, ha, hrej, hx, hy⟩ := samplePosition_first m px py fuel k x y k1 h
    refine ⟨j, hj, hk, hrej, hx, hy, ?_⟩
    rw [hx, hy]
    exact (hacc m (k + 2 * j)).mp ha
  · rintro ⟨fuel, h⟩
    obtain ⟨j, _, ha⟩ := (samplePosition_isSome_iff m px py fuel k).mp h
    exact ⟨j, ha⟩
  · rintro ⟨j, ha⟩
    exact ⟨j + 1, (samplePosition_isSome_iff m px py (j + 1) k).mpr ⟨j, Nat.lt_succ_self j, ha⟩⟩
  · cases hs : Game.samplePosition m px py fuel k with
    | none => rfl
    | some v =>
      have : (Game.samplePosition m px py fuel k).isSome = true := by rw [hs]; rfl
      obtain ⟨j, hj, ha⟩ := (samplePosition_isSome_iff m px py fuel k).mp this
      exact absurd ha (hn j hj)
  · obtain ⟨u, hu0, hu1, ha⟩ := accepted_exists px py
    refine ⟨_, _, ?_, ?_, ?_, ?_, (hacc _ k).mp (ha (fun _ => 0) k), u, hu0, hu1, rfl, rfl,
      fun a => ⟨0, Nat.zero_lt_one, ha _ _⟩⟩ <;>
    · simp only [Runtime.uniform, approxRuntime, Game.WINDOW_WIDTH, Game.WINDOW_HEIGHT]
      push_cast
      nlinarith

/-! ### A fresh batch does not touch the player -/

theorem bounds_intersect_iff (s : Superman) (gh : Ghost) :
    s.getBounds.intersects gh.getBounds = true ↔
      |gh.position.x - s.position.x| < 45 ∧ |gh.position.y - s.position.y| < 45 := by
  have e1 : s.getBounds =
      ⟨s.position.x - 20, s.position.y - 20, 20 * 2, 20 * 2⟩ := by
    unfold Superman.getBounds Superman.SIZE
    norm_num
  have e2 : gh.getBounds =
      ⟨gh.position.x - 25, gh.position.y - 25, 25 * 2, 25 * 2⟩ := rfl
  rw [e1, e2, intersects_centered _ _ _ 20 25 _ (by norm_num) (by norm_num)]
  norm_num

/-- C30: the bounds of the player (40 by 40) and of a ghost (50 by 50), both
centred, intersect exactly when |dx| < 45 and |dy| < 45; every ghost built by
`spawnGhosts` has |dx| ≥ 100 or |dy| ≥ 100, so right after `spawnGhosts` no
ghost's bounds intersect the player's and a contact pass leaves the player as
it is. -/
theorem C30_fresh_batch_no_contact (m : Runtime) (fuel : Nat) (g : Game) :
    (∀ (s : Superman) (gh : Ghost), s.getBounds.intersects gh.getBounds = true ↔
      |gh.position.x - s.position.x| < 45 ∧ |gh.position.y - s.position.y| < 45) ∧
    (∀ g1, Game.spawnGhosts m fuel g = some g1 →
      g1.superman = g.superman ∧
      (∀ gh ∈ g1.ghosts,
        (|gh.position.x - g.superman.position.x| ≥ 100 ∨
          |gh.position.y - g.superman.position.y| ≥ 100) ∧
        g1.superman.getBounds.intersects gh.getBounds = false) ∧
      overlapping g1 = [] ∧
      (Game.checkSupermanGhostCollisions m g1).superman = g1.superman) ∧
    (Placeable m fuel g.superman.position.x g.superman.position.y →
      ∃ g1, Game.spawnGhosts m fuel g = some g1) := by
  refine ⟨bounds_intersect_iff, fun g1 h => ?_, spawnGhosts_of_placeable m fuel g⟩
  have hs : g1.superman = g.superman := by
    have := (spawnGhosts_some m fuel g g1 h).1
    rw [this]
  have hfar : ∀ gh ∈ g1.ghosts,
      (|gh.position.x - g.superman.position.x| ≥ 100 ∨
        |gh.position.y - g.superman.position.y| ≥ 100) ∧
      g1.superman.getBounds.intersects gh.getBounds = false := by
    intro gh hgh
    obtain ⟨i, hi⟩ := List.mem_iff_getElem?.mp hgh
    obtain ⟨kx, hk⟩ := (forall₂_range_getElem _ _ (spawnGhosts_batch m fuel g g1 h)).2 i gh hi
    have hp := (spawned_type m _ _ _ i gh kx hk).2
    have hacc := hk.1
    unfold Accepted at hacc
    rw [not_and_or, not_lt, not_lt] at hacc
    have hd : |gh.position.x - g.superman.position.x| ≥ 100 ∨
        |gh.position.y - g.superman.position.y| ≥ 100 := by
      rw [hp]
      exact hacc
    refine ⟨hd, ?_⟩
    rw [hs]
    cases hb : g.superman.getBounds.intersects gh.getBounds with
    | false => rfl
    | true =>
      obtain ⟨hx, hy⟩ := (bounds_intersect_iff g.superman gh).mp hb
      rcases hd with hd | hd
      · exact absurd hx (not_lt.mpr (le_trans (by norm_num) hd))
      · exact absurd hy (not_lt.mpr (le_trans (by norm_num) hd))
  have hnone : overlapping g1 = [] := by
    unfold overlapping
    rw [List.filter_eq_nil_iff]
    intro gh hgh
    rw [(hfar gh hgh).2]
    exact Bool.false_ne_true
  refine ⟨hs, hfar, hnone, ?_⟩
  have h1 := (contactPass_spec m g1.superman.getBounds g1.ghosts g1).1
  have e : (Game.checkSupermanGhostCollisions m g1).superman =
      (overlapping g1).foldl (fun s gh => s.takeDamage gh.getDamage) g1.superman := h1
  rw [e, hnone]
  rfl

theorem C30_fresh_batch_no_contact_witness :
    Placeable approxMath 1 levelThreeGame.superman.position.x
      levelThreeGame.superman.position.y ∧
    ∃ g1, Game.spawnGhosts approxMath 1 levelThreeGame = some g1 ∧
      g1.ghosts.length = 7 ∧
      (∀ gh ∈ g1.ghosts, g1.superman.getBounds.intersects gh.getBounds = false) ∧
      (Game.checkSupermanGhostCollisions approxMath g1).superman = g1.superman :=
  have hC := C30_fresh_batch_no_contact approxMath 1 levelThreeGame
  ⟨placeable_approxMath, (hC.2.2 placeable_approxMath).elim fun g1 h =>
    ⟨g1, h, (spawnGhosts_some approxMath 1 levelThreeGame g1 h).2,
      fun gh hgh => ((hC.2.1 g1 h).2.1 gh hgh).2, (hC.2.1 g1 h).2.2.2⟩⟩


/-! ### The chase velocity of a ghost -/

end SuperGame
